import Mathlib

/-!
# khata: templates, records and property bags

A shallow embedding of `khata.go`.  Go pointers become addresses (indices) into
an explicit heap; the `map[string]interface{}` behind a template or record is a
heap cell of its own, so two owners holding the same map hold the same address.
A method of the source becomes a function of the heap and the receiver's
address; it returns `none` where the Go code would fault (an address that was
never allocated) and, for the ancestor walks, where the given number of loop
iterations does not suffice.
-/

namespace khata

/-! ## Constants -/

def DEFAULT_EXIT_CODE : Int := 1
def DEFAULT_ERROR_CODE : Int := -1
def DEFAULT_MESSAGE : String := "error"
def DEFAULT_ERROR_TYPE : String := "KhataError"

/-! ## Data model -/

structure KhataTrace where
  file : String
  line : Int
  functionName : String
deriving DecidableEq, Repr

structure KhataExplanation where
  message : String
  file : String
  line : Int
  functionName : String
deriving DecidableEq, Repr

/-- One step of reading the bytes of a Go string as UTF-8, the way
`utf8.DecodeRuneInString` does: a rune, or a byte that begins no valid
encoding. -/
inductive GoRune where
  | rune (c : Char) : GoRune
  | invalid (byte : Nat) : GoRune
deriving DecidableEq, Repr

/-- A Go string: its bytes, read as runes and invalid bytes.  The text of an
error and the string values of properties are of this type; the other texts of
the model are `String`s, that is Go strings whose bytes are all valid UTF-8. -/
abbrev GoString := List GoRune

/-- The Go string of a text: the bytes of its UTF-8 encoding, all valid. -/
def GoString.ofString (s : String) : GoString := s.data.map GoRune.rune

instance : Coe String GoString := ⟨GoString.ofString⟩

/-- A value of Go type `interface{}`: the nil interface or a dynamic value.
`fn` stands for values such as funcs and channels. -/
inductive Value where
  | nil : Value
  | str (s : GoString) : Value
  | int (i : Int) : Value
  | bool (b : Bool) : Value
  | fn (id : Nat) : Value
deriving DecidableEq, Repr

/-- The dynamic type of a non-nil `error` value, as far as `==` on interface
values looks at it: its name, and whether Go can compare two values of it.  A
struct type with a slice, map or func field is not comparable. -/
structure ErrorType where
  name : String
  comparable : Bool
deriving DecidableEq, Repr

/-- The type `*errors.errorString` of the values `errors.New` makes: a pointer,
compared by address. -/
def errorString : ErrorType := ⟨"*errors.errorString", true⟩

/-- A non-nil value of Go type `error`: its dynamic type, the text `Error()`
returns, and `id`, which is the address for a pointer and stands for the value
for a type compared by value. -/
structure GoError where
  id : Nat
  msg : GoString
  dynType : ErrorType
deriving DecidableEq, Repr

/-- The Go comparison `a == b` of two non-nil interface values: false when the
dynamic types differ, a run-time panic (`none`) when both have one dynamic type
that is not comparable, the comparison of the two values otherwise. -/
def GoError.equal (a b : GoError) : Option Bool :=
  if a.dynType ≠ b.dynType then some false
  else if a.dynType.comparable then some (decide (a = b))
  else none

/-- The Go comparison `a == b` of two values of type `error`, nil included. -/
def interfaceEqual : Option GoError → Option GoError → Option Bool
  | none, none => some true
  | none, some _ => some false
  | some _, none => some false
  | some a, some b => GoError.equal a b

/-- Both values are non-nil and have one dynamic type that is not comparable:
the pairs on which `==` panics. -/
def uncomparablePair : Option GoError → Option GoError → Bool
  | some a, some b => decide (a.dynType = b.dynType) && !a.dynType.comparable
  | _, _ => false

/-- The contents of a `map[string]interface{}`: its entries, one per key. -/
abbrev Bag := List (String × Value)

/-- The Go expression `m[key]`: the stored value, or the zero value (nil). -/
def Bag.get : Bag → String → Value
  | [], _ => Value.nil
  | (k, v) :: rest, key => if k = key then v else Bag.get rest key

/-- The Go statement `m[key] = value`. -/
def Bag.set : Bag → String → Value → Bag
  | [], key, value => [(key, value)]
  | (k, v) :: rest, key, value =>
    if k = key then (k, value) :: rest else (k, v) :: Bag.set rest key value

/-- The Go statement `delete(m, key)`. -/
def Bag.delete : Bag → String → Bag
  | [], _ => []
  | (k, v) :: rest, key => if k = key then Bag.delete rest key else (k, v) :: Bag.delete rest key

/-- The keys in the order `for key := range m` yields them.  Go leaves that
order open; the list order stands for one such order and no statement below
depends on which. -/
def Bag.keys (b : Bag) : List String := b.map Prod.fst

/-- The Go expression `len(m)`. -/
def Bag.len (b : Bag) : Nat := b.length

structure KhataTemplate where
  message : String
  errorCode : Int
  errorType : String
  exitCode : Int
  properties : Nat
  parent : Option Nat
deriving DecidableEq, Repr

structure Khata where
  errorCode : Int
  errorType : String
  exitCode : Int
  createdAt : Nat
  Err : Option GoError
  properties : Nat
  traceStack : List KhataTrace
  explanationStack : List KhataExplanation
  template : Option Nat
deriving DecidableEq, Repr

/-- The heap: every template, record and map allocated so far, by address, and
the number of errors `errors.New` has made. -/
structure Heap where
  templates : List KhataTemplate
  records : List Khata
  bags : List Bag
  nextErr : Nat
deriving DecidableEq, Repr

def Heap.empty : Heap := ⟨[], [], [], 0⟩

/-- The Go call `errors.New(message)`: a fresh error value. -/
def errorsNew (h : Heap) (message : String) : Heap × GoError :=
  ({ h with nextErr := h.nextErr + 1 }, ⟨h.nextErr, message, errorString⟩)

/-! ## Package-level constructors -/

def Wrap (h : Heap) (now : Nat) (err : Option GoError) : Heap × Nat :=
  ({ h with
      bags := h.bags ++ [[]]
      records := h.records ++ [{
        Err := err
        createdAt := now
        errorCode := DEFAULT_ERROR_CODE
        errorType := DEFAULT_ERROR_TYPE
        exitCode := DEFAULT_EXIT_CODE
        explanationStack := []
        properties := h.bags.length
        traceStack := []
        template := none }] },
   h.records.length)

def New (h : Heap) (now : Nat) (message : String) : Heap × Nat :=
  let (h1, e) := errorsNew h message
  Wrap h1 now (some e)

def NewTemplate (h : Heap) : Heap × Nat :=
  ({ h with
      bags := h.bags ++ [[]]
      templates := h.templates ++ [{
        errorCode := DEFAULT_ERROR_CODE
        errorType := DEFAULT_ERROR_TYPE
        exitCode := DEFAULT_EXIT_CODE
        properties := h.bags.length
        message := DEFAULT_MESSAGE
        parent := none }] },
   h.templates.length)

/-! ## KhataTemplate methods -/

def KhataTemplate.Wrap (h : Heap) (now : Nat) (kt : Nat) (err : Option GoError) :
    Option (Heap × Nat) := do
  let t ← h.templates[kt]?
  pure ({ h with
      records := h.records ++ [{
        Err := err
        createdAt := now
        errorCode := t.errorCode
        errorType := t.errorType
        exitCode := t.exitCode
        explanationStack := []
        properties := t.properties
        traceStack := []
        template := some kt }] },
    h.records.length)

def KhataTemplate.NewWithMessage (h : Heap) (now : Nat) (kt : Nat) (message : String) :
    Option (Heap × Nat) :=
  let (h1, e) := errorsNew h message
  KhataTemplate.Wrap h1 now kt (some e)

/-- The loop of `KhataTemplate.New`: `i` is the index of the head of `rest`,
`n` is `len(message)`. -/
def joinLoop (n : Nat) : Nat → List String → String → String
  | _, [], inputMessage => inputMessage
  | i, m :: rest, inputMessage =>
    let inputMessage := inputMessage ++ m
    let inputMessage := if (i : Int) < (n : Int) - 1 then inputMessage ++ "\n" else inputMessage
    joinLoop n (i + 1) rest inputMessage

def KhataTemplate.New (h : Heap) (now : Nat) (kt : Nat) (message : List String) :
    Option (Heap × Nat) := do
  let t ← h.templates[kt]?
  let inputMessage := joinLoop message.length 0 message ""
  let inputMessage := if inputMessage = "" then t.message else inputMessage
  let (h1, e) := errorsNew h inputMessage
  KhataTemplate.Wrap h1 now kt (some e)

def KhataTemplate.Message (h : Heap) (kt : Nat) : Option String :=
  (h.templates[kt]?).map (·.message)

def KhataTemplate.SetMessage (h : Heap) (kt : Nat) (message : String) : Option (Heap × Nat) := do
  let t ← h.templates[kt]?
  pure ({ h with templates := h.templates.set kt { t with message := message } }, kt)

def KhataTemplate.Code (h : Heap) (kt : Nat) : Option Int :=
  (h.templates[kt]?).map (·.errorCode)

def KhataTemplate.SetCode (h : Heap) (kt : Nat) (code : Int) : Option (Heap × Nat) := do
  let t ← h.templates[kt]?
  pure ({ h with templates := h.templates.set kt { t with errorCode := code } }, kt)

def KhataTemplate.Type (h : Heap) (kt : Nat) : Option String :=
  (h.templates[kt]?).map (·.errorType)

def KhataTemplate.SetType (h : Heap) (kt : Nat) (errorType : String) : Option (Heap × Nat) := do
  let t ← h.templates[kt]?
  pure ({ h with templates := h.templates.set kt { t with errorType := errorType } }, kt)

def KhataTemplate.ExitCode (h : Heap) (kt : Nat) : Option Int :=
  (h.templates[kt]?).map (·.exitCode)

def KhataTemplate.SetExitCode (h : Heap) (kt : Nat) (code : Int) : Option (Heap × Nat) := do
  let t ← h.templates[kt]?
  pure ({ h with templates := h.templates.set kt { t with exitCode := code } }, kt)

def KhataTemplate.SetProperty (h : Heap) (kt : Nat) (key : String) (value : Value) :
    Option (Heap × Nat) := do
  let t ← h.templates[kt]?
  let m ← h.bags[t.properties]?
  pure ({ h with bags := h.bags.set t.properties (m.set key value) }, kt)

/-- The slice `make([]string, n)`: `n` empty strings. -/
def makeStrings (n : Nat) : List String := List.replicate n ""

def KhataTemplate.PropertiesKeys (h : Heap) (kt : Nat) : Option (List String) := do
  let t ← h.templates[kt]?
  let m ← h.bags[t.properties]?
  let keys := makeStrings m.len
  pure (m.keys.foldl (fun keys key => keys ++ [key]) keys)

def KhataTemplate.GetProperty (h : Heap) (kt : Nat) (key : String) : Option Value := do
  let t ← h.templates[kt]?
  let m ← h.bags[t.properties]?
  pure (m.get key)

def KhataTemplate.RemoveProperty (h : Heap) (kt : Nat) (key : String) : Option (Heap × Nat) := do
  let t ← h.templates[kt]?
  let m ← h.bags[t.properties]?
  pure ({ h with bags := h.bags.set t.properties (m.delete key) }, kt)

def KhataTemplate.HasProperty (h : Heap) (kt : Nat) (key : String) : Option Bool := do
  let t ← h.templates[kt]?
  let m ← h.bags[t.properties]?
  pure (decide (m.get key ≠ Value.nil))

def KhataTemplate.Extend (h : Heap) (kt : Nat) : Option (Heap × Nat) := do
  let t ← h.templates[kt]?
  pure ({ h with
      templates := h.templates ++ [{
        errorCode := t.errorCode
        errorType := t.errorType
        exitCode := t.exitCode
        properties := t.properties
        message := t.message
        parent := some kt }] },
    h.templates.length)

def KhataTemplate.IsInstanceOf (h : Heap) (t : Nat) (kt : Option Nat) : Option Bool := do
  let tt ← h.templates[t]?
  pure (decide (tt.parent = kt))

def KhataTemplate.IsParentOf (h : Heap) (t : Nat) (kt : Nat) : Option Bool := do
  let k ← h.templates[kt]?
  pure (decide (k.parent = some t))

/-- The `for` loop shared by both `IsRelatedTo` methods, run for at most `fuel`
iterations from `templateToCheck`; `none` when the iterations are used up. -/
def walk (h : Heap) (kt : Option Nat) : Nat → Option Nat → Option Bool
  | 0, _ => none
  | fuel + 1, templateToCheck =>
    match templateToCheck with
    | none => some false
    | some a =>
      if some a = kt then some true
      else
        match h.templates[a]? with
        | none => none
        | some tt => walk h kt fuel tt.parent

def KhataTemplate.IsRelatedTo (h : Heap) (fuel : Nat) (t : Nat) (kt : Option Nat) :
    Option Bool := do
  let tt ← h.templates[t]?
  walk h kt fuel tt.parent

def KhataTemplate.Apply (h : Heap) (kt : Nat) (k : Nat) : Option (Heap × Nat) := do
  let t ← h.templates[kt]?
  let r ← h.records[k]?
  let code ← KhataTemplate.Code h kt
  let type ← KhataTemplate.Type h kt
  let exit ← KhataTemplate.ExitCode h kt
  let src ← h.bags[t.properties]?
  let dst ← h.bags[r.properties]?
  let dst := src.foldl (fun m kv => m.set kv.1 kv.2) dst
  pure ({ h with
      bags := h.bags.set r.properties dst
      records := h.records.set k
        { r with errorCode := code, errorType := type, exitCode := exit, template := some kt } },
    k)

/-! ## Khata methods -/

/-- The method `Error`: `none` is the nil dereference of a record whose `Err` is nil. -/
def Khata.Error (h : Heap) (k : Nat) : Option GoString := do
  let r ← h.records[k]?
  let e ← r.Err
  pure e.msg

def Khata.SetError (h : Heap) (k : Nat) (err : Option GoError) : Option (Heap × Nat) := do
  let r ← h.records[k]?
  pure ({ h with records := h.records.set k { r with Err := err } }, k)

def Khata.IsInstanceOf (h : Heap) (k : Nat) (kt : Option Nat) : Option Bool := do
  let r ← h.records[k]?
  pure (decide (r.template = kt))

def Khata.IsRelatedTo (h : Heap) (fuel : Nat) (k : Nat) (kt : Option Nat) : Option Bool := do
  let r ← h.records[k]?
  walk h kt fuel r.template

def Khata.Code (h : Heap) (k : Nat) : Option Int :=
  (h.records[k]?).map (·.errorCode)

def Khata.SetCode (h : Heap) (k : Nat) (code : Int) : Option (Heap × Nat) := do
  let r ← h.records[k]?
  pure ({ h with records := h.records.set k { r with errorCode := code } }, k)

def Khata.Type (h : Heap) (k : Nat) : Option String :=
  (h.records[k]?).map (·.errorType)

def Khata.SetType (h : Heap) (k : Nat) (errorType : String) : Option (Heap × Nat) := do
  let r ← h.records[k]?
  pure ({ h with records := h.records.set k { r with errorType := errorType } }, k)

def Khata.PropertiesKeys (h : Heap) (k : Nat) : Option (List String) := do
  let r ← h.records[k]?
  let m ← h.bags[r.properties]?
  let keys := makeStrings m.len
  pure (m.keys.foldl (fun keys key => keys ++ [key]) keys)

def Khata.GetProperty (h : Heap) (k : Nat) (key : String) : Option Value := do
  let r ← h.records[k]?
  let m ← h.bags[r.properties]?
  pure (m.get key)

def Khata.HasProperty (h : Heap) (k : Nat) (key : String) : Option Bool := do
  let r ← h.records[k]?
  let m ← h.bags[r.properties]?
  pure (decide (m.get key ≠ Value.nil))

def Khata.SetProperty (h : Heap) (k : Nat) (key : String) (value : Value) :
    Option (Heap × Nat) := do
  let r ← h.records[k]?
  let m ← h.bags[r.properties]?
  pure ({ h with bags := h.bags.set r.properties (m.set key value) }, k)

def Khata.RemoveProperty (h : Heap) (k : Nat) (key : String) : Option (Heap × Nat) := do
  let r ← h.records[k]?
  let m ← h.bags[r.properties]?
  pure ({ h with bags := h.bags.set r.properties (m.delete key) }, k)

def Khata.ExitCode (h : Heap) (k : Nat) : Option Int :=
  (h.records[k]?).map (·.exitCode)

def Khata.SetExitCode (h : Heap) (k : Nat) (code : Int) : Option (Heap × Nat) := do
  let r ← h.records[k]?
  pure ({ h with records := h.records.set k { r with exitCode := code } }, k)

def Khata.Explanations (h : Heap) (k : Nat) : Option (List KhataExplanation) :=
  (h.records[k]?).map (·.explanationStack)

/-! ## Heaps the package can build

Every pointer stored in a template or record made by the package's constructors
refers to something allocated earlier: a template's parent is older than the
template, every map and template reference is allocated, and a map holds one entry per key. -/

def KhataTemplate.ok (nb a : Nat) (t : KhataTemplate) : Bool :=
  decide (t.properties < nb) &&
    (match t.parent with
     | none => true
     | some p => decide (p < a))

def Khata.ok (nb nt : Nat) (r : Khata) : Bool :=
  decide (r.properties < nb) &&
    (match r.template with
     | none => true
     | some t => decide (t < nt))

def Heap.wf (h : Heap) : Bool :=
  (List.range h.templates.length).all (fun a =>
      match h.templates[a]? with
      | none => true
      | some t => t.ok h.bags.length a) &&
    h.records.all (Khata.ok h.bags.length h.templates.length) &&
    h.bags.all (fun m => decide m.keys.Nodup)

/-- The heap invariant kept by every operation of the package. -/
def WF (h : Heap) : Prop := h.wf = true

instance (h : Heap) : Decidable (WF h) := by unfold WF; infer_instance

/-- The relation `u` is reached from template `t` by following parent links one
or more times. -/
inductive Ancestor (h : Heap) : Nat → Nat → Prop
  | parent {t u : Nat} {tt : KhataTemplate} :
      h.templates[t]? = some tt → tt.parent = some u → Ancestor h t u
  | step {t p u : Nat} {tt : KhataTemplate} :
      h.templates[t]? = some tt → tt.parent = some p → Ancestor h p u → Ancestor h t u

/-- The text `strings.Join(ms, "\n")`. -/
def joinLines (ms : List String) : String := String.intercalate "\n" ms

/-- The map behind template `kt`. -/
def Heap.templateBag (h : Heap) (kt : Nat) : Option Bag := do
  let t ← h.templates[kt]?
  h.bags[t.properties]?

/-- The map behind record `k`. -/
def Heap.recordBag (h : Heap) (k : Nat) : Option Bag := do
  let r ← h.records[k]?
  h.bags[r.properties]?

/-- A heap for examples: template 0 made by `NewTemplate` holds the property
"k", record 0 made by the package-level `New` holds the property "j". -/
def exampleHeap : Heap :=
  let (h0, T) := NewTemplate Heap.empty
  let (h1, R) := New h0 0 "boom"
  (((KhataTemplate.SetProperty h1 T "k" (Value.int 1)).bind
      (fun p => Khata.SetProperty p.1 R "j" (Value.int 2))).map Prod.fst).getD Heap.empty

/-- A heap for examples: template 0 made by `NewTemplate`, template 1 extending
it and template 2 extending template 1. -/
def exampleChain : Heap :=
  let (h0, T) := NewTemplate Heap.empty
  (((KhataTemplate.Extend h0 T).bind
      (fun p => KhataTemplate.Extend p.1 p.2)).map Prod.fst).getD Heap.empty

/-- The heaps built only with `NewTemplate` and `Extend`. -/
inductive Built : Heap → Prop
  | empty : Built Heap.empty
  | newTemplate {h : Heap} : Built h → Built (NewTemplate h).1
  | extend {h h2 : Heap} {T T2 : Nat} :
      Built h → KhataTemplate.Extend h T = some (h2, T2) → Built h2

/-! ## The call stack

The stack of the running goroutine is a list of logical frames, innermost
first.  A method that inspects the stack takes the frames of its callers (the
calling function first) and pushes its own frames on top. -/

/-- A call frame as `runtime.Frame` reports it. -/
structure Frame where
  File : String
  Line : Int
  Function : String
deriving DecidableEq, Repr

/-- The zero value of `runtime.Frame`. -/
def Frame.zero : Frame := ⟨"", 0, ""⟩

/-- The frame of `runtime.Callers` itself, index 0 of every stack it sees; both
callers skip it, so its contents reach no result. -/
def callersFrame : Frame := ⟨"extern.go", 0, "runtime.Callers"⟩

def packagePrefix : String := "github.com/cmseguin/khata."

/-- The frame of a function of this package stopped at `line` of khata.go; the
file stands for the path of khata.go on the build machine. -/
def khataFrame (line : Int) (fn : String) : Frame := ⟨"khata.go", line, packagePrefix ++ fn⟩

/-- The calls `runtime.Callers(skip, pc[:])` with `len(pc) = size` and
`runtime.CallersFrames(pc[:depth])`: the frames of `stack`, whose index 0 is
`runtime.Callers` itself, without the first `skip` and cut to `size`. -/
def runtimeCallers (stack : List Frame) (skip size : Nat) : List Frame :=
  (stack.drop skip).take size

/-- The call `frames.Next()`: the next frame, whether a further frame follows
it, and the frames left.  With no frame left it gives the zero frame. -/
def framesNext : List Frame → Frame × Bool × List Frame
  | [] => (Frame.zero, false, [])
  | [frame] => (frame, false, [])
  | frame :: next :: rest => (frame, true, next :: rest)

def collectCallerTrace (stack : List Frame) : KhataTrace :=
  let frames := runtimeCallers stack 3 128
  let (frame, _, _) := framesNext frames
  { file := frame.File, line := frame.Line, functionName := frame.Function }

/-- The test `len(frame.Function) > len(packagePrefix) &&
packagePrefix == frame.Function[:len(packagePrefix)]`.  Go counts and cuts bytes,
the model characters; the prefix is ASCII, for which the two tests agree. -/
def underPackage (function : String) : Bool :=
  decide (function.length > packagePrefix.length) &&
    decide (packagePrefix = function.take packagePrefix.length)

/-- The `for` loop of `collectTrace` over the frames not yet yielded: each round
takes `frames.Next()`, breaks when no further frame follows the one taken, skips
a frame under the package prefix and appends any other. -/
def collectTraceLoop : List Frame → List KhataTrace → List KhataTrace
  | [], trace => trace
  | [_], trace => trace
  | frame :: next :: rest, trace =>
    if underPackage frame.Function then collectTraceLoop (next :: rest) trace
    else collectTraceLoop (next :: rest)
      (trace ++ [{ file := frame.File, line := frame.Line, functionName := frame.Function }])

def collectTrace (stack : List Frame) : List KhataTrace :=
  collectTraceLoop (runtimeCallers stack 1 128) []

/-! ## Khata methods that read the stack, compare errors or serialize -/

def Khata.Is (h : Heap) (k : Nat) (err : Option GoError) : Option Bool := do
  let r ← h.records[k]?
  if err = none ∨ r.Err = none then pure false
  else interfaceEqual r.Err err

def Khata.IsAny (h : Heap) (k : Nat) : List (Option GoError) → Option Bool
  | [] => pure false
  | err :: errs => do
    if (← Khata.Is h k err) then pure true
    else Khata.IsAny h k errs

def Khata.Trace (h : Heap) (callers : List Frame) (k : Nat) :
    Option (Heap × List KhataTrace) := do
  let trace := collectTrace
    (callersFrame :: khataFrame 697 "collectTrace" :: khataFrame 297 "(*Khata).Trace" :: callers)
  let r ← h.records[k]?
  pure ({ h with records := h.records.set k { r with traceStack := trace } }, trace)

def Khata.Explain (h : Heap) (callers : List Frame) (k : Nat) (explanation : String) :
    Option (Heap × Nat) := do
  let lastTrace := collectCallerTrace
    (callersFrame :: khataFrame 682 "collectCallerTrace" ::
      khataFrame 419 "(*Khata).Explain" :: callers)
  let r ← h.records[k]?
  pure ({ h with records := h.records.set k { r with
      explanationStack := r.explanationStack ++ [{
        message := explanation
        file := lastTrace.file
        line := lastTrace.line
        functionName := lastTrace.functionName }] } }, k)

/-- The method `Explainf`; `sprintf` stands for `fmt.Sprintf`. -/
def Khata.Explainf (sprintf : String → List Value → String) (h : Heap) (callers : List Frame)
    (k : Nat) (format : String) (args : List Value) : Option (Heap × Nat) := do
  let lastTrace := collectCallerTrace
    (callersFrame :: khataFrame 682 "collectCallerTrace" ::
      khataFrame 433 "(*Khata).Explainf" :: callers)
  let r ← h.records[k]?
  pure ({ h with records := h.records.set k { r with
      explanationStack := r.explanationStack ++ [{
        message := sprintf format args
        file := lastTrace.file
        line := lastTrace.line
        functionName := lastTrace.functionName }] } }, k)

def Khata.IsFatal (h : Heap) (k : Nat) : Option Bool :=
  (h.records[k]?).map (fun r => decide (r.exitCode ≠ -1))

/-- The Go value handed to `json.Marshal`: a leaf of type `interface{}`, a slice
or a `map[string]interface{}`. -/
inductive Doc where
  | val (v : Value) : Doc
  | arr (items : List Doc) : Doc
  | obj (fields : List (String × Doc)) : Doc

/-- The entry of a map document under `key`. -/
def Doc.field : Doc → String → Option Doc
  | Doc.obj fields, key => fields.lookup key
  | _, _ => none

def traceDoc (t : KhataTrace) : Doc :=
  Doc.obj [("file", Doc.val (Value.str t.file)), ("line", Doc.val (Value.int t.line)),
    ("functionName", Doc.val (Value.str t.functionName))]

def explanationDoc (e : KhataExplanation) : Doc :=
  Doc.obj [("file", Doc.val (Value.str e.file)), ("line", Doc.val (Value.int e.line)),
    ("functionName", Doc.val (Value.str e.functionName)),
    ("message", Doc.val (Value.str e.message))]

/-- The map literal that `ToJSON` hands to `json.Marshal`; `layout` stands for
`Time.Format` with the layout of the source. -/
def Khata.document (layout : Nat → String) (traceMap explanationsMap : List Doc)
    (error : GoString) (r : Khata) (properties : Bag) (now : Nat) : Doc :=
  Doc.obj [
    ("trace", Doc.arr traceMap),
    ("explanations", Doc.arr explanationsMap),
    ("error", Doc.val (Value.str error)),
    ("errorType", Doc.val (Value.str r.errorType)),
    ("errorCode", Doc.val (Value.int r.errorCode)),
    ("exitCode", Doc.val (Value.int r.exitCode)),
    ("createdAt", Doc.val (Value.str (layout r.createdAt))),
    ("properties", Doc.obj (properties.map (fun kv => (kv.1, Doc.val kv.2)))),
    ("handledAt", Doc.val (Value.str (layout now)))]

/-- The method `ToJSON`.  `marshal` stands for `json.Marshal` (`none` is its
error result), `now` for `time.Now().UTC()`; the result `none` is a panic. -/
def Khata.ToJSON (marshal : Doc → Option String) (layout : Nat → String) (h : Heap)
    (callers : List Frame) (now : Nat) (k : Nat) : Option (Heap × String) := do
  let (h1, trace) ← Khata.Trace h (khataFrame 566 "(*Khata).ToJSON" :: callers) k
  let explanations ← Khata.Explanations h1 k
  let traceMap := trace.map traceDoc
  let explanationsMap := explanations.map explanationDoc
  let r ← h1.records[k]?
  let error ← Khata.Error h1 k
  let properties ← h1.bags[r.properties]?
  match marshal (Khata.document layout traceMap explanationsMap error r properties now) with
  | none => pure (h1, "")
  | some jsonStr => pure (h1, jsonStr)

/-! ## The text `json.Marshal` writes

The encoder of Go's `encoding/json`, for the values `ToJSON` hands to it:
strings are written as `appendString` writes them with HTML escaping on (Go
1.22 and later write backspace and form feed as `\b` and `\f`, earlier releases
as `\u0008` and `\u000c`), integers in decimal, the entries of a map in the
order of their keys, and a func or channel makes the call fail. -/

/-- The lower-case hexadecimal digit of `n < 16`. -/
def hexDigit (n : Nat) : Char :=
  if n < 10 then Char.ofNat (48 + n) else Char.ofNat (87 + n)

/-- The four hexadecimal digits of `n < 65536`. -/
def hex4 (n : Nat) : List Char :=
  [hexDigit (n / 4096 % 16), hexDigit (n / 256 % 16), hexDigit (n / 16 % 16), hexDigit (n % 16)]

/-- How a rune of a string is written: the quote, the backslash, the control
characters, `<`, `>`, `&`, U+2028 and U+2029 are escaped, any other rune is
copied. -/
def escapeChar (c : Char) : List Char :=
  if c = '"' then ['\\', '"']
  else if c = '\\' then ['\\', '\\']
  else if c.toNat = 8 then ['\\', 'b']
  else if c.toNat = 12 then ['\\', 'f']
  else if c = '\n' then ['\\', 'n']
  else if c = '\r' then ['\\', 'r']
  else if c = '\t' then ['\\', 't']
  else if c.toNat < 32 ∨ c = '<' ∨ c = '>' ∨ c = '&' ∨ c.toNat = 8232 ∨ c.toNat = 8233 then
    '\\' :: 'u' :: hex4 c.toNat
  else [c]

/-- How one step of a string is written: an invalid byte becomes the escape of
U+FFFD, the replacement character. -/
def escapeRune : GoRune → List Char
  | GoRune.rune c => escapeChar c
  | GoRune.invalid _ => ['\\', 'u', 'f', 'f', 'f', 'd']

def escapeRunes : GoString → List Char
  | [] => []
  | r :: rest => escapeRune r ++ escapeRunes rest

/-- A string as `json.Marshal` writes it. -/
def jsonString (s : GoString) : List Char :=
  '"' :: escapeRunes s ++ ['"']

/-- An integer as `json.Marshal` writes it. -/
def jsonInt (i : Int) : List Char :=
  if i < 0 then '-' :: Nat.toDigits 10 (-i).toNat else Nat.toDigits 10 i.toNat

/-- A leaf as `json.Marshal` writes it; `none` is the error it returns for a
value of an unsupported type. -/
def encodeValue : Value → Option (List Char)
  | Value.nil => some ['n', 'u', 'l', 'l']
  | Value.str s => some (jsonString s)
  | Value.int i => some (jsonInt i)
  | Value.bool b => some (if b then ['t', 'r', 'u', 'e'] else ['f', 'a', 'l', 's', 'e'])
  | Value.fn _ => none

/-- The texts of the parts of an array or object, with commas between them. -/
def joinComma : List (List Char) → List Char
  | [] => []
  | [x] => x
  | x :: y :: rest => x ++ ',' :: joinComma (y :: rest)

/-- The order of map keys: that of their bytes, which for texts is the order of
their runes. -/
def keyLess : List Char → List Char → Bool
  | _, [] => false
  | [], _ :: _ => true
  | a :: as, b :: bs =>
    if a.toNat < b.toNat then true
    else if b.toNat < a.toNat then false
    else keyLess as bs

def insertField {α : Type} (kv : String × α) : List (String × α) → List (String × α)
  | [] => [kv]
  | x :: rest => if keyLess kv.1.data x.1.data then kv :: x :: rest else x :: insertField kv rest

/-- The entries of a map in the order of their keys. -/
def sortFields {α : Type} (fields : List (String × α)) : List (String × α) :=
  fields.foldr insertField []

/-- One entry of an object: the key, a colon, the text of the value. -/
def memberText (kv : String × List Char) : List Char :=
  jsonString (GoString.ofString kv.1) ++ ':' :: kv.2

mutual
/-- The text `json.Marshal` writes for a document; `none` is its error. -/
def jsonEncode : Doc → Option (List Char)
  | Doc.val v => encodeValue v
  | Doc.arr items =>
    (jsonEncodeItems items).map (fun parts => '[' :: joinComma parts ++ [']'])
  | Doc.obj fields =>
    (jsonEncodeFields fields).map
      (fun members => '{' :: joinComma ((sortFields members).map memberText) ++ ['}'])
/-- The texts of the elements of a slice. -/
def jsonEncodeItems : List Doc → Option (List (List Char))
  | [] => some []
  | d :: rest => do
    let a ← jsonEncode d
    let b ← jsonEncodeItems rest
    pure (a :: b)
/-- The keys of a map with the texts of their values. -/
def jsonEncodeFields : List (String × Doc) → Option (List (String × List Char))
  | [] => some []
  | (k, d) :: rest => do
    let a ← jsonEncode d
    let b ← jsonEncodeFields rest
    pure ((k, a) :: b)
end

/-- The call `json.Marshal(doc)`: the text, or `none` for its error. -/
def jsonMarshal (doc : Doc) : Option String := (jsonEncode doc).map String.mk

/-! ## The value of a JSON text

JSON values, and the texts of the JSON grammar (RFC 8259, without white space
and with integers for numbers) that denote them. -/

inductive Json where
  | null : Json
  | bool (b : Bool) : Json
  | num (i : Int) : Json
  | str (s : String) : Json
  | arr (items : List Json) : Json
  | obj (members : List (String × Json)) : Json

/-- The value of a hexadecimal digit. -/
def hexValue (c : Char) : Option Nat :=
  if 48 ≤ c.toNat ∧ c.toNat ≤ 57 then some (c.toNat - 48)
  else if 97 ≤ c.toNat ∧ c.toNat ≤ 102 then some (c.toNat - 87)
  else if 65 ≤ c.toNat ∧ c.toNat ≤ 70 then some (c.toNat - 55)
  else none

/-- The ways to write one character inside a JSON string: itself, unless it is
the quote, the backslash or a control character; a two-character escape; or
`\u` and four hexadecimal digits. -/
inductive CharText : Char → List Char → Prop
  | plain (c : Char) : c ≠ '"' → c ≠ '\\' → 32 ≤ c.toNat → CharText c [c]
  | quote : CharText '"' ['\\', '"']
  | backslash : CharText '\\' ['\\', '\\']
  | slash : CharText '/' ['\\', '/']
  | backspace (c : Char) : c.toNat = 8 → CharText c ['\\', 'b']
  | formFeed (c : Char) : c.toNat = 12 → CharText c ['\\', 'f']
  | lineFeed : CharText '\n' ['\\', 'n']
  | carriageReturn : CharText '\r' ['\\', 'r']
  | tab : CharText '\t' ['\\', 't']
  | unicode (c a b d e : Char) (na nb nd ne : Nat) :
    hexValue a = some na → hexValue b = some nb → hexValue d = some nd → hexValue e = some ne →
    c.toNat = 4096 * na + 256 * nb + 16 * nd + ne → CharText c ['\\', 'u', a, b, d, e]

/-- The characters of a string and a way to write them one after another. -/
inductive CharsText : List Char → List Char → Prop
  | nil : CharsText [] []
  | cons (c : Char) (cs rest ds : List Char) :
    CharText c cs → CharsText rest ds → CharsText (c :: rest) (cs ++ ds)

/-- The text is a JSON string that denotes `s`. -/
def StringText (s : String) (text : List Char) : Prop :=
  ∃ body, text = '"' :: body ++ ['"'] ∧ CharsText s.data body

/-- The value of a decimal digit. -/
def digitValue (c : Char) : Option Nat :=
  if 48 ≤ c.toNat ∧ c.toNat ≤ 57 then some (c.toNat - 48) else none

/-- The number that decimal digits after the digits of `acc` denote. -/
def digitsValue (acc : Nat) : List Char → Option Nat
  | [] => some acc
  | c :: rest => (digitValue c).bind (fun d => digitsValue (10 * acc + d) rest)

/-- The text is the decimal numeral of `n`: one digit at least, no leading zero. -/
def NatText (n : Nat) (text : List Char) : Prop :=
  text ≠ [] ∧ digitsValue 0 text = some n ∧ (text = ['0'] ∨ text.head? ≠ some '0')

/-- The text is a JSON number that denotes the integer `i`. -/
def IntText (i : Int) (text : List Char) : Prop :=
  (0 ≤ i ∧ NatText i.toNat text) ∨
    (i < 0 ∧ ∃ digits, text = '-' :: digits ∧ NatText (-i).toNat digits)

mutual
/-- The text is a JSON text that denotes the value. -/
inductive JsonText : Json → List Char → Prop
  | null : JsonText Json.null ['n', 'u', 'l', 'l']
  | true : JsonText (Json.bool Bool.true) ['t', 'r', 'u', 'e']
  | false : JsonText (Json.bool Bool.false) ['f', 'a', 'l', 's', 'e']
  | num (i : Int) (text : List Char) : IntText i text → JsonText (Json.num i) text
  | str (s : String) (text : List Char) : StringText s text → JsonText (Json.str s) text
  | emptyArr : JsonText (Json.arr []) ['[', ']']
  | arr (items : List Json) (body : List Char) :
    ItemsText items body → JsonText (Json.arr items) ('[' :: body ++ [']'])
  | emptyObj : JsonText (Json.obj []) ['{', '}']
  | obj (members : List (String × Json)) (body : List Char) :
    MembersText members body → JsonText (Json.obj members) ('{' :: body ++ ['}'])
/-- The text is the elements of a non-empty array, separated by commas. -/
inductive ItemsText : List Json → List Char → Prop
  | one (j : Json) (text : List Char) : JsonText j text → ItemsText [j] text
  | cons (j : Json) (text : List Char) (rest : List Json) (body : List Char) :
    JsonText j text → ItemsText rest body → ItemsText (j :: rest) (text ++ ',' :: body)
/-- The text is the members of a non-empty object, separated by commas. -/
inductive MembersText : List (String × Json) → List Char → Prop
  | one (k : String) (j : Json) (key text : List Char) :
    StringText k key → JsonText j text → MembersText [(k, j)] (key ++ ':' :: text)
  | cons (k : String) (j : Json) (key text : List Char) (rest : List (String × Json))
    (body : List Char) :
    StringText k key → JsonText j text → MembersText rest body →
    MembersText ((k, j) :: rest) (key ++ ':' :: text ++ ',' :: body)
end

/-- A member and the text of an entry go together: one key, and a text that
denotes the value. -/
def MemberOf (m : String × Json) (t : String × List Char) : Prop :=
  m.1 = t.1 ∧ JsonText m.2 t.2

/-! ## The JSON value of a document -/

/-- What a reader of the text gets for one step of a string: the rune, or
U+FFFD for an invalid byte. -/
def GoRune.read : GoRune → Char
  | GoRune.rune c => c
  | GoRune.invalid _ => Char.ofNat 65533

/-- The JSON value of a leaf; a func or channel has none. -/
def valueJson : Value → Option Json
  | Value.nil => some Json.null
  | Value.str s => some (Json.str (String.mk (s.map GoRune.read)))
  | Value.int i => some (Json.num i)
  | Value.bool b => some (Json.bool b)
  | Value.fn _ => none

mutual
/-- The JSON value of a document: that of its leaves, the members of an object
in the order of their keys. -/
def docJson : Doc → Option Json
  | Doc.val v => valueJson v
  | Doc.arr items => (docJsonItems items).map Json.arr
  | Doc.obj fields => (docJsonFields fields).map (fun members => Json.obj (sortFields members))
def docJsonItems : List Doc → Option (List Json)
  | [] => some []
  | d :: rest => do
    let a ← docJson d
    let b ← docJsonItems rest
    pure (a :: b)
def docJsonFields : List (String × Doc) → Option (List (String × Json))
  | [] => some []
  | (k, d) :: rest => do
    let a ← docJson d
    let b ← docJsonFields rest
    pure ((k, a) :: b)
end

/-- The leaf is of a type `json.Marshal` supports: not a func or channel. -/
def Value.encodable : Value → Bool
  | Value.fn _ => false
  | _ => true

/-- The JSON object of one trace entry. -/
def traceJson (t : KhataTrace) : Json :=
  Json.obj [("file", Json.str t.file), ("functionName", Json.str t.functionName),
    ("line", Json.num t.line)]

/-- The JSON object of one explanation. -/
def explanationJson (e : KhataExplanation) : Json :=
  Json.obj [("file", Json.str e.file), ("functionName", Json.str e.functionName),
    ("line", Json.num e.line), ("message", Json.str e.message)]

/-- A heap for examples: `exampleHeap` after `Explain("why")` on record 0, called
from line 12 of a function `main.main`. -/
def exampleExplained : Heap :=
  ((Khata.Explain exampleHeap [⟨"/app/main.go", 12, "main.main"⟩] 0 "why").map Prod.fst).getD
    Heap.empty

/-! ## Sequences of calls on records -/

/-- One call of a method on an existing record: a setter, a property operation,
`SetError`, `Explain`, `Explainf`, `Trace`, or `Apply` of the template `kt`. -/
inductive RecordOp where
  | SetCode (code : Int) : RecordOp
  | SetType (errorType : String) : RecordOp
  | SetExitCode (code : Int) : RecordOp
  | SetError (err : Option GoError) : RecordOp
  | SetProperty (key : String) (value : Value) : RecordOp
  | RemoveProperty (key : String) : RecordOp
  | Explain (callers : List Frame) (explanation : String) : RecordOp
  | Explainf (callers : List Frame) (format : String) (args : List Value) : RecordOp
  | Trace (callers : List Frame) : RecordOp
  | Apply (kt : Nat) : RecordOp

/-- The heap after the call `op` on record `k`. -/
def RecordOp.run (sprintf : String → List Value → String) (h : Heap) (k : Nat) :
    RecordOp → Option Heap
  | RecordOp.SetCode code => (Khata.SetCode h k code).map Prod.fst
  | RecordOp.SetType errorType => (Khata.SetType h k errorType).map Prod.fst
  | RecordOp.SetExitCode code => (Khata.SetExitCode h k code).map Prod.fst
  | RecordOp.SetError err => (Khata.SetError h k err).map Prod.fst
  | RecordOp.SetProperty key value => (Khata.SetProperty h k key value).map Prod.fst
  | RecordOp.RemoveProperty key => (Khata.RemoveProperty h k key).map Prod.fst
  | RecordOp.Explain callers explanation => (Khata.Explain h callers k explanation).map Prod.fst
  | RecordOp.Explainf callers format args =>
    (Khata.Explainf sprintf h callers k format args).map Prod.fst
  | RecordOp.Trace callers => (Khata.Trace h callers k).map Prod.fst
  | RecordOp.Apply kt => (KhataTemplate.Apply h kt k).map Prod.fst

/-- The message a call hands to the explanations: that of `Explain`, the
formatted text of `Explainf`, none for any other call. -/
def RecordOp.explains (sprintf : String → List Value → String) : RecordOp → Option String
  | RecordOp.Explain _ explanation => some explanation
  | RecordOp.Explainf _ format args => some (sprintf format args)
  | _ => none

/-- The call is made on an allocated record, `Apply` by an allocated template;
`nr` and `nt` are the numbers of records and templates. -/
def RecordOp.ok (nr nt : Nat) (k : Nat) : RecordOp → Bool
  | RecordOp.Apply kt => decide (k < nr) && decide (kt < nt)
  | _ => decide (k < nr)

/-- The call is `Apply`, the one that binds the record to a template. -/
def RecordOp.rebinds : RecordOp → Bool
  | RecordOp.Apply _ => true
  | _ => false

/-- The heap after a sequence of calls, each with the record it is made on. -/
def runOps (sprintf : String → List Value → String) : Heap → List (Nat × RecordOp) → Option Heap
  | h, [] => some h
  | h, (k, op) :: rest => (op.run sprintf h k).bind (fun h1 => runOps sprintf h1 rest)

/-- A heap for examples: templates 0 and 1 made by two calls of `NewTemplate`;
template 0 holds the property "own", template 1 the property "k". -/
def exampleTwoTemplates : Heap :=
  let (h0, T1) := NewTemplate Heap.empty
  let (h1, T2) := NewTemplate h0
  (((KhataTemplate.SetProperty h1 T1 "own" (Value.int 7)).bind
      (fun p => KhataTemplate.SetProperty p.1 T2 "k" (Value.int 1))).map Prod.fst).getD Heap.empty

/-! ## Maps -/

theorem Bag.get_set (b : Bag) (key : String) (value : Value) (k : String) :
    (b.set key value).get k = if key = k then value else b.get k := by
  induction b with
  | nil => simp [Bag.set, Bag.get]
  | cons e rest ih =>
    obtain ⟨k0, v0⟩ := e
    by_cases h0 : k0 = key
    · subst h0
      by_cases h1 : k0 = k <;> simp [Bag.set, Bag.get, h1]
    · by_cases h1 : k0 = k
      · subst h1
        have : ¬ key = k0 := fun e => h0 e.symm
        simp [Bag.set, Bag.get, h0, this]
      · simp [Bag.set, Bag.get, h0, h1, ih]

theorem Bag.get_delete (b : Bag) (key : String) (k : String) :
    (b.delete key).get k = if key = k then Value.nil else b.get k := by
  induction b with
  | nil => simp [Bag.delete, Bag.get]
  | cons e rest ih =>
    obtain ⟨k0, v0⟩ := e
    by_cases h0 : k0 = key
    · subst h0
      by_cases h1 : k0 = k
      · subst h1
        simp [Bag.delete, ih]
      · simp [Bag.delete, Bag.get, h1, ih]
    · by_cases h1 : k0 = k
      · subst h1
        have : ¬ key = k0 := fun e => h0 e.symm
        simp [Bag.delete, Bag.get, h0, this]
      · simp [Bag.delete, Bag.get, h0, h1, ih]

theorem Bag.mem_keys_set (b : Bag) (key : String) (value : Value) (k : String) :
    k ∈ (b.set key value).keys ↔ k = key ∨ k ∈ b.keys := by
  induction b with
  | nil => simp [Bag.set, Bag.keys]
  | cons e rest ih =>
    obtain ⟨k0, v0⟩ := e
    by_cases h0 : k0 = key
    · subst h0
      simp [Bag.set, Bag.keys]
    · simp only [Bag.keys] at ih
      simp [Bag.set, Bag.keys, h0, ih]
      tauto

theorem Bag.mem_keys_delete (b : Bag) (key : String) (k : String) :
    k ∈ (b.delete key).keys ↔ k ≠ key ∧ k ∈ b.keys := by
  induction b with
  | nil => simp [Bag.delete, Bag.keys]
  | cons e rest ih =>
    obtain ⟨k0, v0⟩ := e
    simp only [Bag.keys] at ih
    by_cases h0 : k0 = key
    · subst h0
      simp [Bag.delete, Bag.keys, ih]
      tauto
    · simp [Bag.delete, Bag.keys, h0, ih]
      constructor
      · rintro (rfl | ⟨h1, h2⟩)
        · exact ⟨h0, Or.inl rfl⟩
        · exact ⟨h1, Or.inr h2⟩
      · rintro ⟨h1, rfl | h2⟩
        · exact Or.inl rfl
        · exact Or.inr ⟨h1, h2⟩

theorem Bag.nodup_set (b : Bag) (key : String) (value : Value) (hb : b.keys.Nodup) :
    (b.set key value).keys.Nodup := by
  induction b with
  | nil => simp [Bag.set, Bag.keys]
  | cons e rest ih =>
    obtain ⟨k0, v0⟩ := e
    have hb2 : k0 ∉ Bag.keys rest ∧ (Bag.keys rest).Nodup := by
      simpa [Bag.keys] using hb
    by_cases h0 : k0 = key
    · subst h0
      simpa [Bag.set, Bag.keys] using hb
    · have h1 : k0 ∉ (Bag.set rest key value).keys := by
        rw [Bag.mem_keys_set]
        rintro (e | e)
        · exact h0 e
        · exact hb2.1 e
      have h2 := ih hb2.2
      simp only [Bag.keys] at h1 h2
      simp only [Bag.set, h0, if_false, Bag.keys, List.map_cons, List.nodup_cons]
      exact ⟨h1, h2⟩

theorem Bag.nodup_delete (b : Bag) (key : String) (hb : b.keys.Nodup) :
    (b.delete key).keys.Nodup := by
  induction b with
  | nil => simp [Bag.delete, Bag.keys]
  | cons e rest ih =>
    obtain ⟨k0, v0⟩ := e
    have hb2 : k0 ∉ Bag.keys rest ∧ (Bag.keys rest).Nodup := by
      simpa [Bag.keys] using hb
    by_cases h0 : k0 = key
    · simpa [Bag.delete, h0] using ih hb2.2
    · have h1 : k0 ∉ (Bag.delete rest key).keys := by
        rw [Bag.mem_keys_delete]
        exact fun e => hb2.1 e.2
      have h2 := ih hb2.2
      simp only [Bag.keys] at h1 h2
      simp only [Bag.delete, h0, if_false, Bag.keys, List.map_cons, List.nodup_cons]
      exact ⟨h1, h2⟩

theorem Bag.len_set (b : Bag) (key : String) (value : Value) :
    (b.set key value).len = if key ∈ b.keys then b.len else b.len + 1 := by
  induction b with
  | nil => simp [Bag.set, Bag.keys, Bag.len]
  | cons e rest ih =>
    obtain ⟨k0, v0⟩ := e
    simp only [Bag.len, Bag.keys] at ih
    by_cases h0 : k0 = key
    · subst h0
      simp [Bag.set, Bag.keys, Bag.len]
    · have : ¬ key = k0 := fun e => h0 e.symm
      simp only [Bag.set, h0, if_false, Bag.len, Bag.keys, List.length_cons, List.map_cons,
        List.mem_cons, this, false_or, ih]
      split <;> rfl

/-- A key absent from the map reads as nil. -/
theorem Bag.get_of_not_mem (b : Bag) (k : String) (hk : k ∉ b.keys) : b.get k = Value.nil := by
  induction b with
  | nil => simp [Bag.get]
  | cons e rest ih =>
    obtain ⟨k0, v0⟩ := e
    have h1 : ¬ k = k0 ∧ k ∉ Bag.keys rest := by simpa [Bag.keys] using hk
    have : ¬ k0 = k := fun e => h1.1 e.symm
    simp [Bag.get, this, ih h1.2]

/-- With one entry per key, `m[k]` is non-nil exactly when the map holds a
non-nil value under `k`. -/
theorem Bag.get_ne_nil_iff (b : Bag) (k : String) (hb : b.keys.Nodup) :
    b.get k ≠ Value.nil ↔ ∃ v, (k, v) ∈ b ∧ v ≠ Value.nil := by
  induction b with
  | nil => simp [Bag.get]
  | cons e rest ih =>
    obtain ⟨k0, v0⟩ := e
    have hb2 : k0 ∉ Bag.keys rest ∧ (Bag.keys rest).Nodup := by
      simpa [Bag.keys] using hb
    by_cases h0 : k0 = k
    · subst h0
      simp only [Bag.get, if_true, List.mem_cons, Prod.mk.injEq, true_and]
      constructor
      · intro hv
        exact ⟨v0, Or.inl rfl, hv⟩
      · rintro ⟨v, hv | hv, hne⟩
        · rwa [← hv]
        · exact absurd (List.mem_map_of_mem Prod.fst hv) hb2.1
    · have : ¬ k = k0 := fun e => h0 e.symm
      simp only [Bag.get, h0, if_false, List.mem_cons, Prod.mk.injEq, this, false_and, false_or]
      exact ih hb2.2

/-- The loop of `Apply`: afterwards a key of the source holds the source's
value and every other key holds what the destination held. -/
theorem Bag.get_foldl_set (src : Bag) (hs : src.keys.Nodup) (dst : Bag) (k : String) :
    (src.foldl (fun m kv => Bag.set m kv.1 kv.2) dst).get k =
      if k ∈ src.keys then src.get k else dst.get k := by
  induction src generalizing dst with
  | nil => simp [Bag.keys]
  | cons e rest ih =>
    obtain ⟨k0, v0⟩ := e
    have hs2 : k0 ∉ Bag.keys rest ∧ (Bag.keys rest).Nodup := by
      simpa [Bag.keys] using hs
    rw [List.foldl_cons, ih hs2.2]
    by_cases h0 : k0 = k
    · subst h0
      have h1 : k0 ∈ Bag.keys ((k0, v0) :: rest) := by simp [Bag.keys]
      simp [hs2.1, h1, Bag.get_set, Bag.get]
    · have h1 : ¬ k = k0 := fun e => h0 e.symm
      have h2 : k ∈ Bag.keys ((k0, v0) :: rest) ↔ k ∈ Bag.keys rest := by
        simp [Bag.keys, h1]
      simp only [h2, Bag.get_set, h0, if_false, Bag.get]

theorem Bag.mem_keys_foldl_set (src dst : Bag) (k : String) :
    k ∈ (src.foldl (fun m kv => Bag.set m kv.1 kv.2) dst).keys ↔
      k ∈ src.keys ∨ k ∈ dst.keys := by
  induction src generalizing dst with
  | nil => simp [Bag.keys]
  | cons e rest ih =>
    obtain ⟨k0, v0⟩ := e
    rw [List.foldl_cons, ih, Bag.mem_keys_set]
    simp only [Bag.keys, List.map_cons, List.mem_cons]
    tauto

theorem Bag.nodup_foldl_set (src dst : Bag) (hd : dst.keys.Nodup) :
    (src.foldl (fun m kv => Bag.set m kv.1 kv.2) dst).keys.Nodup := by
  induction src generalizing dst with
  | nil => simpa using hd
  | cons e rest ih =>
    rw [List.foldl_cons]
    exact ih _ (Bag.nodup_set dst e.1 e.2 hd)

/-- The result of the `append` loop of `PropertiesKeys`. -/
theorem foldl_append_keys (ks : List String) (init : List String) :
    ks.foldl (fun keys key => keys ++ [key]) init = init ++ ks := by
  induction ks generalizing init with
  | nil => simp
  | cons k rest ih => rw [List.foldl_cons, ih]; simp

/-! ## The message loop of `New` -/

theorem joinLoop_cons (n : Nat) (rest : List String) :
    ∀ (i : Nat) (m acc : String), i + 1 + rest.length = n →
      joinLoop n i (m :: rest) acc = String.intercalate.go (acc ++ m) "\n" rest := by
  induction rest with
  | nil =>
    intro i m acc hn
    have : ¬ (i : Int) < (n : Int) - 1 := by simp at hn; omega
    simp [joinLoop, this, String.intercalate.go]
  | cons m2 rest ih =>
    intro i m acc hn
    have h1 : (i : Int) < (n : Int) - 1 := by simp at hn; omega
    have h2 : i + 1 + 1 + rest.length = n := by simp at hn; omega
    have := ih (i + 1) m2 (acc ++ m ++ "\n") h2
    rw [joinLoop]
    simp only [h1, if_true]
    rw [this, String.intercalate.go]

theorem joinLoop_eq_joinLines (ms : List String) :
    joinLoop ms.length 0 ms "" = joinLines ms := by
  cases ms with
  | nil => simp [joinLoop, joinLines, String.intercalate]
  | cons m rest =>
    rw [joinLoop_cons (m :: rest).length rest 0 m "" (by simp; omega)]
    simp [joinLines, String.intercalate]

/-! ## The heap invariant -/

theorem WF.template {h : Heap} (hw : WF h) {a : Nat} {t : KhataTemplate}
    (ha : h.templates[a]? = some t) :
    t.properties < h.bags.length ∧ ∀ p, t.parent = some p → p < a := by
  have hlt : a < h.templates.length := by
    rcases List.getElem?_eq_some.1 ha with ⟨hlt, _⟩
    exact hlt
  unfold WF Heap.wf at hw
  simp only [Bool.and_eq_true, List.all_eq_true] at hw
  have h1 := hw.1.1 a (List.mem_range.2 hlt)
  simp only [ha, KhataTemplate.ok, Bool.and_eq_true, decide_eq_true_eq] at h1
  refine ⟨h1.1, ?_⟩
  intro p hp
  rw [hp] at h1
  simpa using h1.2

theorem WF.record {h : Heap} (hw : WF h) {k : Nat} {r : Khata}
    (hk : h.records[k]? = some r) :
    r.properties < h.bags.length ∧ ∀ t, r.template = some t → t < h.templates.length := by
  have hm : r ∈ h.records := List.mem_iff_getElem?.2 ⟨k, hk⟩
  unfold WF Heap.wf at hw
  simp only [Bool.and_eq_true, List.all_eq_true] at hw
  have h1 := hw.1.2 r hm
  simp only [Khata.ok, Bool.and_eq_true, decide_eq_true_eq] at h1
  refine ⟨h1.1, ?_⟩
  intro t ht
  rw [ht] at h1
  simpa using h1.2

theorem WF.bag {h : Heap} (hw : WF h) {a : Nat} {m : Bag} (ha : h.bags[a]? = some m) :
    m.keys.Nodup := by
  have hm : m ∈ h.bags := List.mem_iff_getElem?.2 ⟨a, ha⟩
  unfold WF Heap.wf at hw
  simp only [Bool.and_eq_true, List.all_eq_true] at hw
  simpa using hw.2 m hm

theorem WF.intro {h : Heap}
    (ht : ∀ (a : Nat) (t : KhataTemplate), h.templates[a]? = some t →
      t.properties < h.bags.length ∧ ∀ p, t.parent = some p → p < a)
    (hr : ∀ (k : Nat) (r : Khata), h.records[k]? = some r →
      r.properties < h.bags.length ∧ ∀ t, r.template = some t → t < h.templates.length)
    (hb : ∀ (a : Nat) (m : Bag), h.bags[a]? = some m → m.keys.Nodup) : WF h := by
  unfold WF Heap.wf
  simp only [Bool.and_eq_true, List.all_eq_true]
  refine ⟨⟨?_, ?_⟩, ?_⟩
  · intro a _
    cases hta : h.templates[a]? with
    | none => rfl
    | some t =>
      have h1 := ht a t hta
      simp only [KhataTemplate.ok, Bool.and_eq_true, decide_eq_true_eq]
      refine ⟨h1.1, ?_⟩
      cases hp : t.parent with
      | none => rfl
      | some p => simpa using h1.2 p hp
  · intro r hm
    obtain ⟨k, hk⟩ := List.mem_iff_getElem?.1 hm
    have h1 := hr k r hk
    simp only [Khata.ok, Bool.and_eq_true, decide_eq_true_eq]
    refine ⟨h1.1, ?_⟩
    cases hp : r.template with
    | none => rfl
    | some t => simpa using h1.2 t hp
  · intro m hm
    obtain ⟨a, ha⟩ := List.mem_iff_getElem?.1 hm
    simpa using hb a m ha

theorem WF_empty : WF Heap.empty := by decide

/-- An allocated address holds something. -/
theorem getElem?_of_lt {α : Type} (l : List α) (a : Nat) (ha : a < l.length) :
    ∃ x, l[a]? = some x := ⟨l[a], List.getElem?_eq_getElem ha⟩

theorem lt_of_getElem? {α : Type} {l : List α} {a : Nat} {x : α} (ha : l[a]? = some x) :
    a < l.length := by
  rcases List.getElem?_eq_some.1 ha with ⟨hlt, _⟩
  exact hlt

/-- Reading a list that grew by one cell. -/
theorem getElem?_snoc {α : Type} (l : List α) (x : α) (a : Nat) (y : α)
    (ha : (l ++ [x])[a]? = some y) : l[a]? = some y ∨ (a = l.length ∧ y = x) := by
  by_cases hlt : a < l.length
  · rw [List.getElem?_append_left hlt] at ha
    exact Or.inl ha
  · have h1 := lt_of_getElem? ha
    simp only [List.length_append, List.length_singleton] at h1
    have h2 : a = l.length := by omega
    subst h2
    rw [List.getElem?_concat_length] at ha
    exact Or.inr ⟨rfl, (Option.some.inj ha).symm⟩

theorem WF_errorsNew {h : Heap} (hw : WF h) (message : String) :
    WF (errorsNew h message).1 := hw

theorem WF_NewTemplate {h : Heap} (hw : WF h) : WF (NewTemplate h).1 := by
  apply WF.intro
  · intro a t ha
    simp only [NewTemplate, List.length_append, List.length_singleton] at ha ⊢
    rcases getElem?_snoc _ _ _ _ ha with h1 | ⟨_, h2⟩
    · have := hw.template h1
      exact ⟨by omega, this.2⟩
    · subst h2
      exact ⟨by simp, by simp⟩
  · intro k r hk
    simp only [NewTemplate, List.length_append, List.length_singleton] at hk ⊢
    have := hw.record hk
    exact ⟨by omega, fun t ht => by have := this.2 t ht; omega⟩
  · intro a m ha
    simp only [NewTemplate] at ha
    rcases getElem?_snoc _ _ _ _ ha with h1 | ⟨_, h2⟩
    · exact hw.bag h1
    · subst h2
      simp [Bag.keys]

theorem WF_Wrap {h : Heap} (hw : WF h) (now : Nat) (err : Option GoError) :
    WF (Wrap h now err).1 := by
  apply WF.intro
  · intro a t ha
    simp only [Wrap, List.length_append, List.length_singleton] at ha ⊢
    have := hw.template ha
    exact ⟨by omega, this.2⟩
  · intro k r hk
    simp only [Wrap, List.length_append, List.length_singleton] at hk ⊢
    rcases getElem?_snoc _ _ _ _ hk with h1 | ⟨_, h2⟩
    · have := hw.record h1
      exact ⟨by omega, this.2⟩
    · subst h2
      exact ⟨by simp, by simp⟩
  · intro a m ha
    simp only [Wrap] at ha
    rcases getElem?_snoc _ _ _ _ ha with h1 | ⟨_, h2⟩
    · exact hw.bag h1
    · subst h2
      simp [Bag.keys]

theorem WF_Extend {h h2 : Heap} {kt t2 : Nat} (hw : WF h)
    (he : KhataTemplate.Extend h kt = some (h2, t2)) : WF h2 := by
  unfold KhataTemplate.Extend at he
  cases hkt : h.templates[kt]? with
  | none => simp [hkt] at he
  | some t =>
    simp only [hkt, Option.bind_eq_bind, Option.some_bind, Option.pure_def, Option.some.injEq,
      Prod.mk.injEq] at he
    obtain ⟨rfl, rfl⟩ := he
    have hlt := lt_of_getElem? hkt
    apply WF.intro
    · intro a t' ha
      simp only at ha ⊢
      rcases getElem?_snoc _ _ _ _ ha with h1 | ⟨h3, h4⟩
      · exact hw.template h1
      · subst h4
        refine ⟨(hw.template hkt).1, ?_⟩
        intro p hp
        simp only [Option.some.injEq] at hp
        omega
    · intro k r hk
      simp only [List.length_append, List.length_singleton] at hk ⊢
      have := hw.record hk
      exact ⟨this.1, fun t ht => by have := this.2 t ht; omega⟩
    · intro a m ha
      exact hw.bag ha

theorem WF_TemplateWrap {h h2 : Heap} {now kt k : Nat} {err : Option GoError} (hw : WF h)
    (he : KhataTemplate.Wrap h now kt err = some (h2, k)) : WF h2 := by
  unfold KhataTemplate.Wrap at he
  cases hkt : h.templates[kt]? with
  | none => simp [hkt] at he
  | some t =>
    simp only [hkt, Option.bind_eq_bind, Option.some_bind, Option.pure_def, Option.some.injEq,
      Prod.mk.injEq] at he
    obtain ⟨rfl, rfl⟩ := he
    have hlt := lt_of_getElem? hkt
    apply WF.intro
    · intro a t' ha
      exact hw.template ha
    · intro k r hk
      simp only at hk ⊢
      rcases getElem?_snoc _ _ _ _ hk with h1 | ⟨h3, h4⟩
      · exact hw.record h1
      · subst h4
        refine ⟨(hw.template hkt).1, ?_⟩
        intro p hp
        simp only [Option.some.injEq] at hp
        omega
    · intro a m ha
      exact hw.bag ha

/-- Overwriting a template keeps the invariant when its references stay. -/
theorem WF_setTemplate {h : Heap} (hw : WF h) {kt : Nat} {t : KhataTemplate}
    (ht : h.templates[kt]? = some t) (t2 : KhataTemplate)
    (hp : t2.properties = t.properties) (hq : t2.parent = t.parent) :
    WF { h with templates := h.templates.set kt t2 } := by
  apply WF.intro
  · intro a x ha
    simp only [List.getElem?_set] at ha
    by_cases hk : kt = a
    · subst hk
      have hlt := lt_of_getElem? ht
      simp only [if_true, hlt] at ha
      cases ha
      rw [hp, hq]
      exact hw.template ht
    · simp only [hk, if_false] at ha
      exact hw.template ha
  · intro k r hk
    simp only [List.length_set]
    exact hw.record hk
  · intro a m ha
    exact hw.bag ha

/-- Overwriting a record keeps the invariant when its references stay allocated. -/
theorem WF_setRecord {h : Heap} (hw : WF h) {k : Nat} {r : Khata}
    (hr : h.records[k]? = some r) (r2 : Khata) (hp : r2.properties = r.properties)
    (hq : ∀ x, r2.template = some x → x < h.templates.length) :
    WF { h with records := h.records.set k r2 } := by
  apply WF.intro
  · intro a x ha
    exact hw.template ha
  · intro a x ha
    simp only [List.getElem?_set] at ha
    by_cases hk : k = a
    · subst hk
      have hlt := lt_of_getElem? hr
      simp only [if_true, hlt] at ha
      cases ha
      rw [hp]
      exact ⟨(hw.record hr).1, hq⟩
    · simp only [hk, if_false] at ha
      exact hw.record ha
  · intro a m ha
    exact hw.bag ha

/-- Overwriting a map keeps the invariant when the new map has one entry per key. -/
theorem WF_setBag {h : Heap} (hw : WF h) (b : Nat) (m2 : Bag) (hm : m2.keys.Nodup) :
    WF { h with bags := h.bags.set b m2 } := by
  apply WF.intro
  · intro a x ha
    simp only [List.length_set]
    exact hw.template ha
  · intro a x ha
    simp only [List.length_set]
    exact hw.record ha
  · intro a m ha
    simp only [List.getElem?_set] at ha
    by_cases hk : b = a
    · subst hk
      by_cases hlt : b < h.bags.length
      · simp only [if_true, hlt] at ha
        cases ha
        exact hm
      · simp [hlt] at ha
    · simp only [hk, if_false] at ha
      exact hw.bag ha

theorem WF_New {h : Heap} (hw : WF h) (now : Nat) (message : String) :
    WF (New h now message).1 :=
  WF_Wrap (WF_errorsNew hw message) now _

theorem WF_TemplateNewWithMessage {h h2 : Heap} {now kt k : Nat} {message : String}
    (hw : WF h) (he : KhataTemplate.NewWithMessage h now kt message = some (h2, k)) : WF h2 :=
  WF_TemplateWrap (WF_errorsNew hw message) he

theorem WF_TemplateSetMessage {h h2 : Heap} {kt k : Nat} {message : String} (hw : WF h)
    (he : KhataTemplate.SetMessage h kt message = some (h2, k)) : WF h2 := by
  cases hkt : h.templates[kt]? with
  | none => simp [KhataTemplate.SetMessage, hkt] at he
  | some t =>
    simp only [KhataTemplate.SetMessage, hkt, Option.bind_eq_bind, Option.some_bind,
      Option.pure_def, Option.some.injEq, Prod.mk.injEq] at he
    rw [← he.1]
    exact WF_setTemplate hw hkt _ rfl rfl

theorem WF_TemplateSetCode {h h2 : Heap} {kt k : Nat} {code : Int} (hw : WF h)
    (he : KhataTemplate.SetCode h kt code = some (h2, k)) : WF h2 := by
  cases hkt : h.templates[kt]? with
  | none => simp [KhataTemplate.SetCode, hkt] at he
  | some t =>
    simp only [KhataTemplate.SetCode, hkt, Option.bind_eq_bind, Option.some_bind,
      Option.pure_def, Option.some.injEq, Prod.mk.injEq] at he
    rw [← he.1]
    exact WF_setTemplate hw hkt _ rfl rfl

theorem WF_TemplateSetType {h h2 : Heap} {kt k : Nat} {errorType : String} (hw : WF h)
    (he : KhataTemplate.SetType h kt errorType = some (h2, k)) : WF h2 := by
  cases hkt : h.templates[kt]? with
  | none => simp [KhataTemplate.SetType, hkt] at he
  | some t =>
    simp only [KhataTemplate.SetType, hkt, Option.bind_eq_bind, Option.some_bind,
      Option.pure_def, Option.some.injEq, Prod.mk.injEq] at he
    rw [← he.1]
    exact WF_setTemplate hw hkt _ rfl rfl

theorem WF_TemplateSetExitCode {h h2 : Heap} {kt k : Nat} {code : Int} (hw : WF h)
    (he : KhataTemplate.SetExitCode h kt code = some (h2, k)) : WF h2 := by
  cases hkt : h.templates[kt]? with
  | none => simp [KhataTemplate.SetExitCode, hkt] at he
  | some t =>
    simp only [KhataTemplate.SetExitCode, hkt, Option.bind_eq_bind, Option.some_bind,
      Option.pure_def, Option.some.injEq, Prod.mk.injEq] at he
    rw [← he.1]
    exact WF_setTemplate hw hkt _ rfl rfl

theorem WF_TemplateSetProperty {h h2 : Heap} {kt k : Nat} {key : String} {value : Value}
    (hw : WF h) (he : KhataTemplate.SetProperty h kt key value = some (h2, k)) : WF h2 := by
  cases hkt : h.templates[kt]? with
  | none => simp [KhataTemplate.SetProperty, hkt] at he
  | some t =>
    cases hm : h.bags[t.properties]? with
    | none => simp [KhataTemplate.SetProperty, hkt, hm] at he
    | some m =>
      simp only [KhataTemplate.SetProperty, hkt, hm, Option.bind_eq_bind, Option.some_bind,
        Option.pure_def, Option.some.injEq, Prod.mk.injEq] at he
      rw [← he.1]
      exact WF_setBag hw _ _ (Bag.nodup_set m key value (hw.bag hm))

theorem WF_TemplateRemoveProperty {h h2 : Heap} {kt k : Nat} {key : String}
    (hw : WF h) (he : KhataTemplate.RemoveProperty h kt key = some (h2, k)) : WF h2 := by
  cases hkt : h.templates[kt]? with
  | none => simp [KhataTemplate.RemoveProperty, hkt] at he
  | some t =>
    cases hm : h.bags[t.properties]? with
    | none => simp [KhataTemplate.RemoveProperty, hkt, hm] at he
    | some m =>
      simp only [KhataTemplate.RemoveProperty, hkt, hm, Option.bind_eq_bind, Option.some_bind,
        Option.pure_def, Option.some.injEq, Prod.mk.injEq] at he
      rw [← he.1]
      exact WF_setBag hw _ _ (Bag.nodup_delete m key (hw.bag hm))

theorem WF_KhataSetProperty {h h2 : Heap} {k k2 : Nat} {key : String} {value : Value}
    (hw : WF h) (he : Khata.SetProperty h k key value = some (h2, k2)) : WF h2 := by
  cases hk : h.records[k]? with
  | none => simp [Khata.SetProperty, hk] at he
  | some r =>
    cases hm : h.bags[r.properties]? with
    | none => simp [Khata.SetProperty, hk, hm] at he
    | some m =>
      simp only [Khata.SetProperty, hk, hm, Option.bind_eq_bind, Option.some_bind,
        Option.pure_def, Option.some.injEq, Prod.mk.injEq] at he
      rw [← he.1]
      exact WF_setBag hw _ _ (Bag.nodup_set m key value (hw.bag hm))

theorem WF_KhataRemoveProperty {h h2 : Heap} {k k2 : Nat} {key : String}
    (hw : WF h) (he : Khata.RemoveProperty h k key = some (h2, k2)) : WF h2 := by
  cases hk : h.records[k]? with
  | none => simp [Khata.RemoveProperty, hk] at he
  | some r =>
    cases hm : h.bags[r.properties]? with
    | none => simp [Khata.RemoveProperty, hk, hm] at he
    | some m =>
      simp only [Khata.RemoveProperty, hk, hm, Option.bind_eq_bind, Option.some_bind,
        Option.pure_def, Option.some.injEq, Prod.mk.injEq] at he
      rw [← he.1]
      exact WF_setBag hw _ _ (Bag.nodup_delete m key (hw.bag hm))

theorem WF_KhataSetCode {h h2 : Heap} {k k2 : Nat} {code : Int} (hw : WF h)
    (he : Khata.SetCode h k code = some (h2, k2)) : WF h2 := by
  cases hk : h.records[k]? with
  | none => simp [Khata.SetCode, hk] at he
  | some r =>
    simp only [Khata.SetCode, hk, Option.bind_eq_bind, Option.some_bind,
      Option.pure_def, Option.some.injEq, Prod.mk.injEq] at he
    rw [← he.1]
    exact WF_setRecord hw hk _ rfl (hw.record hk).2

theorem WF_KhataSetType {h h2 : Heap} {k k2 : Nat} {errorType : String} (hw : WF h)
    (he : Khata.SetType h k errorType = some (h2, k2)) : WF h2 := by
  cases hk : h.records[k]? with
  | none => simp [Khata.SetType, hk] at he
  | some r =>
    simp only [Khata.SetType, hk, Option.bind_eq_bind, Option.some_bind,
      Option.pure_def, Option.some.injEq, Prod.mk.injEq] at he
    rw [← he.1]
    exact WF_setRecord hw hk _ rfl (hw.record hk).2

theorem WF_KhataSetExitCode {h h2 : Heap} {k k2 : Nat} {code : Int} (hw : WF h)
    (he : Khata.SetExitCode h k code = some (h2, k2)) : WF h2 := by
  cases hk : h.records[k]? with
  | none => simp [Khata.SetExitCode, hk] at he
  | some r =>
    simp only [Khata.SetExitCode, hk, Option.bind_eq_bind, Option.some_bind,
      Option.pure_def, Option.some.injEq, Prod.mk.injEq] at he
    rw [← he.1]
    exact WF_setRecord hw hk _ rfl (hw.record hk).2

theorem WF_KhataSetError {h h2 : Heap} {k k2 : Nat} {err : Option GoError} (hw : WF h)
    (he : Khata.SetError h k err = some (h2, k2)) : WF h2 := by
  cases hk : h.records[k]? with
  | none => simp [Khata.SetError, hk] at he
  | some r =>
    simp only [Khata.SetError, hk, Option.bind_eq_bind, Option.some_bind,
      Option.pure_def, Option.some.injEq, Prod.mk.injEq] at he
    rw [← he.1]
    exact WF_setRecord hw hk _ rfl (hw.record hk).2

theorem Apply_eq {h : Heap} {T R : Nat} {t : KhataTemplate} {r : Khata} {mT mR : Bag}
    (ht : h.templates[T]? = some t) (hr : h.records[R]? = some r)
    (hbT : h.bags[t.properties]? = some mT) (hbR : h.bags[r.properties]? = some mR) :
    KhataTemplate.Apply h T R =
      some ({ h with
          bags := h.bags.set r.properties (mT.foldl (fun m kv => Bag.set m kv.1 kv.2) mR)
          records := h.records.set R
            { r with errorCode := t.errorCode, errorType := t.errorType,
                     exitCode := t.exitCode, template := some T } },
        R) := by
  simp [KhataTemplate.Apply, ht, hr, hbT, hbR, KhataTemplate.Code, KhataTemplate.Type,
    KhataTemplate.ExitCode]

theorem WF_Apply {h h2 : Heap} {kt k k2 : Nat} (hw : WF h)
    (he : KhataTemplate.Apply h kt k = some (h2, k2)) : WF h2 := by
  cases hkt : h.templates[kt]? with
  | none => simp [KhataTemplate.Apply, hkt] at he
  | some t =>
    cases hk : h.records[k]? with
    | none => simp [KhataTemplate.Apply, hkt, hk] at he
    | some r =>
      cases hmT : h.bags[t.properties]? with
      | none =>
        simp [KhataTemplate.Apply, hkt, hk, hmT, KhataTemplate.Code, KhataTemplate.Type,
          KhataTemplate.ExitCode] at he
      | some mT =>
        cases hmR : h.bags[r.properties]? with
        | none =>
          simp [KhataTemplate.Apply, hkt, hk, hmT, hmR, KhataTemplate.Code, KhataTemplate.Type,
            KhataTemplate.ExitCode] at he
        | some mR =>
          rw [Apply_eq hkt hk hmT hmR] at he
          simp only [Option.some.injEq, Prod.mk.injEq] at he
          rw [← he.1]
          have hw1 := WF_setBag hw r.properties _
            (Bag.nodup_foldl_set mT mR (hw.bag hmR))
          have hlt := lt_of_getElem? hkt
          exact WF_setRecord hw1 hk
            { r with errorCode := t.errorCode, errorType := t.errorType,
                     exitCode := t.exitCode, template := some kt } rfl
            (fun x hx => by
              cases hx
              exact hlt)

/-! ## The ancestor walk -/

theorem Ancestor.lt {h : Heap} (hw : WF h) {a u : Nat} (ha : Ancestor h a u) : u < a := by
  induction ha with
  | parent ht hp => exact (hw.template ht).2 _ hp
  | step ht hp _ ih =>
    have := (hw.template ht).2 _ hp
    omega

/-- An ancestor is an allocated template. -/
theorem Ancestor.allocated {h : Heap} (hw : WF h) {a u : Nat} (ha : Ancestor h a u) :
    u < h.templates.length := by
  have h1 := Ancestor.lt hw ha
  have h2 : a < h.templates.length := by
    cases ha with
    | parent ht _ => exact lt_of_getElem? ht
    | step ht _ _ => exact lt_of_getElem? ht
  omega

theorem walk_none (h : Heap) (kt : Option Nat) (fuel : Nat) :
    walk h kt (fuel + 1) none = some false := rfl

/-- The walk from an allocated template stops within `a + 2` iterations and
answers whether the target is met on the way. -/
theorem walk_some {h : Heap} (hw : WF h) (u : Nat) :
    ∀ a : Nat, a < h.templates.length → ∀ fuel : Nat, a + 2 ≤ fuel →
      ∃ b, walk h (some u) fuel (some a) = some b ∧ (b = true ↔ (a = u ∨ Ancestor h a u)) := by
  intro a
  induction a using Nat.strong_induction_on with
  | _ a ih =>
    intro ha fuel hf
    obtain ⟨f, rfl⟩ : ∃ f, fuel = f + 1 := ⟨fuel - 1, by omega⟩
    obtain ⟨tt, htt⟩ := getElem?_of_lt _ a ha
    by_cases hau : a = u
    · subst hau
      exact ⟨true, by simp [walk], by simp⟩
    · cases hp : tt.parent with
      | none =>
        obtain ⟨f2, rfl⟩ : ∃ f2, f = f2 + 1 := ⟨f - 1, by omega⟩
        refine ⟨false, by simp [walk, hau, htt, hp], ?_⟩
        constructor
        · intro hc
          cases hc
        · rintro (hc | hc)
          · exact absurd hc hau
          · cases hc with
            | parent h1 h2 =>
              rw [htt] at h1
              cases h1
              rw [hp] at h2
              cases h2
            | step h1 h2 _ =>
              rw [htt] at h1
              cases h1
              rw [hp] at h2
              cases h2
      | some p =>
        have hpa := (hw.template htt).2 p hp
        obtain ⟨b, hb, hiff⟩ := ih p hpa (by omega) f (by omega)
        refine ⟨b, by simp [walk, hau, htt, hp, hb], ?_⟩
        rw [hiff]
        constructor
        · rintro (hc | hc)
          · subst hc
            exact Or.inr (Ancestor.parent htt hp)
          · exact Or.inr (Ancestor.step htt hp hc)
        · rintro (hc | hc)
          · exact absurd hc hau
          · cases hc with
            | parent h1 h2 =>
              rw [htt] at h1
              cases h1
              rw [hp] at h2
              cases h2
              exact Or.inl rfl
            | step h1 h2 h3 =>
              rw [htt] at h1
              cases h1
              rw [hp] at h2
              cases h2
              exact Or.inr h3

/-- The walk from any reference of a well-formed heap, with one iteration per
allocated template and one more. -/
theorem walk_from {h : Heap} (hw : WF h) (u : Nat) (cur : Option Nat)
    (hc : ∀ a, cur = some a → a < h.templates.length) (fuel : Nat)
    (hf : h.templates.length + 1 ≤ fuel) :
    ∃ b, walk h (some u) fuel cur = some b ∧
      (b = true ↔ ∃ a, cur = some a ∧ (a = u ∨ Ancestor h a u)) := by
  cases cur with
  | none =>
    obtain ⟨f, rfl⟩ : ∃ f, fuel = f + 1 := ⟨fuel - 1, by omega⟩
    exact ⟨false, rfl, by simp⟩
  | some a =>
    have ha := hc a rfl
    obtain ⟨b, hb, hiff⟩ := walk_some hw u a ha fuel (by omega)
    exact ⟨b, hb, by simp [hiff]⟩

/-- The walk towards the nil reference answers false. -/
theorem walk_nil {h : Heap} (hw : WF h) :
    ∀ a : Nat, a < h.templates.length → ∀ fuel : Nat, a + 2 ≤ fuel →
      walk h none fuel (some a) = some false := by
  intro a
  induction a using Nat.strong_induction_on with
  | _ a ih =>
    intro ha fuel hf
    obtain ⟨f, rfl⟩ : ∃ f, fuel = f + 1 := ⟨fuel - 1, by omega⟩
    obtain ⟨tt, htt⟩ := getElem?_of_lt _ a ha
    cases hp : tt.parent with
    | none =>
      obtain ⟨f2, rfl⟩ : ∃ f2, f = f2 + 1 := ⟨f - 1, by omega⟩
      simp [walk, htt, hp]
    | some p =>
      have hpa := (hw.template htt).2 p hp
      have := ih p hpa (by omega) f (by omega)
      simp [walk, htt, hp, this]

/-- A template younger than the start of the walk is never met. -/
theorem walk_false_of_lt {h : Heap} (hw : WF h) {a u : Nat} (ha : a < h.templates.length)
    (hau : a < u) (fuel : Nat) (hf : h.templates.length + 1 ≤ fuel) :
    walk h (some u) fuel (some a) = some false := by
  obtain ⟨b, hb, hiff⟩ := walk_some hw u a ha fuel (by omega)
  cases b with
  | false => exact hb
  | true =>
    rcases hiff.1 rfl with hc | hc
    · omega
    · have := Ancestor.lt hw hc
      omega

/-! ## Records made from a template -/

theorem TemplateWrap_eq {h : Heap} {now T : Nat} {err : Option GoError} {t : KhataTemplate}
    (ht : h.templates[T]? = some t) :
    KhataTemplate.Wrap h now T err =
      some ({ h with records := h.records ++
          [⟨t.errorCode, t.errorType, t.exitCode, now, err, t.properties, [], [], some T⟩] },
        h.records.length) := by
  simp [KhataTemplate.Wrap, ht]

theorem Extend_eq {h : Heap} {T : Nat} {t : KhataTemplate} (ht : h.templates[T]? = some t) :
    KhataTemplate.Extend h T =
      some ({ h with templates := h.templates ++
          [⟨t.message, t.errorCode, t.errorType, t.exitCode, t.properties, some T⟩] },
        h.templates.length) := by
  simp [KhataTemplate.Extend, ht]

/-- What holds of the record that `Wrap` makes from a template. -/
theorem TemplateWrap_spec {h : Heap} (hw : WF h) (now T : Nat) (err : Option GoError)
    (hT : T < h.templates.length) :
    ∃ h1 R, KhataTemplate.Wrap h now T err = some (h1, R) ∧
      (∃ c, KhataTemplate.Code h1 T = some c ∧ Khata.Code h1 R = some c) ∧
      (∃ s, KhataTemplate.Type h1 T = some s ∧ Khata.Type h1 R = some s) ∧
      (∃ c, KhataTemplate.ExitCode h1 T = some c ∧ Khata.ExitCode h1 R = some c) ∧
      (∀ key, ∃ v, KhataTemplate.GetProperty h1 T key = some v ∧
        Khata.GetProperty h1 R key = some v) ∧
      Khata.IsInstanceOf h1 R (some T) = some true ∧
      ∃ h2 T2, KhataTemplate.Extend h1 T = some (h2, T2) ∧
        Khata.IsInstanceOf h2 R (some T2) = some false ∧
        ∃ h3 T3, KhataTemplate.Extend h2 T2 = some (h3, T3) ∧
          ∀ fuel, h3.templates.length + 1 ≤ fuel →
            Khata.IsRelatedTo h3 fuel R (some T3) = some false := by
  obtain ⟨t, ht⟩ := getElem?_of_lt _ T hT
  have hb := (hw.template ht).1
  obtain ⟨m, hm⟩ := getElem?_of_lt _ _ hb
  have hw1 : WF _ := WF_TemplateWrap hw (@TemplateWrap_eq h now T err t ht)
  refine ⟨_, _, TemplateWrap_eq ht, ⟨t.errorCode, ?_, ?_⟩, ⟨t.errorType, ?_, ?_⟩,
    ⟨t.exitCode, ?_, ?_⟩, ?_, ?_, ?_⟩
  · simp [KhataTemplate.Code, ht]
  · simp [Khata.Code]
  · simp [KhataTemplate.Type, ht]
  · simp [Khata.Type]
  · simp [KhataTemplate.ExitCode, ht]
  · simp [Khata.ExitCode]
  · intro key
    exact ⟨m.get key, by simp [KhataTemplate.GetProperty, ht, hm],
      by simp [Khata.GetProperty, hm]⟩
  · simp [Khata.IsInstanceOf]
  · have ht1 : ({ h with records := h.records ++
          [⟨t.errorCode, t.errorType, t.exitCode, now, err, t.properties, [], [], some T⟩] }
        : Heap).templates[T]? = some t := ht
    have hw2 : WF _ := WF_Extend hw1 (Extend_eq ht1)
    refine ⟨_, _, Extend_eq ht1, ?_, ?_⟩
    · have : ¬ T = h.templates.length := by omega
      simp [Khata.IsInstanceOf, this]
    · have ht2 : ({ h with
            records := h.records ++
              [⟨t.errorCode, t.errorType, t.exitCode, now, err, t.properties, [], [], some T⟩]
            templates := h.templates ++
              [⟨t.message, t.errorCode, t.errorType, t.exitCode, t.properties, some T⟩] }
          : Heap).templates[h.templates.length]? =
          some ⟨t.message, t.errorCode, t.errorType, t.exitCode, t.properties, some T⟩ := by
        simp
      have hw3 : WF _ := WF_Extend hw2 (Extend_eq ht2)
      refine ⟨_, _, Extend_eq ht2, ?_⟩
      intro fuel hf
      have := walk_false_of_lt hw3 (a := T) (u := h.templates.length + 1)
        (by simp; omega) (by omega) fuel hf
      simpa [Khata.IsRelatedTo] using this

/-- C1: a record made from a template `T` by `New`, `NewWithMessage` or `Wrap`
carries the code, type and exit code of `T`, reads every property as `T` does,
is an instance of `T`, is not an instance of `T.Extend()` and is not related to
`T.Extend().Extend()`. -/
theorem C1_record_from_template (h : Heap) (hw : WF h) (now T : Nat)
    (hT : T < h.templates.length) (ms : List String) (m : String) (e : Option GoError) :
    ∀ made ∈ [KhataTemplate.New h now T ms, KhataTemplate.NewWithMessage h now T m,
        KhataTemplate.Wrap h now T e],
      ∃ h1 R, made = some (h1, R) ∧
        (∃ c, KhataTemplate.Code h1 T = some c ∧ Khata.Code h1 R = some c) ∧
        (∃ s, KhataTemplate.Type h1 T = some s ∧ Khata.Type h1 R = some s) ∧
        (∃ c, KhataTemplate.ExitCode h1 T = some c ∧ Khata.ExitCode h1 R = some c) ∧
        (∀ key, ∃ v, KhataTemplate.GetProperty h1 T key = some v ∧
          Khata.GetProperty h1 R key = some v) ∧
        Khata.IsInstanceOf h1 R (some T) = some true ∧
        ∃ h2 T2, KhataTemplate.Extend h1 T = some (h2, T2) ∧
          Khata.IsInstanceOf h2 R (some T2) = some false ∧
          ∃ h3 T3, KhataTemplate.Extend h2 T2 = some (h3, T3) ∧
            ∀ fuel, h3.templates.length + 1 ≤ fuel →
              Khata.IsRelatedTo h3 fuel R (some T3) = some false := by
  intro made hmade
  obtain ⟨t, ht⟩ := getElem?_of_lt _ T hT
  simp only [List.mem_cons, List.mem_singleton, List.not_mem_nil, or_false] at hmade
  rcases hmade with rfl | rfl | rfl
  · have := TemplateWrap_spec (WF_errorsNew hw
      (if joinLoop ms.length 0 ms "" = "" then t.message else joinLoop ms.length 0 ms ""))
      now T (some ⟨h.nextErr,
        if joinLoop ms.length 0 ms "" = "" then t.message else joinLoop ms.length 0 ms "",
        errorString⟩) hT
    simpa [KhataTemplate.New, ht, errorsNew, apply_ite GoString.ofString] using this
  · have := TemplateWrap_spec (WF_errorsNew hw m) now T (some ⟨h.nextErr, m, errorString⟩) hT
    simpa [KhataTemplate.NewWithMessage, errorsNew] using this
  · exact TemplateWrap_spec hw now T e hT

theorem C1_record_from_template_witness :
    WF (NewTemplate Heap.empty).1 ∧
      ∃ h1 R, KhataTemplate.New (NewTemplate Heap.empty).1 7 0 ["a", "b"] = some (h1, R) ∧
        (∃ c, KhataTemplate.Code h1 0 = some c ∧ Khata.Code h1 R = some c) ∧
        Khata.IsInstanceOf h1 R (some 0) = some true := by
  refine ⟨by decide, ?_⟩
  obtain ⟨h1, R, hm, hc, _, _, _, hi, _⟩ :=
    C1_record_from_template (NewTemplate Heap.empty).1 (by decide) 7 0 (by decide)
      ["a", "b"] "m" none _ (List.mem_cons_self _ _)
  exact ⟨h1, R, hm, hc, hi⟩

/-! ## Extending a template -/

/-- C2: `T2 = T1.Extend()` has `T1` as its parent, copies the code, type, exit
code and message of `T1`, and shares the map of `T1`: both read the same
properties, and a property set or removed through `T2` is set or removed for
`T1`. -/
theorem C2_extend_shares (h : Heap) (hw : WF h) (T1 : Nat) (hT : T1 < h.templates.length) :
    ∃ h2 T2, KhataTemplate.Extend h T1 = some (h2, T2) ∧
      (∃ t2, h2.templates[T2]? = some t2 ∧ t2.parent = some T1) ∧
      KhataTemplate.IsInstanceOf h2 T2 (some T1) = some true ∧
      KhataTemplate.IsParentOf h2 T1 T2 = some true ∧
      (∃ c, KhataTemplate.Code h T1 = some c ∧ KhataTemplate.Code h2 T2 = some c) ∧
      (∃ s, KhataTemplate.Type h T1 = some s ∧ KhataTemplate.Type h2 T2 = some s) ∧
      (∃ c, KhataTemplate.ExitCode h T1 = some c ∧ KhataTemplate.ExitCode h2 T2 = some c) ∧
      (∃ s, KhataTemplate.Message h T1 = some s ∧ KhataTemplate.Message h2 T2 = some s) ∧
      (∀ key, ∃ v, KhataTemplate.GetProperty h T1 key = some v ∧
        KhataTemplate.GetProperty h2 T1 key = some v ∧
        KhataTemplate.GetProperty h2 T2 key = some v) ∧
      (∀ key value, ∃ h3, KhataTemplate.SetProperty h2 T2 key value = some (h3, T2) ∧
        KhataTemplate.GetProperty h3 T1 key = some value ∧
        ∀ k, KhataTemplate.GetProperty h3 T1 k = KhataTemplate.GetProperty h3 T2 k) ∧
      (∀ key, ∃ h3, KhataTemplate.RemoveProperty h2 T2 key = some (h3, T2) ∧
        KhataTemplate.GetProperty h3 T1 key = some Value.nil ∧
        ∀ k, KhataTemplate.GetProperty h3 T1 k = KhataTemplate.GetProperty h3 T2 k) := by
  obtain ⟨t, ht⟩ := getElem?_of_lt _ T1 hT
  have hb := (hw.template ht).1
  obtain ⟨m, hm⟩ := getElem?_of_lt _ _ hb
  have h1 : (h.templates ++
      [(⟨t.message, t.errorCode, t.errorType, t.exitCode, t.properties, some T1⟩
        : KhataTemplate)])[T1]? = some t := by
    rw [List.getElem?_append_left hT]
    exact ht
  refine ⟨_, _, Extend_eq ht, ⟨_, List.getElem?_concat_length _ _, rfl⟩, ?_, ?_,
    ⟨t.errorCode, ?_, ?_⟩, ⟨t.errorType, ?_, ?_⟩, ⟨t.exitCode, ?_, ?_⟩, ⟨t.message, ?_, ?_⟩,
    ?_, ?_, ?_⟩
  · simp [KhataTemplate.IsInstanceOf]
  · simp [KhataTemplate.IsParentOf, h1]
  · simp [KhataTemplate.Code, ht]
  · simp [KhataTemplate.Code]
  · simp [KhataTemplate.Type, ht]
  · simp [KhataTemplate.Type]
  · simp [KhataTemplate.ExitCode, ht]
  · simp [KhataTemplate.ExitCode]
  · simp [KhataTemplate.Message, ht]
  · simp [KhataTemplate.Message]
  · intro key
    exact ⟨m.get key, by simp [KhataTemplate.GetProperty, ht, hm],
      by simp [KhataTemplate.GetProperty, h1, hm],
      by simp [KhataTemplate.GetProperty, hm]⟩
  · intro key value
    refine ⟨_, by simp [KhataTemplate.SetProperty, hm]; rfl, ?_, ?_⟩
    · simp [KhataTemplate.GetProperty, h1, List.getElem?_set_self hb, Bag.get_set]
    · intro k
      simp [KhataTemplate.GetProperty, h1]
  · intro key
    refine ⟨_, by simp [KhataTemplate.RemoveProperty, hm]; rfl, ?_, ?_⟩
    · simp [KhataTemplate.GetProperty, h1, List.getElem?_set_self hb, Bag.get_delete]
    · intro k
      simp [KhataTemplate.GetProperty, h1]

theorem C2_extend_shares_witness :
    WF (NewTemplate Heap.empty).1 ∧
      ∃ h2 T2, KhataTemplate.Extend (NewTemplate Heap.empty).1 0 = some (h2, T2) ∧
        KhataTemplate.IsInstanceOf h2 T2 (some 0) = some true ∧
        ∃ h3, KhataTemplate.SetProperty h2 T2 "k" (Value.int 5) = some (h3, T2) ∧
          KhataTemplate.GetProperty h3 0 "k" = some (Value.int 5) := by
  refine ⟨by decide, ?_⟩
  obtain ⟨h2, T2, he, _, hi, _, _, _, _, _, _, hs, _⟩ :=
    C2_extend_shares (NewTemplate Heap.empty).1 (by decide) 0 (by decide)
  obtain ⟨h3, hs1, hs2, _⟩ := hs "k" (Value.int 5)
  exact ⟨h2, T2, he, hi, h3, hs1, hs2⟩

/-! ## The message of a record made by `New` -/

theorem intercalate_go_length (s : String) :
    ∀ (rest : List String) (acc : String),
      acc.length ≤ (String.intercalate.go acc s rest).length := by
  intro rest
  induction rest with
  | nil =>
    intro acc
    simp [String.intercalate.go]
  | cons a tail ih =>
    intro acc
    have := ih (acc ++ s ++ a)
    simp only [String.intercalate.go]
    simp only [String.length_append] at this
    omega

/-- The joined text is empty only for no message and for the single empty
message. -/
theorem joinLines_eq_empty (ms : List String) : joinLines ms = "" ↔ ms = [] ∨ ms = [""] := by
  constructor
  · intro hj
    cases ms with
    | nil => exact Or.inl rfl
    | cons m rest =>
      cases rest with
      | nil =>
        have : m = "" := by simpa [joinLines, String.intercalate, String.intercalate.go] using hj
        subst this
        exact Or.inr rfl
      | cons m2 rest =>
        exfalso
        have h1 := intercalate_go_length "\n" rest (m ++ "\n" ++ m2)
        have h2 : joinLines (m :: m2 :: rest) =
            String.intercalate.go (m ++ "\n" ++ m2) "\n" rest := by
          simp [joinLines, String.intercalate, String.intercalate.go]
        rw [← h2, hj] at h1
        simp only [String.length_append] at h1
        have h3 : ("\n" : String).length = 1 := by decide
        have h4 : ("" : String).length = 0 := by decide
        omega
  · rintro (rfl | rfl) <;> decide

theorem TemplateNew_eq {h : Heap} {now T : Nat} {t : KhataTemplate} (ms : List String)
    (ht : h.templates[T]? = some t) :
    KhataTemplate.New h now T ms =
      some ({ h with
          nextErr := h.nextErr + 1
          records := h.records ++ [⟨t.errorCode, t.errorType, t.exitCode, now,
            some ⟨h.nextErr, if joinLines ms = "" then t.message else joinLines ms,
              errorString⟩,
            t.properties, [], [], some T⟩] },
        h.records.length) := by
  simp [KhataTemplate.New, KhataTemplate.Wrap, ht, errorsNew, joinLoop_eq_joinLines,
    apply_ite GoString.ofString]

/-- C3, as the code has it: the text of `T.New(ms...)` is the messages joined by
newlines unless that text is empty, which happens for no message and for the
single empty message; then it is the message of the template, which is "error"
on a template fresh from `NewTemplate`. -/
theorem C3_new_message (h : Heap) (now T : Nat) (hT : T < h.templates.length)
    (ms : List String) :
    (∃ h1 R msg, KhataTemplate.New h now T ms = some (h1, R) ∧
      KhataTemplate.Message h T = some msg ∧
      KhataTemplate.Message h1 T = some msg ∧
      (ms = [] ∨ ms = [""] → Khata.Error h1 R = some msg) ∧
      (ms ≠ [] → ms ≠ [""] → Khata.Error h1 R = some (joinLines ms))) ∧
    (∃ h1 R, KhataTemplate.New (NewTemplate h).1 now (NewTemplate h).2 [] = some (h1, R) ∧
      Khata.Error h1 R = some "error") := by
  constructor
  · obtain ⟨t, ht⟩ := getElem?_of_lt _ T hT
    refine ⟨_, _, t.message, TemplateNew_eq ms ht, by simp [KhataTemplate.Message, ht],
      by simp [KhataTemplate.Message, ht], ?_, ?_⟩
    · intro hms
      have := (joinLines_eq_empty ms).2 hms
      simp [Khata.Error, this]
    · intro h1 h2
      have : ¬ joinLines ms = "" := fun e => by
        rcases (joinLines_eq_empty ms).1 e with e1 | e1
        · exact h1 e1
        · exact h2 e1
      simp [Khata.Error, this]
  · have ht : (NewTemplate h).1.templates[(NewTemplate h).2]? =
        some ⟨DEFAULT_MESSAGE, DEFAULT_ERROR_CODE, DEFAULT_ERROR_TYPE, DEFAULT_EXIT_CODE,
          h.bags.length, none⟩ := by
      simp [NewTemplate]
    refine ⟨_, _, TemplateNew_eq [] ht, ?_⟩
    have : joinLines [] = "" := by decide
    simp [Khata.Error, this, DEFAULT_MESSAGE]

theorem C3_new_message_witness :
    0 < (NewTemplate Heap.empty).1.templates.length ∧
      ∃ h1 R, KhataTemplate.New (NewTemplate Heap.empty).1 0 0 ["a", "", "b"] = some (h1, R) ∧
        Khata.Error h1 R = some (joinLines ["a", "", "b"]) := by
  refine ⟨by decide, ?_⟩
  obtain ⟨⟨h1, R, msg, hn, _, _, _, hj⟩, _⟩ :=
    C3_new_message (NewTemplate Heap.empty).1 0 0 (by decide) ["a", "", "b"]
  exact ⟨h1, R, hn, hj (by decide) (by decide)⟩

/-- C3 as stated fails for the non-empty list holding one empty string: the
record's text is the template's message "error", not the joined text "". -/
theorem C3_counterexample :
    ([""] : List String) ≠ [] ∧
      ∃ h1 R, KhataTemplate.New (NewTemplate Heap.empty).1 0 0 [""] = some (h1, R) ∧
        Khata.Error h1 R = some "error" ∧
        Khata.Error h1 R ≠ some (joinLines [""]) :=
  ⟨by decide, _, _, rfl, by decide, by decide⟩

/-! ## Applying a template to a record -/

/-- C4: `T.Apply(R)` returns `R` stamped with the code, type and exit code of
`T` and bound to `T`; the keys of the map of `R` become its former keys together
with those of `T`, a key of `T` reads as in `T`, every other key reads as
before; the text and the explanations of `R` stay as they were. -/
theorem C4_apply (h : Heap) (hw : WF h) (T R : Nat) (hT : T < h.templates.length)
    (hR : R < h.records.length) :
    ∃ h1, KhataTemplate.Apply h T R = some (h1, R) ∧
      (∃ c, KhataTemplate.Code h T = some c ∧ KhataTemplate.Code h1 T = some c ∧
        Khata.Code h1 R = some c) ∧
      (∃ s, KhataTemplate.Type h T = some s ∧ KhataTemplate.Type h1 T = some s ∧
        Khata.Type h1 R = some s) ∧
      (∃ c, KhataTemplate.ExitCode h T = some c ∧ KhataTemplate.ExitCode h1 T = some c ∧
        Khata.ExitCode h1 R = some c) ∧
      Khata.IsInstanceOf h1 R (some T) = some true ∧
      (∃ mT mR mR1, h.templateBag T = some mT ∧ h.recordBag R = some mR ∧
        h1.recordBag R = some mR1 ∧
        (∀ k, k ∈ mR1.keys ↔ k ∈ mR.keys ∨ k ∈ mT.keys) ∧
        (∀ k, k ∈ mT.keys →
          Khata.GetProperty h1 R k = some (mT.get k) ∧
          KhataTemplate.GetProperty h T k = some (mT.get k)) ∧
        (∀ k, k ∉ mT.keys →
          Khata.GetProperty h1 R k = some (mR.get k) ∧
          Khata.GetProperty h R k = some (mR.get k))) ∧
      Khata.Error h1 R = Khata.Error h R ∧
      (∃ es, Khata.Explanations h R = some es ∧ Khata.Explanations h1 R = some es) := by
  obtain ⟨t, ht⟩ := getElem?_of_lt _ T hT
  obtain ⟨r, hr⟩ := getElem?_of_lt _ R hR
  have hbt := (hw.template ht).1
  have hbr := (hw.record hr).1
  obtain ⟨mT, hmT⟩ := getElem?_of_lt _ _ hbt
  obtain ⟨mR, hmR⟩ := getElem?_of_lt _ _ hbr
  have hnd := hw.bag hmT
  have hr1 := List.getElem?_set_self hR
    (a := ({ r with errorCode := t.errorCode, errorType := t.errorType,
                    exitCode := t.exitCode, template := some T } : Khata))
  have hb1 := List.getElem?_set_self hbr
    (a := mT.foldl (fun m kv => Bag.set m kv.1 kv.2) mR)
  refine ⟨_, Apply_eq ht hr hmT hmR, ⟨t.errorCode, ?_, ?_, ?_⟩, ⟨t.errorType, ?_, ?_, ?_⟩,
    ⟨t.exitCode, ?_, ?_, ?_⟩, ?_,
    ⟨mT, mR, mT.foldl (fun m kv => Bag.set m kv.1 kv.2) mR, ?_, ?_, ?_, ?_, ?_, ?_⟩, ?_,
    ⟨r.explanationStack, ?_, ?_⟩⟩
  · simp [KhataTemplate.Code, ht]
  · simp [KhataTemplate.Code, ht]
  · simp [Khata.Code, hr1]
  · simp [KhataTemplate.Type, ht]
  · simp [KhataTemplate.Type, ht]
  · simp [Khata.Type, hr1]
  · simp [KhataTemplate.ExitCode, ht]
  · simp [KhataTemplate.ExitCode, ht]
  · simp [Khata.ExitCode, hr1]
  · simp [Khata.IsInstanceOf, hr1]
  · simp [Heap.templateBag, ht, hmT]
  · simp [Heap.recordBag, hr, hmR]
  · simp only [Heap.recordBag, hr1, Option.bind_eq_bind, Option.some_bind]
    exact hb1
  · intro k
    rw [Bag.mem_keys_foldl_set]
    tauto
  · intro k hk
    constructor
    · simp [Khata.GetProperty, hr1, hb1, Bag.get_foldl_set mT hnd, hk]
    · simp [KhataTemplate.GetProperty, ht, hmT]
  · intro k hk
    constructor
    · simp [Khata.GetProperty, hr1, hb1, Bag.get_foldl_set mT hnd, hk]
    · simp [Khata.GetProperty, hr, hmR]
  · simp [Khata.Error, hr, hr1]
  · simp [Khata.Explanations, hr]
  · simp [Khata.Explanations, hr1]

theorem C4_apply_witness :
    WF exampleHeap ∧
      ∃ h1, KhataTemplate.Apply exampleHeap 0 0 = some (h1, 0) ∧
        Khata.IsInstanceOf h1 0 (some 0) = some true ∧
        Khata.GetProperty h1 0 "k" = some (Value.int 1) ∧
        Khata.GetProperty h1 0 "j" = some (Value.int 2) := by
  refine ⟨by decide, ?_⟩
  obtain ⟨h1, ha, _, _, _, hi, ⟨mT, mR, mR1, hmT, hmR, _, _, hk, hj⟩, _⟩ :=
    C4_apply exampleHeap (by decide) 0 0 (by decide) (by decide)
  have e1 : mT = [("k", Value.int 1)] := by
    have : exampleHeap.templateBag 0 = some [("k", Value.int 1)] := by decide
    rw [this] at hmT
    exact (Option.some.inj hmT).symm
  have e2 : mR = [("j", Value.int 2)] := by
    have : exampleHeap.recordBag 0 = some [("j", Value.int 2)] := by decide
    rw [this] at hmR
    exact (Option.some.inj hmR).symm
  subst e1 e2
  exact ⟨h1, ha, hi, (hk "k" (by decide)).1, (hj "j" (by decide)).1⟩

/-! ## Relatedness -/

/-- Being reached by parent links, unfolded at the first link. -/
theorem Ancestor_iff {h : Heap} {t u : Nat} {tt : KhataTemplate}
    (ht : h.templates[t]? = some tt) :
    Ancestor h t u ↔ ∃ a, tt.parent = some a ∧ (a = u ∨ Ancestor h a u) := by
  constructor
  · intro ha
    cases ha with
    | parent h1 h2 =>
      rw [ht] at h1
      cases h1
      exact ⟨_, h2, Or.inl rfl⟩
    | step h1 h2 h3 =>
      rw [ht] at h1
      cases h1
      exact ⟨_, h2, Or.inr h3⟩
  · rintro ⟨a, hp, hc | hc⟩
    · subst hc
      exact Ancestor.parent ht hp
    · exact Ancestor.step ht hp hc

/-- The walk of `KhataTemplate.IsRelatedTo` ends and finds exactly the proper
ancestors. -/
theorem TemplateIsRelatedTo_spec {h : Heap} (hw : WF h) (T U fuel : Nat)
    (hT : T < h.templates.length) (hf : h.templates.length + 1 ≤ fuel) :
    ∃ b, KhataTemplate.IsRelatedTo h fuel T (some U) = some b ∧ (b = true ↔ Ancestor h T U) := by
  obtain ⟨tt, htt⟩ := getElem?_of_lt _ T hT
  have hp : ∀ a, tt.parent = some a → a < h.templates.length := fun a ha => by
    have := (hw.template htt).2 a ha
    omega
  obtain ⟨b, hb, hiff⟩ := walk_from hw U tt.parent hp fuel hf
  refine ⟨b, by simp [KhataTemplate.IsRelatedTo, htt, hb], ?_⟩
  rw [hiff, Ancestor_iff htt]

/-- The heap after `Extend`: one more template, whose parent is the receiver. -/
theorem Extend_heap {h : Heap} {T : Nat} {t : KhataTemplate} (ht : h.templates[T]? = some t) :
    ∃ h1 t1, KhataTemplate.Extend h T = some (h1, h.templates.length) ∧
      h1.templates[h.templates.length]? = some t1 ∧ t1.parent = some T ∧
      h1.templates.length = h.templates.length + 1 ∧
      h1.templates = h.templates ++ [t1] :=
  ⟨_, _, Extend_eq ht, List.getElem?_concat_length _ _, rfl, by simp, rfl⟩

/-- The heap after `New` on a template: one more record, bound to the receiver. -/
theorem TemplateNew_heap {h : Heap} {now T : Nat} {t : KhataTemplate} (ms : List String)
    (ht : h.templates[T]? = some t) :
    ∃ h1 r, KhataTemplate.New h now T ms = some (h1, h.records.length) ∧
      h1.records[h.records.length]? = some r ∧ r.template = some T ∧
      h1.templates = h.templates :=
  ⟨_, _, TemplateNew_eq ms ht, List.getElem?_concat_length _ _, rfl, rfl⟩

theorem WF_TemplateNew {h h2 : Heap} {now kt k : Nat} {ms : List String} (hw : WF h)
    (he : KhataTemplate.New h now kt ms = some (h2, k)) : WF h2 := by
  cases hkt : h.templates[kt]? with
  | none => simp [KhataTemplate.New, hkt] at he
  | some t =>
    have h1 : KhataTemplate.Wrap (errorsNew h
        (if joinLoop ms.length 0 ms "" = "" then t.message else joinLoop ms.length 0 ms "")).1
        now kt (some (errorsNew h
        (if joinLoop ms.length 0 ms "" = "" then t.message else joinLoop ms.length 0 ms "")).2)
        = some (h2, k) := by
      simpa [KhataTemplate.New, hkt] using he
    exact WF_TemplateWrap (WF_errorsNew hw _) h1

/-- C5: `R.IsRelatedTo(U)` answers, and answers true exactly when `U` is the
template of `R` or is reached from it by parent links; for a record bound to a
template `t` the answer is `R.IsInstanceOf(U) || t.IsRelatedTo(U)`, for a record
bound to none it is false as is `R.IsInstanceOf(U)`.  A record made by
`T.Extend().Extend().New()` is related to `T` and is not an instance of `T`. -/
theorem C5_record_related (h : Heap) (hw : WF h) :
    (∀ R U fuel, R < h.records.length → h.templates.length + 1 ≤ fuel →
      ∃ r b, h.records[R]? = some r ∧ Khata.IsRelatedTo h fuel R (some U) = some b ∧
        (b = true ↔ ∃ t, r.template = some t ∧ (t = U ∨ Ancestor h t U)) ∧
        (∀ t, r.template = some t →
          ∃ bi bt, Khata.IsInstanceOf h R (some U) = some bi ∧
            KhataTemplate.IsRelatedTo h fuel t (some U) = some bt ∧ b = (bi || bt)) ∧
        (r.template = none → b = false ∧ Khata.IsInstanceOf h R (some U) = some false)) ∧
    (∀ T now ms, T < h.templates.length →
      ∃ h1 T1 h2 T2 h3 R, KhataTemplate.Extend h T = some (h1, T1) ∧
        KhataTemplate.Extend h1 T1 = some (h2, T2) ∧
        KhataTemplate.New h2 now T2 ms = some (h3, R) ∧
        Khata.IsInstanceOf h3 R (some T) = some false ∧
        ∀ fuel, h3.templates.length + 1 ≤ fuel →
          Khata.IsRelatedTo h3 fuel R (some T) = some true) := by
  constructor
  · intro R U fuel hR hf
    obtain ⟨r, hr⟩ := getElem?_of_lt _ R hR
    have hrt := (hw.record hr).2
    obtain ⟨b, hb, hiff⟩ := walk_from hw U r.template hrt fuel hf
    refine ⟨r, b, hr, by simp [Khata.IsRelatedTo, hr, hb], hiff, ?_, ?_⟩
    · intro t ht
      obtain ⟨bt, hbt, hbiff⟩ := TemplateIsRelatedTo_spec hw t U fuel (hrt t ht) hf
      refine ⟨decide (t = U), bt, by simp [Khata.IsInstanceOf, hr, ht], hbt, ?_⟩
      rw [Bool.eq_iff_iff, hiff, Bool.or_eq_true, hbiff]
      simp [ht]
    · intro ht
      constructor
      · cases b with
        | false => rfl
        | true =>
          obtain ⟨t, h1, _⟩ := hiff.1 rfl
          rw [ht] at h1
          cases h1
      · simp [Khata.IsInstanceOf, hr, ht]
  · intro T now ms hT
    obtain ⟨t, ht⟩ := getElem?_of_lt _ T hT
    obtain ⟨h1, t1, e1, ht1, hp1, hl1, hh1⟩ := Extend_heap ht
    have hw1 := WF_Extend hw e1
    obtain ⟨h2, t2, e2, ht2, hp2, hl2, hh2⟩ := Extend_heap ht1
    have hw2 := WF_Extend hw1 e2
    obtain ⟨h3, r, e3, hr3, hrt, hh3⟩ := @TemplateNew_heap h2 now _ _ ms ht2
    have hw3 := WF_TemplateNew hw2 e3
    refine ⟨h1, _, h2, _, h3, _, e1, e2, e3, ?_, ?_⟩
    · have : ¬ h1.templates.length = T := by omega
      simp [Khata.IsInstanceOf, hr3, hrt, this]
    · intro fuel hf
      have ht13 : h3.templates[h.templates.length]? = some t1 := by
        rw [hh3, hh2, List.getElem?_append_left (by omega)]
        exact ht1
      have ht23 : h3.templates[h1.templates.length]? = some t2 := by
        rw [hh3]
        exact ht2
      obtain ⟨b, hb, hiff⟩ := walk_from hw3 T (some h1.templates.length)
        (fun a ha => by
          cases ha
          exact lt_of_getElem? ht23) fuel hf
      have hb2 : b = true := by
        rw [hiff]
        refine ⟨_, rfl, Or.inr ?_⟩
        exact Ancestor.step ht23 hp2 (Ancestor.parent ht13 hp1)
      subst hb2
      simpa [Khata.IsRelatedTo, hr3, hrt] using hb

theorem C5_record_related_witness :
    WF (NewTemplate Heap.empty).1 ∧
      ∃ h1 T1 h2 T2 h3 R, KhataTemplate.Extend (NewTemplate Heap.empty).1 0 = some (h1, T1) ∧
        KhataTemplate.Extend h1 T1 = some (h2, T2) ∧
        KhataTemplate.New h2 0 T2 [] = some (h3, R) ∧
        Khata.IsInstanceOf h3 R (some 0) = some false ∧
        Khata.IsRelatedTo h3 (h3.templates.length + 1) R (some 0) = some true := by
  refine ⟨by decide, ?_⟩
  obtain ⟨h1, T1, h2, T2, h3, R, e1, e2, e3, hi, hr⟩ :=
    (C5_record_related (NewTemplate Heap.empty).1 (by decide)).2 0 0 [] (by decide)
  exact ⟨h1, T1, h2, T2, h3, R, e1, e2, e3, hi, hr _ (Nat.le_refl _)⟩

/-- C6: on a heap whose parent links point to older templates, as every
hierarchy built with `NewTemplate` and `Extend` has them, the walk of
`T.IsRelatedTo(U)` ends within one iteration per allocated template and one
more; it returns true exactly when `U` is reached from `T` by one or more parent
links, and false otherwise. -/
theorem C6_template_walk (h : Heap) (hw : WF h) (T U fuel : Nat) (hT : T < h.templates.length)
    (hf : h.templates.length + 1 ≤ fuel) :
    ∃ b, KhataTemplate.IsRelatedTo h fuel T (some U) = some b ∧
      (b = true ↔ Ancestor h T U) ∧ (b = false ↔ ¬ Ancestor h T U) := by
  obtain ⟨b, hb, hiff⟩ := TemplateIsRelatedTo_spec hw T U fuel hT hf
  refine ⟨b, hb, hiff, ?_⟩
  rw [← hiff]
  cases b <;> simp

/-- A hierarchy built only with `NewTemplate` and `Extend` satisfies the heap
invariant. -/
theorem Built.wf {h : Heap} (hb : Built h) : WF h := by
  induction hb with
  | empty => exact WF_empty
  | newTemplate _ ih => exact WF_NewTemplate ih
  | extend _ he ih => exact WF_Extend ih he

theorem C6_template_walk_witness :
    WF exampleChain ∧
      ∃ b, KhataTemplate.IsRelatedTo exampleChain 4 2 (some 0) = some b ∧
        (b = true ↔ Ancestor exampleChain 2 0) ∧ (b = false ↔ ¬ Ancestor exampleChain 2 0) :=
  ⟨by decide, C6_template_walk exampleChain (by decide) 2 0 4 (by decide) (by decide)⟩

/-! ## One-hop relations between templates -/

/-- C7: `T.IsInstanceOf(U)` is true exactly when the parent of `T` is `U`, so
`T.Extend()` is an instance of `T` and `T.Extend().Extend()` is not; and
`T.IsParentOf(U)` equals `U.IsInstanceOf(T)`. -/
theorem C7_instance_and_parent (h : Heap) (T U : Nat) (hT : T < h.templates.length)
    (hU : U < h.templates.length) :
    (∃ t b, h.templates[T]? = some t ∧ KhataTemplate.IsInstanceOf h T (some U) = some b ∧
      (b = true ↔ t.parent = some U)) ∧
    (∃ b, KhataTemplate.IsParentOf h T U = some b ∧
      KhataTemplate.IsInstanceOf h U (some T) = some b) ∧
    (∃ h1 T1, KhataTemplate.Extend h T = some (h1, T1) ∧
      KhataTemplate.IsInstanceOf h1 T1 (some T) = some true ∧
      ∃ h2 T2, KhataTemplate.Extend h1 T1 = some (h2, T2) ∧
        KhataTemplate.IsInstanceOf h2 T2 (some T) = some false) := by
  obtain ⟨t, ht⟩ := getElem?_of_lt _ T hT
  obtain ⟨u, hu⟩ := getElem?_of_lt _ U hU
  refine ⟨⟨t, decide (t.parent = some U), ht, by simp [KhataTemplate.IsInstanceOf, ht],
    by simp⟩, ⟨decide (u.parent = some T), by simp [KhataTemplate.IsParentOf, ht, hu],
    by simp [KhataTemplate.IsInstanceOf, hu]⟩, ?_⟩
  obtain ⟨h1, t1, e1, ht1, hp1, hl1, _⟩ := Extend_heap ht
  obtain ⟨h2, t2, e2, ht2, hp2, _, _⟩ := Extend_heap ht1
  refine ⟨h1, _, e1, by simp [KhataTemplate.IsInstanceOf, ht1, hp1], h2, _, e2, ?_⟩
  have : ¬ h.templates.length = T := by omega
  simp [KhataTemplate.IsInstanceOf, ht2, hp2, this]

theorem C7_instance_and_parent_witness :
    (∃ t b, exampleChain.templates[2]? = some t ∧
      KhataTemplate.IsInstanceOf exampleChain 2 (some 1) = some b ∧
      (b = true ↔ t.parent = some 1)) ∧
    ∃ b, KhataTemplate.IsParentOf exampleChain 2 1 = some b ∧
      KhataTemplate.IsInstanceOf exampleChain 1 (some 2) = some b :=
  ⟨(C7_instance_and_parent exampleChain 2 1 (by decide) (by decide)).1,
    (C7_instance_and_parent exampleChain 2 1 (by decide) (by decide)).2.1⟩

/-! ## Properties -/

/-- C8, as the code has it: a key absent from the map has no property and reads
nil, as on a fresh template or record; after `SetProperty(k, v)` the key reads
`v` and `HasProperty(k)` is true when `v` is not nil; after `RemoveProperty(k)`
the key has no property and reads nil; other keys are not affected. -/
theorem C8_properties (h : Heap) (hw : WF h) :
    (∀ X key value, X < h.templates.length →
      (∃ m, h.templateBag X = some m ∧ (key ∉ m.keys →
        KhataTemplate.HasProperty h X key = some false ∧
        KhataTemplate.GetProperty h X key = some Value.nil)) ∧
      (∃ h1, KhataTemplate.SetProperty h X key value = some (h1, X) ∧
        (value ≠ Value.nil → KhataTemplate.HasProperty h1 X key = some true) ∧
        KhataTemplate.GetProperty h1 X key = some value ∧
        ∀ k, k ≠ key →
          KhataTemplate.GetProperty h1 X k = KhataTemplate.GetProperty h X k ∧
          KhataTemplate.HasProperty h1 X k = KhataTemplate.HasProperty h X k) ∧
      (∃ h1, KhataTemplate.RemoveProperty h X key = some (h1, X) ∧
        KhataTemplate.HasProperty h1 X key = some false ∧
        KhataTemplate.GetProperty h1 X key = some Value.nil ∧
        ∀ k, k ≠ key →
          KhataTemplate.GetProperty h1 X k = KhataTemplate.GetProperty h X k ∧
          KhataTemplate.HasProperty h1 X k = KhataTemplate.HasProperty h X k)) ∧
    (∀ X key value, X < h.records.length →
      (∃ m, h.recordBag X = some m ∧ (key ∉ m.keys →
        Khata.HasProperty h X key = some false ∧
        Khata.GetProperty h X key = some Value.nil)) ∧
      (∃ h1, Khata.SetProperty h X key value = some (h1, X) ∧
        (value ≠ Value.nil → Khata.HasProperty h1 X key = some true) ∧
        Khata.GetProperty h1 X key = some value ∧
        ∀ k, k ≠ key →
          Khata.GetProperty h1 X k = Khata.GetProperty h X k ∧
          Khata.HasProperty h1 X k = Khata.HasProperty h X k) ∧
      (∃ h1, Khata.RemoveProperty h X key = some (h1, X) ∧
        Khata.HasProperty h1 X key = some false ∧
        Khata.GetProperty h1 X key = some Value.nil ∧
        ∀ k, k ≠ key →
          Khata.GetProperty h1 X k = Khata.GetProperty h X k ∧
          Khata.HasProperty h1 X k = Khata.HasProperty h X k)) ∧
    (∀ key, KhataTemplate.HasProperty (NewTemplate h).1 (NewTemplate h).2 key = some false) ∧
    (∀ now err key, Khata.HasProperty (Wrap h now err).1 (Wrap h now err).2 key = some false) ∧
    (∀ now msg key, Khata.HasProperty (New h now msg).1 (New h now msg).2 key = some false) := by
  refine ⟨?_, ?_, ?_, ?_, ?_⟩
  · intro X key value hX
    obtain ⟨t, ht⟩ := getElem?_of_lt _ X hX
    have hb := (hw.template ht).1
    obtain ⟨m, hm⟩ := getElem?_of_lt _ _ hb
    refine ⟨⟨m, by simp [Heap.templateBag, ht, hm], ?_⟩,
      ⟨{ h with bags := h.bags.set t.properties (m.set key value) }, ?_, ?_, ?_, ?_⟩,
      ⟨{ h with bags := h.bags.set t.properties (m.delete key) }, ?_, ?_, ?_, ?_⟩⟩
    · intro hk
      simp [KhataTemplate.HasProperty, KhataTemplate.GetProperty, ht, hm,
        Bag.get_of_not_mem m key hk]
    · simp [KhataTemplate.SetProperty, ht, hm]
    · intro hv
      simp [KhataTemplate.HasProperty, ht, List.getElem?_set_self hb, Bag.get_set, hv]
    · simp [KhataTemplate.GetProperty, ht, List.getElem?_set_self hb, Bag.get_set]
    · intro k hk
      have : ¬ key = k := fun e => hk e.symm
      simp [KhataTemplate.GetProperty, KhataTemplate.HasProperty, ht, hm,
        List.getElem?_set_self hb, Bag.get_set, this]
    · simp [KhataTemplate.RemoveProperty, ht, hm]
    · simp [KhataTemplate.HasProperty, ht, List.getElem?_set_self hb, Bag.get_delete]
    · simp [KhataTemplate.GetProperty, ht, List.getElem?_set_self hb, Bag.get_delete]
    · intro k hk
      have : ¬ key = k := fun e => hk e.symm
      simp [KhataTemplate.GetProperty, KhataTemplate.HasProperty, ht, hm,
        List.getElem?_set_self hb, Bag.get_delete, this]
  · intro X key value hX
    obtain ⟨r, hr⟩ := getElem?_of_lt _ X hX
    have hb := (hw.record hr).1
    obtain ⟨m, hm⟩ := getElem?_of_lt _ _ hb
    refine ⟨⟨m, by simp [Heap.recordBag, hr, hm], ?_⟩,
      ⟨{ h with bags := h.bags.set r.properties (m.set key value) }, ?_, ?_, ?_, ?_⟩,
      ⟨{ h with bags := h.bags.set r.properties (m.delete key) }, ?_, ?_, ?_, ?_⟩⟩
    · intro hk
      simp [Khata.HasProperty, Khata.GetProperty, hr, hm, Bag.get_of_not_mem m key hk]
    · simp [Khata.SetProperty, hr, hm]
    · intro hv
      simp [Khata.HasProperty, hr, List.getElem?_set_self hb, Bag.get_set, hv]
    · simp [Khata.GetProperty, hr, List.getElem?_set_self hb, Bag.get_set]
    · intro k hk
      have : ¬ key = k := fun e => hk e.symm
      simp [Khata.GetProperty, Khata.HasProperty, hr, hm, List.getElem?_set_self hb,
        Bag.get_set, this]
    · simp [Khata.RemoveProperty, hr, hm]
    · simp [Khata.HasProperty, hr, List.getElem?_set_self hb, Bag.get_delete]
    · simp [Khata.GetProperty, hr, List.getElem?_set_self hb, Bag.get_delete]
    · intro k hk
      have : ¬ key = k := fun e => hk e.symm
      simp [Khata.GetProperty, Khata.HasProperty, hr, hm, List.getElem?_set_self hb,
        Bag.get_delete, this]
  · intro key
    simp [KhataTemplate.HasProperty, NewTemplate, Bag.get]
  · intro now err key
    simp [Khata.HasProperty, Wrap, Bag.get]
  · intro now msg key
    simp [Khata.HasProperty, New, Wrap, errorsNew, Bag.get]

theorem C8_properties_witness :
    WF exampleHeap ∧
      ∃ h1, KhataTemplate.SetProperty exampleHeap 0 "test" (Value.str "testValue")
          = some (h1, 0) ∧
        KhataTemplate.HasProperty h1 0 "test" = some true ∧
        KhataTemplate.GetProperty h1 0 "test" = some (Value.str "testValue") := by
  refine ⟨by decide, ?_⟩
  obtain ⟨_, ⟨h1, hs, hh, hg, _⟩, _⟩ :=
    (C8_properties exampleHeap (by decide)).1 0 "test" (Value.str "testValue") (by decide)
  exact ⟨h1, hs, hh (by decide), hg⟩

/-- C8 as stated fails for the nil value: after `SetProperty("k", nil)` on a
fresh template `HasProperty("k")` is false. -/
theorem C8_counterexample :
    ∃ h1, KhataTemplate.SetProperty (NewTemplate Heap.empty).1 0 "k" Value.nil = some (h1, 0) ∧
      KhataTemplate.HasProperty h1 0 "k" = some false ∧
      KhataTemplate.GetProperty h1 0 "k" = some Value.nil :=
  ⟨_, rfl, by decide, by decide⟩

theorem Bag.mem_set (b : Bag) (key : String) (value : Value) :
    (key, value) ∈ b.set key value := by
  induction b with
  | nil => simp [Bag.set]
  | cons e rest ih =>
    obtain ⟨k0, v0⟩ := e
    by_cases h0 : k0 = key
    · subst h0
      simp [Bag.set]
    · simp [Bag.set, h0, ih]

/-- C9: `HasProperty(k)` is true exactly when the map holds a non-nil value
under `k`; after `SetProperty(k, nil)` the map holds the key `k` with the nil
value, its size counts the key, and `HasProperty(k)` is false as it is for a key
that is absent. -/
theorem C9_has_property_nil (h : Heap) (hw : WF h) :
    (∀ X key, X < h.templates.length →
      ∃ m b, h.templateBag X = some m ∧ KhataTemplate.HasProperty h X key = some b ∧
        (b = true ↔ ∃ v, (key, v) ∈ m ∧ v ≠ Value.nil) ∧
        (key ∉ m.keys → b = false) ∧
        ∃ h1 m1, KhataTemplate.SetProperty h X key Value.nil = some (h1, X) ∧
          h1.templateBag X = some m1 ∧ key ∈ m1.keys ∧ (key, Value.nil) ∈ m1 ∧
          m1.len = (if key ∈ m.keys then m.len else m.len + 1) ∧
          KhataTemplate.HasProperty h1 X key = some false) ∧
    (∀ X key, X < h.records.length →
      ∃ m b, h.recordBag X = some m ∧ Khata.HasProperty h X key = some b ∧
        (b = true ↔ ∃ v, (key, v) ∈ m ∧ v ≠ Value.nil) ∧
        (key ∉ m.keys → b = false) ∧
        ∃ h1 m1, Khata.SetProperty h X key Value.nil = some (h1, X) ∧
          h1.recordBag X = some m1 ∧ key ∈ m1.keys ∧ (key, Value.nil) ∈ m1 ∧
          m1.len = (if key ∈ m.keys then m.len else m.len + 1) ∧
          Khata.HasProperty h1 X key = some false) := by
  constructor
  · intro X key hX
    obtain ⟨t, ht⟩ := getElem?_of_lt _ X hX
    have hb := (hw.template ht).1
    obtain ⟨m, hm⟩ := getElem?_of_lt _ _ hb
    have hnd := hw.bag hm
    refine ⟨m, decide (m.get key ≠ Value.nil), by simp [Heap.templateBag, ht, hm],
      by simp [KhataTemplate.HasProperty, ht, hm], ?_, ?_,
      { h with bags := h.bags.set t.properties (m.set key Value.nil) }, m.set key Value.nil,
      ?_, ?_, ?_, ?_, ?_, ?_⟩
    · rw [decide_eq_true_eq]
      exact Bag.get_ne_nil_iff m key hnd
    · intro hk
      simp [Bag.get_of_not_mem m key hk]
    · simp [KhataTemplate.SetProperty, ht, hm]
    · simp [Heap.templateBag, ht, List.getElem?_set_self hb]
    · rw [Bag.mem_keys_set]
      exact Or.inl rfl
    · exact Bag.mem_set m key Value.nil
    · exact Bag.len_set m key Value.nil
    · simp [KhataTemplate.HasProperty, ht, List.getElem?_set_self hb, Bag.get_set]
  · intro X key hX
    obtain ⟨r, hr⟩ := getElem?_of_lt _ X hX
    have hb := (hw.record hr).1
    obtain ⟨m, hm⟩ := getElem?_of_lt _ _ hb
    have hnd := hw.bag hm
    refine ⟨m, decide (m.get key ≠ Value.nil), by simp [Heap.recordBag, hr, hm],
      by simp [Khata.HasProperty, hr, hm], ?_, ?_,
      { h with bags := h.bags.set r.properties (m.set key Value.nil) }, m.set key Value.nil,
      ?_, ?_, ?_, ?_, ?_, ?_⟩
    · rw [decide_eq_true_eq]
      exact Bag.get_ne_nil_iff m key hnd
    · intro hk
      simp [Bag.get_of_not_mem m key hk]
    · simp [Khata.SetProperty, hr, hm]
    · simp [Heap.recordBag, hr, List.getElem?_set_self hb]
    · rw [Bag.mem_keys_set]
      exact Or.inl rfl
    · exact Bag.mem_set m key Value.nil
    · exact Bag.len_set m key Value.nil
    · simp [Khata.HasProperty, hr, List.getElem?_set_self hb, Bag.get_set]

theorem C9_has_property_nil_witness :
    WF exampleHeap ∧
      ∃ h1 m1, KhataTemplate.SetProperty exampleHeap 0 "n" Value.nil = some (h1, 0) ∧
        h1.templateBag 0 = some m1 ∧ "n" ∈ m1.keys ∧
        KhataTemplate.HasProperty h1 0 "n" = some false := by
  refine ⟨by decide, ?_⟩
  obtain ⟨m, b, _, _, _, _, h1, m1, hs, hm1, hk, _, _, hh⟩ :=
    (C9_has_property_nil exampleHeap (by decide)).1 0 "n" (by decide)
  exact ⟨h1, m1, hs, hm1, hk, hh⟩

/-- C10, what the code returns: `PropertiesKeys` of a template or record whose
map holds `n` keys is a list of `2 * n` strings, `n` empty strings followed by
the `n` keys. -/
theorem C10_properties_keys_padded (h : Heap) (hw : WF h) :
    (∀ X, X < h.templates.length →
      ∃ m, h.templateBag X = some m ∧
        KhataTemplate.PropertiesKeys h X = some (List.replicate m.len "" ++ m.keys) ∧
        ∀ ks, KhataTemplate.PropertiesKeys h X = some ks → ks.length = 2 * m.len) ∧
    (∀ X, X < h.records.length →
      ∃ m, h.recordBag X = some m ∧
        Khata.PropertiesKeys h X = some (List.replicate m.len "" ++ m.keys) ∧
        ∀ ks, Khata.PropertiesKeys h X = some ks → ks.length = 2 * m.len) := by
  constructor
  · intro X hX
    obtain ⟨t, ht⟩ := getElem?_of_lt _ X hX
    obtain ⟨m, hm⟩ := getElem?_of_lt _ _ (hw.template ht).1
    have he : KhataTemplate.PropertiesKeys h X = some (List.replicate m.len "" ++ m.keys) := by
      simp [KhataTemplate.PropertiesKeys, ht, hm, makeStrings, foldl_append_keys]
    refine ⟨m, by simp [Heap.templateBag, ht, hm], he, ?_⟩
    intro ks hks
    rw [he] at hks
    cases hks
    simp [Bag.keys, Bag.len]
    omega
  · intro X hX
    obtain ⟨r, hr⟩ := getElem?_of_lt _ X hX
    obtain ⟨m, hm⟩ := getElem?_of_lt _ _ (hw.record hr).1
    have he : Khata.PropertiesKeys h X = some (List.replicate m.len "" ++ m.keys) := by
      simp [Khata.PropertiesKeys, hr, hm, makeStrings, foldl_append_keys]
    refine ⟨m, by simp [Heap.recordBag, hr, hm], he, ?_⟩
    intro ks hks
    rw [he] at hks
    cases hks
    simp [Bag.keys, Bag.len]
    omega

theorem C10_properties_keys_padded_witness :
    WF exampleHeap ∧ exampleHeap.templateBag 0 = some [("k", Value.int 1)] ∧
      KhataTemplate.PropertiesKeys exampleHeap 0 = some ["", "k"] ∧
      Khata.PropertiesKeys exampleHeap 0 = some ["", "j"] := by
  refine ⟨by decide, by decide, ?_, ?_⟩
  · obtain ⟨m, hm, hk, _⟩ := (C10_properties_keys_padded exampleHeap (by decide)).1 0 (by decide)
    have e : m = [("k", Value.int 1)] := by
      have : exampleHeap.templateBag 0 = some [("k", Value.int 1)] := by decide
      rw [this] at hm
      exact (Option.some.inj hm).symm
    subst e
    exact hk
  · obtain ⟨m, hm, hk, _⟩ := (C10_properties_keys_padded exampleHeap (by decide)).2 0 (by decide)
    have e : m = [("j", Value.int 2)] := by
      have : exampleHeap.recordBag 0 = some [("j", Value.int 2)] := by decide
      rw [this] at hm
      exact (Option.some.inj hm).symm
    subst e
    exact hk

/-! ## One call on a record -/

/-- Overwriting record `k` by a record with the same references, as the setters,
`Explain`, `Explainf` and `Trace` do: the invariant stays, the templates stay,
record `k` reads as the new record and every other record as before. -/
theorem setRecord_spec {h : Heap} (hw : WF h) {k : Nat} {r : Khata}
    (hr : h.records[k]? = some r) (r2 : Khata) (hp : r2.properties = r.properties)
    (ht : r2.template = r.template) :
    WF { h with records := h.records.set k r2 } ∧
      ({ h with records := h.records.set k r2 } : Heap).records[k]? = some r2 ∧
      ∀ R, R ≠ k → ({ h with records := h.records.set k r2 } : Heap).records[R]? =
        h.records[R]? := by
  refine ⟨WF_setRecord hw hr r2 hp ?_, List.getElem?_set_self (lt_of_getElem? hr), ?_⟩
  · intro x hx
    rw [ht] at hx
    exact (hw.record hr).2 x hx
  · intro R hR
    exact List.getElem?_set_ne (Ne.symm hR)

/-- What one call on record `k` does to the heap: it returns, keeps the
invariant and the templates, touches no other record, appends to the
explanations of `k` the one entry of an `Explain` or `Explainf` and nothing
otherwise, and leaves the template of `k` unless the call is `Apply`. -/
theorem RecordOp.run_spec (sprintf : String → List Value → String) {h : Heap} (hw : WF h)
    {k : Nat} {r : Khata} (hr : h.records[k]? = some r) (op : RecordOp)
    (hok : op.ok h.records.length h.templates.length k = true) :
    ∃ h1 r2 added, op.run sprintf h k = some h1 ∧ WF h1 ∧ h1.templates = h.templates ∧
      h1.records.length = h.records.length ∧ h1.records[k]? = some r2 ∧
      (∀ R, R ≠ k → h1.records[R]? = h.records[R]?) ∧
      r2.explanationStack = r.explanationStack ++ added ∧
      added.map (fun e => e.message) = (op.explains sprintf).toList ∧
      (r2.template = r.template ∨ ∃ kt, op = RecordOp.Apply kt ∧ r2.template = some kt) := by
  have hb := (hw.record hr).1
  obtain ⟨m, hm⟩ := getElem?_of_lt _ _ hb
  cases op with
  | SetCode code =>
    obtain ⟨h1, h2, h3⟩ := setRecord_spec hw hr { r with errorCode := code } rfl rfl
    exact ⟨_, _, [], by simp [RecordOp.run, Khata.SetCode, hr], h1, rfl, by simp, h2, h3,
      by simp, rfl, Or.inl rfl⟩
  | SetType errorType =>
    obtain ⟨h1, h2, h3⟩ := setRecord_spec hw hr { r with errorType := errorType } rfl rfl
    exact ⟨_, _, [], by simp [RecordOp.run, Khata.SetType, hr], h1, rfl, by simp, h2, h3,
      by simp, rfl, Or.inl rfl⟩
  | SetExitCode code =>
    obtain ⟨h1, h2, h3⟩ := setRecord_spec hw hr { r with exitCode := code } rfl rfl
    exact ⟨_, _, [], by simp [RecordOp.run, Khata.SetExitCode, hr], h1, rfl, by simp, h2, h3,
      by simp, rfl, Or.inl rfl⟩
  | SetError err =>
    obtain ⟨h1, h2, h3⟩ := setRecord_spec hw hr { r with Err := err } rfl rfl
    exact ⟨_, _, [], by simp [RecordOp.run, Khata.SetError, hr], h1, rfl, by simp, h2, h3,
      by simp, rfl, Or.inl rfl⟩
  | SetProperty key value =>
    exact ⟨{ h with bags := h.bags.set r.properties (m.set key value) }, r, [],
      by simp [RecordOp.run, Khata.SetProperty, hr, hm],
      WF_setBag hw _ _ (Bag.nodup_set m key value (hw.bag hm)), rfl, rfl, hr,
      fun _ _ => rfl, by simp, rfl, Or.inl rfl⟩
  | RemoveProperty key =>
    exact ⟨{ h with bags := h.bags.set r.properties (m.delete key) }, r, [],
      by simp [RecordOp.run, Khata.RemoveProperty, hr, hm],
      WF_setBag hw _ _ (Bag.nodup_delete m key (hw.bag hm)), rfl, rfl, hr,
      fun _ _ => rfl, by simp, rfl, Or.inl rfl⟩
  | Explain callers explanation =>
    obtain ⟨h1, h2, h3⟩ := setRecord_spec hw hr
      { r with explanationStack := r.explanationStack ++ [{
          message := explanation
          file := (collectCallerTrace (callersFrame :: khataFrame 682 "collectCallerTrace" ::
            khataFrame 419 "(*Khata).Explain" :: callers)).file
          line := (collectCallerTrace (callersFrame :: khataFrame 682 "collectCallerTrace" ::
            khataFrame 419 "(*Khata).Explain" :: callers)).line
          functionName := (collectCallerTrace (callersFrame ::
            khataFrame 682 "collectCallerTrace" ::
            khataFrame 419 "(*Khata).Explain" :: callers)).functionName }] } rfl rfl
    exact ⟨_, _, _, by simp [RecordOp.run, Khata.Explain, hr], h1, rfl, by simp, h2, h3,
      rfl, rfl, Or.inl rfl⟩
  | Explainf callers format args =>
    obtain ⟨h1, h2, h3⟩ := setRecord_spec hw hr
      { r with explanationStack := r.explanationStack ++ [{
          message := sprintf format args
          file := (collectCallerTrace (callersFrame :: khataFrame 682 "collectCallerTrace" ::
            khataFrame 433 "(*Khata).Explainf" :: callers)).file
          line := (collectCallerTrace (callersFrame :: khataFrame 682 "collectCallerTrace" ::
            khataFrame 433 "(*Khata).Explainf" :: callers)).line
          functionName := (collectCallerTrace (callersFrame ::
            khataFrame 682 "collectCallerTrace" ::
            khataFrame 433 "(*Khata).Explainf" :: callers)).functionName }] } rfl rfl
    exact ⟨_, _, _, by simp [RecordOp.run, Khata.Explainf, hr], h1, rfl, by simp, h2, h3,
      rfl, rfl, Or.inl rfl⟩
  | Trace callers =>
    obtain ⟨h1, h2, h3⟩ := setRecord_spec hw hr
      { r with traceStack := collectTrace (callersFrame :: khataFrame 697 "collectTrace" ::
          khataFrame 297 "(*Khata).Trace" :: callers) } rfl rfl
    exact ⟨_, _, [], by simp [RecordOp.run, Khata.Trace, hr], h1, rfl, by simp, h2, h3,
      by simp, rfl, Or.inl rfl⟩
  | Apply kt =>
    have hkt : kt < h.templates.length := by
      simp only [RecordOp.ok, Bool.and_eq_true, decide_eq_true_eq] at hok
      exact hok.2
    obtain ⟨t, ht⟩ := getElem?_of_lt _ kt hkt
    obtain ⟨mT, hmT⟩ := getElem?_of_lt _ _ (hw.template ht).1
    have he := Apply_eq ht hr hmT hm
    exact ⟨_, _, [], by simp [RecordOp.run, he], WF_Apply hw he, rfl, by simp,
      List.getElem?_set_self (lt_of_getElem? hr),
      fun R hR => List.getElem?_set_ne (Ne.symm hR), by simp, rfl, Or.inr ⟨kt, rfl, rfl⟩⟩

/-! ## Explanations are append-only -/

theorem filterMap_cons_toList {α β : Type} (f : α → Option β) (a : α) (l : List α) :
    (a :: l).filterMap f = (f a).toList ++ l.filterMap f := by
  cases hfa : f a <;> simp [List.filterMap_cons, hfa]

/-- A sequence of calls on allocated records runs to its end; the explanations
of a record grow by the entries of the `Explain` and `Explainf` calls made on
it, in call order. -/
theorem runOps_spec (sprintf : String → List Value → String) (R : Nat) :
    ∀ (ops : List (Nat × RecordOp)) (h : Heap) (r : Khata), WF h →
      (∀ p ∈ ops, p.2.ok h.records.length h.templates.length p.1 = true) →
      h.records[R]? = some r →
      ∃ h1 r1 added, runOps sprintf h ops = some h1 ∧ WF h1 ∧ h1.templates = h.templates ∧
        h1.records.length = h.records.length ∧ h1.records[R]? = some r1 ∧
        r1.explanationStack = r.explanationStack ++ added ∧
        added.map (fun e => e.message) =
          (ops.filter (fun p => decide (p.1 = R))).filterMap (fun p => p.2.explains sprintf) := by
  intro ops
  induction ops with
  | nil =>
    intro h r hw _ hr
    exact ⟨h, r, [], rfl, hw, rfl, rfl, hr, by simp, by simp⟩
  | cons p rest ih =>
    intro h r hw hv hr
    obtain ⟨k, op⟩ := p
    have hok := hv (k, op) (List.mem_cons_self _ _)
    have hk : k < h.records.length := by
      cases op <;> simp [RecordOp.ok] at hok <;> omega
    obtain ⟨rk, hrk⟩ := getElem?_of_lt _ k hk
    obtain ⟨h1, r2, added0, hrun, hw1, ht1, hl1, hr2, hoth, hes, hmsg, _⟩ :=
      RecordOp.run_spec sprintf hw hrk op hok
    have hv1 : ∀ p ∈ rest, p.2.ok h1.records.length h1.templates.length p.1 = true := by
      intro p hp
      rw [hl1, ht1]
      exact hv p (List.mem_cons_of_mem _ hp)
    by_cases hkR : k = R
    · subst hkR
      rw [hr] at hrk
      cases hrk
      obtain ⟨h2, r3, added1, hrun2, hw2, ht2, hl2, hr3, hes3, hmsg3⟩ := ih h1 r2 hw1 hv1 hr2
      refine ⟨h2, r3, added0 ++ added1, by simp [runOps, hrun, hrun2], hw2, by rw [ht2, ht1],
        by rw [hl2, hl1], hr3, by rw [hes3, hes, List.append_assoc], ?_⟩
      rw [List.filter_cons_of_pos (by simp), filterMap_cons_toList, List.map_append, hmsg, hmsg3]
    · have hr1 : h1.records[R]? = some r := by
        rw [hoth R (fun e => hkR e.symm)]
        exact hr
      obtain ⟨h2, r3, added1, hrun2, hw2, ht2, hl2, hr3, hes3, hmsg3⟩ := ih h1 r hw1 hv1 hr1
      refine ⟨h2, r3, added1, by simp [runOps, hrun, hrun2], hw2, by rw [ht2, ht1],
        by rw [hl2, hl1], hr3, hes3, ?_⟩
      rw [List.filter_cons_of_neg (by simpa using hkR), hmsg3]

/-- C11: a sequence of calls on records (setters, property operations,
`SetError`, `Explain`, `Explainf`, `Trace`, `Apply`) runs to its end, and the
explanations of a record `R` afterwards are its former explanations, unchanged
and in place, followed by one entry per `Explain` or `Explainf` call made on
`R`, in call order, each carrying the message of its call; so a record that
starts with none ends with as many entries as such calls. -/
theorem C11_explanations_append_only (sprintf : String → List Value → String) (h : Heap)
    (hw : WF h) (ops : List (Nat × RecordOp))
    (hv : ∀ p ∈ ops, p.2.ok h.records.length h.templates.length p.1 = true)
    (R : Nat) (hR : R < h.records.length) :
    ∃ h1 es added, runOps sprintf h ops = some h1 ∧
      Khata.Explanations h R = some es ∧
      Khata.Explanations h1 R = some (es ++ added) ∧
      added.map (fun e => e.message) =
        (ops.filter (fun p => decide (p.1 = R))).filterMap (fun p => p.2.explains sprintf) ∧
      (es = [] → (∀ es1, Khata.Explanations h1 R = some es1 →
        es1.length = ((ops.filter (fun p => decide (p.1 = R))).filterMap
          (fun p => p.2.explains sprintf)).length)) := by
  obtain ⟨r, hr⟩ := getElem?_of_lt _ R hR
  obtain ⟨h1, r1, added, hrun, _, _, _, hr1, hes, hmsg⟩ := runOps_spec sprintf R ops h r hw hv hr
  refine ⟨h1, r.explanationStack, added, hrun, by simp [Khata.Explanations, hr],
    by simp [Khata.Explanations, hr1, hes], hmsg, ?_⟩
  intro he es1 hes1
  simp only [Khata.Explanations, hr1, Option.map_some', Option.some.injEq] at hes1
  rw [← hes1, hes, he, ← hmsg]
  simp

theorem C11_explanations_append_only_witness :
    WF exampleHeap ∧
      ∃ h1 es1, runOps (fun format _ => format) exampleHeap
          [(0, RecordOp.Explain [⟨"main.go", 10, "main.main"⟩] "m1"),
           (0, RecordOp.SetCode 404),
           (0, RecordOp.Explainf [⟨"main.go", 12, "main.main"⟩] "m2" []),
           (0, RecordOp.Apply 0)] = some h1 ∧
        Khata.Explanations h1 0 = some es1 ∧
        es1.map (fun e => e.message) = ["m1", "m2"] := by
  refine ⟨by decide, ?_⟩
  obtain ⟨h1, es, added, hrun, hes, hes1, hmsg, _⟩ :=
    C11_explanations_append_only (fun format _ => format) exampleHeap (by decide)
      [(0, RecordOp.Explain [⟨"main.go", 10, "main.main"⟩] "m1"),
       (0, RecordOp.SetCode 404),
       (0, RecordOp.Explainf [⟨"main.go", 12, "main.main"⟩] "m2" []),
       (0, RecordOp.Apply 0)] (by decide) 0 (by decide)
  have he : es = [] := by
    have : Khata.Explanations exampleHeap 0 = some [] := by decide
    rw [this] at hes
    exact (Option.some.inj hes).symm
  subst he
  refine ⟨h1, _, hrun, hes1, ?_⟩
  rw [List.nil_append, hmsg]
  decide

/-! ## The site of an explanation -/

/-- The frame `collectCallerTrace` reports is the fourth of the stack: with
`runtime.Callers`, `collectCallerTrace` and the explaining method on top, that
is the frame of the function that called the method. -/
theorem collectCallerTrace_skip (a b c caller : Frame) (rest : List Frame) :
    collectCallerTrace (a :: b :: c :: caller :: rest) =
      ⟨caller.File, caller.Line, caller.Function⟩ := by
  cases rest <;> rfl

/-- C12: the explanation appended by `Explain` or `Explainf` carries the
message of the call and the file, line and function of the frame of the calling
function, the one right above the method's own frame, whatever frames lie above
that one; the three frames on top of it (`runtime.Callers`,
`collectCallerTrace`, the method) are skipped. -/
theorem C12_explain_site (sprintf : String → List Value → String) (h : Heap) (k : Nat)
    (hk : k < h.records.length) (caller : Frame) (rest : List Frame)
    (explanation format : String) (args : List Value) :
    (∃ h1 es, Khata.Explain h (caller :: rest) k explanation = some (h1, k) ∧
      Khata.Explanations h1 k = some (es ++ [⟨explanation, caller.File, caller.Line,
        caller.Function⟩]) ∧ Khata.Explanations h k = some es) ∧
    (∃ h1 es, Khata.Explainf sprintf h (caller :: rest) k format args = some (h1, k) ∧
      Khata.Explanations h1 k = some (es ++ [⟨sprintf format args, caller.File, caller.Line,
        caller.Function⟩]) ∧ Khata.Explanations h k = some es) ∧
    (∀ a b c : Frame, collectCallerTrace (a :: b :: c :: caller :: rest) =
      ⟨caller.File, caller.Line, caller.Function⟩) := by
  obtain ⟨r, hr⟩ := getElem?_of_lt _ k hk
  refine ⟨⟨_, r.explanationStack, by simp [Khata.Explain, hr]; rfl, ?_, ?_⟩,
    ⟨_, r.explanationStack, by simp [Khata.Explainf, hr]; rfl, ?_, ?_⟩,
    fun a b c => collectCallerTrace_skip a b c caller rest⟩
  · simp [Khata.Explanations, List.getElem?_set_self hk, collectCallerTrace_skip]
  · simp [Khata.Explanations, hr]
  · simp [Khata.Explanations, List.getElem?_set_self hk, collectCallerTrace_skip]
  · simp [Khata.Explanations, hr]

theorem C12_explain_site_witness :
    0 < exampleHeap.records.length ∧
      ∃ h1, Khata.Explain exampleHeap
          [⟨"khata_test.go", 30, "github.com/cmseguin/khata_test.subFnExplain"⟩,
           ⟨"khata_test.go", 36, "github.com/cmseguin/khata_test.TestKhataExplain"⟩]
          0 "This is an explanation for subFnExplain" = some (h1, 0) ∧
        Khata.Explanations h1 0 = some [⟨"This is an explanation for subFnExplain",
          "khata_test.go", 30, "github.com/cmseguin/khata_test.subFnExplain"⟩] := by
  refine ⟨by decide, ?_⟩
  obtain ⟨⟨h1, es, he, hes1, hes⟩, _⟩ :=
    C12_explain_site (fun format _ => format) exampleHeap 0 (by decide)
      ⟨"khata_test.go", 30, "github.com/cmseguin/khata_test.subFnExplain"⟩
      [⟨"khata_test.go", 36, "github.com/cmseguin/khata_test.TestKhataExplain"⟩]
      "This is an explanation for subFnExplain" "" []
  have e : es = [] := by
    have : Khata.Explanations exampleHeap 0 = some [] := by decide
    rw [this] at hes
    exact (Option.some.inj hes).symm
  subst e
  exact ⟨h1, he, hes1⟩

/-! ## The trace -/

/-- The test of `collectTrace` holds of the names that are the package prefix
followed by at least one more character. -/
theorem underPackage_iff (function : String) :
    underPackage function = true ↔ ∃ rest, rest ≠ "" ∧ function = packagePrefix ++ rest := by
  simp only [underPackage, Bool.and_eq_true, decide_eq_true_eq]
  constructor
  · rintro ⟨hlen, htake⟩
    refine ⟨⟨function.data.drop packagePrefix.length⟩, ?_, ?_⟩
    · intro he
      have h0 : function.data.drop packagePrefix.length = [] := congrArg String.data he
      have h1 : (function.data.drop packagePrefix.length).length = 0 := by
        rw [h0]
        rfl
      simp only [List.length_drop] at h1
      have h2 : function.length = function.data.length := rfl
      omega
    · apply String.ext
      rw [String.data_append]
      have h1 : packagePrefix.data = function.data.take packagePrefix.length := by
        have := congrArg String.data htake
        rwa [String.data_take] at this
      rw [h1, List.take_append_drop]
  · rintro ⟨rest, hne, rfl⟩
    constructor
    · rw [String.length_append]
      have : rest.length ≠ 0 := by
        intro h0
        apply hne
        apply String.ext
        exact List.length_eq_zero.1 h0
      omega
    · apply String.ext
      rw [String.data_take, String.data_append]
      exact (List.take_left' rfl).symm

/-- The loop of `collectTrace` appends the frames it keeps among all the frames
but the last one. -/
theorem collectTraceLoop_eq (frames : List Frame) :
    ∀ trace : List KhataTrace, collectTraceLoop frames trace =
      trace ++ (frames.dropLast.filter (fun f => !underPackage f.Function)).map
        (fun f => (⟨f.File, f.Line, f.Function⟩ : KhataTrace)) := by
  induction frames with
  | nil =>
    intro trace
    simp [collectTraceLoop]
  | cons frame tail ih =>
    intro trace
    cases tail with
    | nil => simp [collectTraceLoop]
    | cons next rest =>
      by_cases hu : underPackage frame.Function = true
      · simp [collectTraceLoop, hu, ih]
      · simp [collectTraceLoop, hu, ih]

set_option maxRecDepth 8192 in
/-- The trace taken in `main.main`, called by `runtime.main` in a goroutine that
ends in `runtime.goexit`. -/
theorem trace_of_main :
    (Khata.Trace exampleHeap
        [⟨"main.go", 10, "main.main"⟩, ⟨"proc.go", 250, "runtime.main"⟩,
         ⟨"asm.s", 1650, "runtime.goexit"⟩] 0).map Prod.snd =
      some [⟨"main.go", 10, "main.main"⟩, ⟨"proc.go", 250, "runtime.main"⟩] := by
  decide

/-- C13, what the code returns: the trace is made of the frames that are not
under the package prefix among the frames yielded except the last one; the last
frame yielded is dropped whatever its function.  For the stack of `main.main`
calling `Trace` the frame of `runtime.goexit` is missing from the result. -/
theorem C13_trace_drops_last_frame :
    (∀ frames : List Frame, collectTraceLoop frames [] =
      (frames.dropLast.filter (fun f => !underPackage f.Function)).map
        (fun f => (⟨f.File, f.Line, f.Function⟩ : KhataTrace))) ∧
    (∀ stack : List Frame, collectTrace stack =
      (((stack.drop 1).take 128).dropLast.filter (fun f => !underPackage f.Function)).map
        (fun f => (⟨f.File, f.Line, f.Function⟩ : KhataTrace))) ∧
    (∀ function, underPackage function = true ↔
      ∃ rest, rest ≠ "" ∧ function = packagePrefix ++ rest) ∧
    (Khata.Trace exampleHeap
        [⟨"main.go", 10, "main.main"⟩, ⟨"proc.go", 250, "runtime.main"⟩,
         ⟨"asm.s", 1650, "runtime.goexit"⟩] 0).map Prod.snd =
      some [⟨"main.go", 10, "main.main"⟩, ⟨"proc.go", 250, "runtime.main"⟩] := by
  refine ⟨fun frames => ?_, fun stack => ?_, underPackage_iff, trace_of_main⟩
  · rw [collectTraceLoop_eq]
    simp
  · rw [collectTrace, collectTraceLoop_eq]
    simp [runtimeCallers]

/-! ## Fatal records and defaults -/

/-- C14: `IsFatal` is true exactly when the exit code is not -1, so after
`SetExitCode(c)` it is true for 0 and every other `c` but -1; a record made by
`New`, `NewWithMessage` or `Wrap` of a template whose exit code was set to -1
is not fatal. -/
theorem C14_is_fatal (h : Heap) (now : Nat) (ms : List String) (m : String)
    (e : Option GoError) :
    (∀ R, R < h.records.length →
      ∃ b c, Khata.IsFatal h R = some b ∧ Khata.ExitCode h R = some c ∧
        (b = true ↔ c ≠ -1)) ∧
    (∀ R c, R < h.records.length →
      ∃ h1, Khata.SetExitCode h R c = some (h1, R) ∧
        Khata.IsFatal h1 R = some (decide (c ≠ -1))) ∧
    (∀ T, T < h.templates.length →
      ∃ h1, KhataTemplate.SetExitCode h T (-1) = some (h1, T) ∧
        ∀ made ∈ [KhataTemplate.New h1 now T ms, KhataTemplate.NewWithMessage h1 now T m,
            KhataTemplate.Wrap h1 now T e],
          ∃ h2 R, made = some (h2, R) ∧ Khata.ExitCode h2 R = some (-1) ∧
            Khata.IsFatal h2 R = some false) := by
  refine ⟨?_, ?_, ?_⟩
  · intro R hR
    obtain ⟨r, hr⟩ := getElem?_of_lt _ R hR
    exact ⟨decide (r.exitCode ≠ -1), r.exitCode, by simp [Khata.IsFatal, hr],
      by simp [Khata.ExitCode, hr], by simp⟩
  · intro R c hR
    obtain ⟨r, hr⟩ := getElem?_of_lt _ R hR
    exact ⟨{ h with records := h.records.set R { r with exitCode := c } },
      by simp [Khata.SetExitCode, hr], by simp [Khata.IsFatal, List.getElem?_set_self hR]⟩
  · intro T hT
    obtain ⟨t, ht⟩ := getElem?_of_lt _ T hT
    have ht1 : ({ h with templates := h.templates.set T { t with exitCode := -1 } }
        : Heap).templates[T]? = some { t with exitCode := -1 } :=
      List.getElem?_set_self hT
    refine ⟨{ h with templates := h.templates.set T { t with exitCode := -1 } },
      by simp [KhataTemplate.SetExitCode, ht], ?_⟩
    intro made hmade
    simp only [List.mem_cons, List.mem_singleton, List.not_mem_nil, or_false] at hmade
    rcases hmade with rfl | rfl | rfl
    · refine ⟨_, _, TemplateNew_eq ms ht1, ?_, ?_⟩
      · simp [Khata.ExitCode]
      · simp [Khata.IsFatal]
    · refine ⟨_, _, by
        simp only [KhataTemplate.NewWithMessage, errorsNew]
        exact TemplateWrap_eq ht1, ?_, ?_⟩
      · simp [Khata.ExitCode]
      · simp [Khata.IsFatal]
    · refine ⟨_, _, TemplateWrap_eq ht1, ?_, ?_⟩
      · simp [Khata.ExitCode]
      · simp [Khata.IsFatal]

theorem C14_is_fatal_witness :
    (∃ b c, Khata.IsFatal exampleHeap 0 = some b ∧ Khata.ExitCode exampleHeap 0 = some c ∧
      (b = true ↔ c ≠ -1)) ∧
    ∃ h1, Khata.SetExitCode exampleHeap 0 0 = some (h1, 0) ∧
      Khata.IsFatal h1 0 = some true :=
  ⟨(C14_is_fatal exampleHeap 0 [] "" none).1 0 (by decide),
    (C14_is_fatal exampleHeap 0 [] "" none).2.1 0 0 (by decide)⟩

/-- C15: a record made by the package-level `New` or `Wrap` has code -1, type
"KhataError", exit code 1, is fatal, has no explanations, an empty map and no
template; a template made by `NewTemplate` has code -1, type "KhataError", exit
code 1, message "error", an empty map and no parent. -/
theorem C15_defaults (h : Heap) (now : Nat) (m : String) (e : Option GoError) :
    (∀ made ∈ [New h now m, Wrap h now e],
      Khata.Code made.1 made.2 = some (-1) ∧
      Khata.Type made.1 made.2 = some "KhataError" ∧
      Khata.ExitCode made.1 made.2 = some 1 ∧
      Khata.IsFatal made.1 made.2 = some true ∧
      Khata.Explanations made.1 made.2 = some [] ∧
      made.1.recordBag made.2 = some [] ∧
      Khata.IsInstanceOf made.1 made.2 none = some true ∧
      ∀ U : Nat, Khata.IsInstanceOf made.1 made.2 (some U) = some false) ∧
    (KhataTemplate.Code (NewTemplate h).1 (NewTemplate h).2 = some (-1) ∧
      KhataTemplate.Type (NewTemplate h).1 (NewTemplate h).2 = some "KhataError" ∧
      KhataTemplate.ExitCode (NewTemplate h).1 (NewTemplate h).2 = some 1 ∧
      KhataTemplate.Message (NewTemplate h).1 (NewTemplate h).2 = some "error" ∧
      (NewTemplate h).1.templateBag (NewTemplate h).2 = some [] ∧
      KhataTemplate.IsInstanceOf (NewTemplate h).1 (NewTemplate h).2 none = some true ∧
      ∀ U : Nat, KhataTemplate.IsInstanceOf (NewTemplate h).1 (NewTemplate h).2 (some U)
        = some false) := by
  constructor
  · intro made hmade
    simp only [List.mem_cons, List.mem_singleton, List.not_mem_nil, or_false] at hmade
    rcases hmade with rfl | rfl
    · simp [New, Wrap, errorsNew, Khata.Code, Khata.Type, Khata.ExitCode, Khata.IsFatal,
        Khata.Explanations, Heap.recordBag, Khata.IsInstanceOf, DEFAULT_ERROR_CODE,
        DEFAULT_ERROR_TYPE, DEFAULT_EXIT_CODE]
    · simp [Wrap, Khata.Code, Khata.Type, Khata.ExitCode, Khata.IsFatal,
        Khata.Explanations, Heap.recordBag, Khata.IsInstanceOf, DEFAULT_ERROR_CODE,
        DEFAULT_ERROR_TYPE, DEFAULT_EXIT_CODE]
  · simp [NewTemplate, KhataTemplate.Code, KhataTemplate.Type, KhataTemplate.ExitCode,
      KhataTemplate.Message, Heap.templateBag, KhataTemplate.IsInstanceOf, DEFAULT_ERROR_CODE,
      DEFAULT_ERROR_TYPE, DEFAULT_EXIT_CODE, DEFAULT_MESSAGE]

/-! ## Setters -/

/-- C16: `New(m).SetCode(c).SetExitCode(e).SetType(t)` is the record `New`
made, with text `m`, code `c`, exit code `e`, type `t`, fatal exactly when `e`
is not -1.  Each setter of a record or of a template returns its receiver and
writes its own field only: the other scalar fields, the text, the explanations,
the properties, the template or parent, every other record and every template
or record of the other kind read as before. -/
theorem C16_setters (h : Heap) (now : Nat) (m : String) (c e : Int) (t : String) :
    (∃ h1 h2 h3, Khata.SetCode (New h now m).1 (New h now m).2 c = some (h1, (New h now m).2) ∧
      Khata.SetExitCode h1 (New h now m).2 e = some (h2, (New h now m).2) ∧
      Khata.SetType h2 (New h now m).2 t = some (h3, (New h now m).2) ∧
      Khata.Error h3 (New h now m).2 = some m ∧
      Khata.Code h3 (New h now m).2 = some c ∧
      Khata.ExitCode h3 (New h now m).2 = some e ∧
      Khata.Type h3 (New h now m).2 = some t ∧
      Khata.IsFatal h3 (New h now m).2 = some (decide (e ≠ -1))) ∧
    (∀ R, R < h.records.length →
      ∀ res ∈ [(Khata.SetCode h R c, fun h1 => Khata.Code h1 R = some c ∧
                  Khata.ExitCode h1 R = Khata.ExitCode h R ∧ Khata.Type h1 R = Khata.Type h R),
               (Khata.SetExitCode h R e, fun h1 => Khata.ExitCode h1 R = some e ∧
                  Khata.Code h1 R = Khata.Code h R ∧ Khata.Type h1 R = Khata.Type h R),
               (Khata.SetType h R t, fun h1 => Khata.Type h1 R = some t ∧
                  Khata.Code h1 R = Khata.Code h R ∧
                  Khata.ExitCode h1 R = Khata.ExitCode h R)],
        ∃ h1, res.1 = some (h1, R) ∧ res.2 h1 ∧
          Khata.Error h1 R = Khata.Error h R ∧
          Khata.Explanations h1 R = Khata.Explanations h R ∧
          (∀ key, Khata.GetProperty h1 R key = Khata.GetProperty h R key) ∧
          (∀ U, Khata.IsInstanceOf h1 R U = Khata.IsInstanceOf h R U) ∧
          (∀ R2, R2 ≠ R → h1.records[R2]? = h.records[R2]?) ∧
          h1.templates = h.templates ∧ h1.bags = h.bags) ∧
    (∀ T, T < h.templates.length →
      ∀ res ∈ [(KhataTemplate.SetMessage h T m, fun h1 =>
                  KhataTemplate.Message h1 T = some m ∧
                  KhataTemplate.Code h1 T = KhataTemplate.Code h T ∧
                  KhataTemplate.ExitCode h1 T = KhataTemplate.ExitCode h T ∧
                  KhataTemplate.Type h1 T = KhataTemplate.Type h T),
               (KhataTemplate.SetCode h T c, fun h1 =>
                  KhataTemplate.Code h1 T = some c ∧
                  KhataTemplate.Message h1 T = KhataTemplate.Message h T ∧
                  KhataTemplate.ExitCode h1 T = KhataTemplate.ExitCode h T ∧
                  KhataTemplate.Type h1 T = KhataTemplate.Type h T),
               (KhataTemplate.SetExitCode h T e, fun h1 =>
                  KhataTemplate.ExitCode h1 T = some e ∧
                  KhataTemplate.Message h1 T = KhataTemplate.Message h T ∧
                  KhataTemplate.Code h1 T = KhataTemplate.Code h T ∧
                  KhataTemplate.Type h1 T = KhataTemplate.Type h T),
               (KhataTemplate.SetType h T t, fun h1 =>
                  KhataTemplate.Type h1 T = some t ∧
                  KhataTemplate.Message h1 T = KhataTemplate.Message h T ∧
                  KhataTemplate.Code h1 T = KhataTemplate.Code h T ∧
                  KhataTemplate.ExitCode h1 T = KhataTemplate.ExitCode h T)],
        ∃ h1, res.1 = some (h1, T) ∧ res.2 h1 ∧
          (∀ key, KhataTemplate.GetProperty h1 T key = KhataTemplate.GetProperty h T key) ∧
          (∀ U, KhataTemplate.IsInstanceOf h1 T U = KhataTemplate.IsInstanceOf h T U) ∧
          (∀ T2, T2 ≠ T → h1.templates[T2]? = h.templates[T2]?) ∧
          h1.records = h.records ∧ h1.bags = h.bags) := by
  refine ⟨?_, ?_, ?_⟩
  · have hr : (New h now m).1.records[(New h now m).2]? =
        some ⟨DEFAULT_ERROR_CODE, DEFAULT_ERROR_TYPE, DEFAULT_EXIT_CODE, now,
          some ⟨h.nextErr, m, errorString⟩, h.bags.length, [], [], none⟩ := by
      simp [New, Wrap, errorsNew]
    have hl : (New h now m).2 < (New h now m).1.records.length := lt_of_getElem? hr
    generalize (New h now m).1 = h0 at hr hl
    generalize (New h now m).2 = R at hr hl
    refine ⟨_, _, _, by simp [Khata.SetCode, hr]; rfl,
      by simp [Khata.SetExitCode, List.getElem?_set_self hl]; rfl,
      by simp [Khata.SetType, List.getElem?_set_self hl]; rfl, ?_, ?_, ?_, ?_, ?_⟩
    · simp [Khata.Error, List.getElem?_set_self hl]
    · simp [Khata.Code, List.getElem?_set_self hl]
    · simp [Khata.ExitCode, List.getElem?_set_self hl]
    · simp [Khata.Type, List.getElem?_set_self hl]
    · simp [Khata.IsFatal, List.getElem?_set_self hl]
  · intro R hR res hres
    obtain ⟨r, hr⟩ := getElem?_of_lt _ R hR
    have hne : ∀ (r2 : Khata) (R2 : Nat), R2 ≠ R → (h.records.set R r2)[R2]? = h.records[R2]? :=
      fun r2 R2 hR2 => List.getElem?_set_ne (Ne.symm hR2)
    simp only [List.mem_cons, List.mem_singleton, List.not_mem_nil, or_false] at hres
    rcases hres with rfl | rfl | rfl
    · exact ⟨{ h with records := h.records.set R { r with errorCode := c } },
        by simp [Khata.SetCode, hr],
        by simp [Khata.Code, Khata.ExitCode, Khata.Type, hr, List.getElem?_set_self hR],
        by simp [Khata.Error, hr, List.getElem?_set_self hR],
        by simp [Khata.Explanations, hr, List.getElem?_set_self hR],
        fun key => by simp [Khata.GetProperty, hr, List.getElem?_set_self hR],
        fun U => by simp [Khata.IsInstanceOf, hr, List.getElem?_set_self hR],
        hne _, rfl, rfl⟩
    · exact ⟨{ h with records := h.records.set R { r with exitCode := e } },
        by simp [Khata.SetExitCode, hr],
        by simp [Khata.Code, Khata.ExitCode, Khata.Type, hr, List.getElem?_set_self hR],
        by simp [Khata.Error, hr, List.getElem?_set_self hR],
        by simp [Khata.Explanations, hr, List.getElem?_set_self hR],
        fun key => by simp [Khata.GetProperty, hr, List.getElem?_set_self hR],
        fun U => by simp [Khata.IsInstanceOf, hr, List.getElem?_set_self hR],
        hne _, rfl, rfl⟩
    · exact ⟨{ h with records := h.records.set R { r with errorType := t } },
        by simp [Khata.SetType, hr],
        by simp [Khata.Code, Khata.ExitCode, Khata.Type, hr, List.getElem?_set_self hR],
        by simp [Khata.Error, hr, List.getElem?_set_self hR],
        by simp [Khata.Explanations, hr, List.getElem?_set_self hR],
        fun key => by simp [Khata.GetProperty, hr, List.getElem?_set_self hR],
        fun U => by simp [Khata.IsInstanceOf, hr, List.getElem?_set_self hR],
        hne _, rfl, rfl⟩
  · intro T hT res hres
    obtain ⟨tt, ht⟩ := getElem?_of_lt _ T hT
    have hne : ∀ (t2 : KhataTemplate) (T2 : Nat), T2 ≠ T →
        (h.templates.set T t2)[T2]? = h.templates[T2]? :=
      fun t2 T2 hT2 => List.getElem?_set_ne (Ne.symm hT2)
    simp only [List.mem_cons, List.mem_singleton, List.not_mem_nil, or_false] at hres
    rcases hres with rfl | rfl | rfl | rfl
    · exact ⟨{ h with templates := h.templates.set T { tt with message := m } },
        by simp [KhataTemplate.SetMessage, ht],
        by simp [KhataTemplate.Message, KhataTemplate.Code, KhataTemplate.ExitCode,
          KhataTemplate.Type, ht, List.getElem?_set_self hT],
        fun key => by simp [KhataTemplate.GetProperty, ht, List.getElem?_set_self hT],
        fun U => by simp [KhataTemplate.IsInstanceOf, ht, List.getElem?_set_self hT],
        hne _, rfl, rfl⟩
    · exact ⟨{ h with templates := h.templates.set T { tt with errorCode := c } },
        by simp [KhataTemplate.SetCode, ht],
        by simp [KhataTemplate.Message, KhataTemplate.Code, KhataTemplate.ExitCode,
          KhataTemplate.Type, ht, List.getElem?_set_self hT],
        fun key => by simp [KhataTemplate.GetProperty, ht, List.getElem?_set_self hT],
        fun U => by simp [KhataTemplate.IsInstanceOf, ht, List.getElem?_set_self hT],
        hne _, rfl, rfl⟩
    · exact ⟨{ h with templates := h.templates.set T { tt with exitCode := e } },
        by simp [KhataTemplate.SetExitCode, ht],
        by simp [KhataTemplate.Message, KhataTemplate.Code, KhataTemplate.ExitCode,
          KhataTemplate.Type, ht, List.getElem?_set_self hT],
        fun key => by simp [KhataTemplate.GetProperty, ht, List.getElem?_set_self hT],
        fun U => by simp [KhataTemplate.IsInstanceOf, ht, List.getElem?_set_self hT],
        hne _, rfl, rfl⟩
    · exact ⟨{ h with templates := h.templates.set T { tt with errorType := t } },
        by simp [KhataTemplate.SetType, ht],
        by simp [KhataTemplate.Message, KhataTemplate.Code, KhataTemplate.ExitCode,
          KhataTemplate.Type, ht, List.getElem?_set_self hT],
        fun key => by simp [KhataTemplate.GetProperty, ht, List.getElem?_set_self hT],
        fun U => by simp [KhataTemplate.IsInstanceOf, ht, List.getElem?_set_self hT],
        hne _, rfl, rfl⟩

theorem C16_setters_witness :
    0 < exampleHeap.records.length ∧
      (∃ h1, Khata.SetCode exampleHeap 0 404 = some (h1, 0) ∧
        Khata.Code h1 0 = some 404 ∧ Khata.Error h1 0 = some "boom") ∧
      ∃ h1 h2 h3, Khata.SetCode (New Heap.empty 0 "boom").1 0 404 = some (h1, 0) ∧
        Khata.SetExitCode h1 0 2 = some (h2, 0) ∧ Khata.SetType h2 0 "MyType" = some (h3, 0) ∧
        Khata.Error h3 0 = some "boom" ∧ Khata.IsFatal h3 0 = some true := by
  refine ⟨by decide, ?_, ?_⟩
  · obtain ⟨h1, hs, hc, he, _⟩ :=
      (C16_setters exampleHeap 0 "boom" 404 2 "MyType").2.1 0 (by decide) _
        (List.mem_cons_self _ _)
    have hb : Khata.Error exampleHeap 0 = some "boom" := by decide
    exact ⟨h1, hs, hc.1, he.trans hb⟩
  · obtain ⟨h1, h2, h3, e1, e2, e3, he, _, _, _, hf⟩ :=
      (C16_setters Heap.empty 0 "boom" 404 2 "MyType").1
    exact ⟨h1, h2, h3, e1, e2, e3, he, hf⟩

/-! ## Comparing errors -/

/-- Off the pairs on which `==` panics, `Is` answers whether both errors are
non-nil and equal. -/
theorem Is_eq (h : Heap) (R : Nat) (r : Khata) (hr : h.records[R]? = some r)
    (err : Option GoError) (hp : uncomparablePair r.Err err = false) :
    Khata.Is h R err = some (decide (err ≠ none ∧ r.Err = err)) := by
  cases err with
  | none => simp [Khata.Is, hr]
  | some b =>
    cases ha : r.Err with
    | none => simp [Khata.Is, hr, ha]
    | some a =>
      rw [ha] at hp
      simp only [uncomparablePair, Bool.and_eq_false_imp, decide_eq_true_eq,
        Bool.not_eq_false'] at hp
      have hI : Khata.Is h R (some b) = GoError.equal a b := by
        simp [Khata.Is, hr, ha, interfaceEqual]
      rw [hI]
      unfold GoError.equal
      by_cases ht : a.dynType = b.dynType
      · have hc : a.dynType.comparable = true := hp ht
        rw [if_neg (not_not.2 ht), if_pos hc]
        simp
      · have hne : ¬ a = b := fun e => ht (by rw [e])
        rw [if_pos ht]
        simp [hne]

/-- On a pair on which `==` panics, `Is` panics. -/
theorem Is_panics (h : Heap) (R : Nat) (r : Khata) (hr : h.records[R]? = some r)
    (err : Option GoError) (hp : uncomparablePair r.Err err = true) :
    Khata.Is h R err = none := by
  cases err with
  | none => cases hx : r.Err <;> simp [hx, uncomparablePair] at hp
  | some b =>
    cases ha : r.Err with
    | none => simp [ha, uncomparablePair] at hp
    | some a =>
      rw [ha] at hp
      simp only [uncomparablePair, Bool.and_eq_true, decide_eq_true_eq,
        Bool.not_eq_true'] at hp
      have hI : Khata.Is h R (some b) = GoError.equal a b := by
        simp [Khata.Is, hr, ha, interfaceEqual]
      rw [hI]
      unfold GoError.equal
      rw [if_neg (not_not.2 hp.1), if_neg (by simp [hp.2])]

theorem IsAny_spec (h : Heap) (R : Nat) (r : Khata) (hr : h.records[R]? = some r)
    (errs : List (Option GoError))
    (hp : ∀ err ∈ errs, uncomparablePair r.Err err = false) :
    ∃ b, Khata.IsAny h R errs = some b ∧
      (b = true ↔ ∃ err ∈ errs, Khata.Is h R err = some true) := by
  induction errs with
  | nil => exact ⟨false, rfl, by simp⟩
  | cons err rest ih =>
    obtain ⟨b, hb, hiff⟩ := ih (fun x hx => hp x (List.mem_cons_of_mem _ hx))
    have hpe := hp err (List.mem_cons_self _ _)
    by_cases hc : (err ≠ none ∧ r.Err = err)
    · have h1 : Khata.Is h R err = some true := by
        rw [Is_eq h R r hr err hpe, decide_eq_true hc]
      refine ⟨true, by simp [Khata.IsAny, h1], ?_⟩
      simp only [true_iff]
      exact ⟨err, List.mem_cons_self _ _, h1⟩
    · have h1 : Khata.Is h R err = some false := by
        rw [Is_eq h R r hr err hpe, decide_eq_false hc]
      refine ⟨b, by simp [Khata.IsAny, h1, hb], ?_⟩
      rw [hiff]
      constructor
      · rintro ⟨e, he, hx⟩
        exact ⟨e, List.mem_cons_of_mem _ he, hx⟩
      · rintro ⟨e, he, hx⟩
        rcases List.mem_cons.1 he with rfl | he
        · rw [h1] at hx
          cases hx
        · exact ⟨e, he, hx⟩

/-- C17, as the code has it: unless the error of `R` and `err` are both non-nil
values of one dynamic type that is not comparable, `R.Is(err)` answers, and
answers true exactly when the error of `R` and `err` are both non-nil and equal;
`R.Is(nil)` is false, and a record whose error is nil matches nothing.  For a
list `errs` holding no such pair, `R.IsAny(errs...)` answers true exactly when
`R.Is(e)` is true for some `e` of `errs`, so false for no argument.  On such a
pair the comparison `k.Err == err` panics and `Is` with it. -/
theorem C17_is_and_is_any (h : Heap) (R : Nat) (hR : R < h.records.length) :
    ∃ r, h.records[R]? = some r ∧
      (∀ err, uncomparablePair r.Err err = false →
        ∃ b, Khata.Is h R err = some b ∧
          (b = true ↔ ∃ e, r.Err = some e ∧ err = some e)) ∧
      Khata.Is h R none = some false ∧
      (r.Err = none → ∀ err, Khata.Is h R err = some false) ∧
      (∀ errs, (∀ err ∈ errs, uncomparablePair r.Err err = false) →
        ∃ b, Khata.IsAny h R errs = some b ∧
          (b = true ↔ ∃ err ∈ errs, Khata.Is h R err = some true)) ∧
      Khata.IsAny h R [] = some false ∧
      (∀ err, uncomparablePair r.Err err = true → Khata.Is h R err = none) := by
  obtain ⟨r, hr⟩ := getElem?_of_lt _ R hR
  refine ⟨r, hr, ?_, by simp [Khata.Is, hr], ?_, IsAny_spec h R r hr, rfl,
    Is_panics h R r hr⟩
  · intro err hp
    refine ⟨_, Is_eq h R r hr err hp, ?_⟩
    rw [decide_eq_true_eq]
    constructor
    · rintro ⟨h1, h2⟩
      cases err with
      | none => exact absurd rfl h1
      | some e => exact ⟨e, h2, rfl⟩
    · rintro ⟨e, h1, h2⟩
      rw [h1, h2]
      exact ⟨by simp, rfl⟩
  · intro hn err
    simp [Khata.Is, hr, hn]

theorem C17_is_and_is_any_witness :
    0 < exampleHeap.records.length ∧
      Khata.Is exampleHeap 0 (some ⟨0, "boom", errorString⟩) = some true ∧
      Khata.Is exampleHeap 0 (some ⟨1, "boom", errorString⟩) = some false ∧
      Khata.IsAny exampleHeap 0
        [none, some ⟨1, "boom", errorString⟩, some ⟨0, "boom", errorString⟩] = some true := by
  obtain ⟨r, hr, his, _, _, hany, _⟩ := C17_is_and_is_any exampleHeap 0 (by decide)
  have hr0 : exampleHeap.records[0]? = some r := hr
  have he : r.Err = some ⟨0, "boom", errorString⟩ := by
    have : (exampleHeap.records[0]?).map (fun x => x.Err) =
        some (some ⟨0, "boom", errorString⟩) := by decide
    rw [hr0] at this
    exact Option.some.inj this
  refine ⟨by decide, ?_, ?_, ?_⟩
  · obtain ⟨b, hb, hiff⟩ := his (some ⟨0, "boom", errorString⟩) (by rw [he]; decide)
    have : b = true := hiff.2 ⟨_, he, rfl⟩
    rw [hb, this]
  · obtain ⟨b, hb, hiff⟩ := his (some ⟨1, "boom", errorString⟩) (by rw [he]; decide)
    cases b with
    | false => exact hb
    | true =>
      obtain ⟨e, h1, h2⟩ := hiff.1 rfl
      rw [he] at h1
      cases h1
      cases h2
  · obtain ⟨b, hb, hiff⟩ := hany
      [none, some ⟨1, "boom", errorString⟩, some ⟨0, "boom", errorString⟩]
      (by rw [he]; decide)
    have : b = true := hiff.2 ⟨some ⟨0, "boom", errorString⟩, by simp, by decide⟩
    rw [hb, this]

/-- C17 as stated fails for an error of a dynamic type that is not comparable,
such as a struct with a slice field: the record wraps the value, the argument is
an equal value of the same type, so both are non-nil and equal, yet `Is` panics
and so is not true. -/
theorem C17_counterexample :
    ((Wrap Heap.empty 0 (some ⟨0, "a", ⟨"sliceErr", false⟩⟩)).1.records[0]?).map
        (fun r => r.Err) = some (some ⟨0, "a", ⟨"sliceErr", false⟩⟩) ∧
      Khata.Is (Wrap Heap.empty 0 (some ⟨0, "a", ⟨"sliceErr", false⟩⟩)).1 0
        (some ⟨0, "a", ⟨"sliceErr", false⟩⟩) = none ∧
      Khata.Is (Wrap Heap.empty 0 (some ⟨0, "a", ⟨"sliceErr", false⟩⟩)).1 0
        (some ⟨0, "a", ⟨"sliceErr", false⟩⟩) ≠ some true ∧
      Khata.IsAny (Wrap Heap.empty 0 (some ⟨0, "a", ⟨"sliceErr", false⟩⟩)).1 0
        [some ⟨0, "a", ⟨"sliceErr", false⟩⟩] = none := by
  refine ⟨by decide, by decide, by decide, by decide⟩

/-! ## Serializing a record -/

theorem Trace_eq {h : Heap} (callers : List Frame) {R : Nat} {r : Khata}
    (hr : h.records[R]? = some r) :
    ∃ trace, Khata.Trace h callers R =
      some ({ h with records := h.records.set R { r with traceStack := trace } }, trace) := by
  refine ⟨collectTrace (callersFrame :: khataFrame 697 "collectTrace" ::
    khataFrame 297 "(*Khata).Trace" :: callers), ?_⟩
  unfold Khata.Trace
  rw [hr]
  rfl

/-- The result of `ToJSON` on a record whose error is not nil: the heap is the
one its `Trace` call leaves, the text is what `json.Marshal` makes of the
document, or the empty text when it fails. -/
theorem ToJSON_eq (marshal : Doc → Option String) (layout : Nat → String) {h : Heap}
    (hw : WF h) (callers : List Frame) (now : Nat) {R : Nat} {r : Khata} {e : GoError}
    (hr : h.records[R]? = some r) (he : r.Err = some e) :
    ∃ m h1 trace, h.bags[r.properties]? = some m ∧
      Khata.Trace h (khataFrame 566 "(*Khata).ToJSON" :: callers) R = some (h1, trace) ∧
      h1 = { h with records := h.records.set R { r with traceStack := trace } } ∧
      Khata.ToJSON marshal layout h callers now R =
        some (h1, (marshal (Khata.document layout (trace.map traceDoc)
            (r.explanationStack.map explanationDoc) e.msg
            { r with traceStack := trace } m now)).getD "") := by
  obtain ⟨m, hm⟩ := getElem?_of_lt _ _ (hw.record hr).1
  have hR := lt_of_getElem? hr
  obtain ⟨trace, ht⟩ := Trace_eq (khataFrame 566 "(*Khata).ToJSON" :: callers) hr
  refine ⟨m, _, trace, hm, ht, rfl, ?_⟩
  unfold Khata.ToJSON
  rw [ht]
  simp only [Option.bind_eq_bind, Option.some_bind, Option.pure_def, Khata.Explanations,
    Khata.Error, List.getElem?_set_self hR, Option.map_some', he, hm]
  cases marshal _ <;> rfl

/-- A record whose error is nil makes `ToJSON` panic. -/
theorem ToJSON_nil (marshal : Doc → Option String) (layout : Nat → String) {h : Heap}
    (callers : List Frame) (now : Nat) {R : Nat} {r : Khata}
    (hr : h.records[R]? = some r) (he : r.Err = none) :
    Khata.ToJSON marshal layout h callers now R = none := by
  have hR := lt_of_getElem? hr
  obtain ⟨trace, ht⟩ := Trace_eq (khataFrame 566 "(*Khata).ToJSON" :: callers) hr
  unfold Khata.ToJSON
  rw [ht]
  simp only [Option.bind_eq_bind, Option.some_bind, Option.pure_def, Khata.Explanations,
    Khata.Error, List.getElem?_set_self hR, Option.map_some', he, Option.none_bind]

/-! ## The text `json.Marshal` writes denotes the document -/

theorem hexValue_hexDigit (k : Nat) (hk : k < 16) : hexValue (hexDigit k) = some k := by
  interval_cases k <;> rfl

theorem charText_hex4 (c : Char) (hc : c.toNat < 65536) :
    CharText c ('\\' :: 'u' :: hex4 c.toNat) :=
  CharText.unicode c _ _ _ _ (c.toNat / 4096 % 16) (c.toNat / 256 % 16) (c.toNat / 16 % 16)
    (c.toNat % 16)
    (hexValue_hexDigit _ (Nat.mod_lt _ (by norm_num)))
    (hexValue_hexDigit _ (Nat.mod_lt _ (by norm_num)))
    (hexValue_hexDigit _ (Nat.mod_lt _ (by norm_num)))
    (hexValue_hexDigit _ (Nat.mod_lt _ (by norm_num)))
    (by omega)

/-- Every rune is written in one of the ways of the JSON grammar. -/
theorem charText_escapeChar (c : Char) : CharText c (escapeChar c) := by
  unfold escapeChar
  split_ifs with h1 h2 h3 h4 h5 h6 h7 h8
  · subst h1
    exact CharText.quote
  · subst h2
    exact CharText.backslash
  · exact CharText.backspace c h3
  · exact CharText.formFeed c h4
  · subst h5
    exact CharText.lineFeed
  · subst h6
    exact CharText.carriageReturn
  · subst h7
    exact CharText.tab
  · apply charText_hex4
    rcases h8 with h | rfl | rfl | rfl | h | h
    · omega
    · decide
    · decide
    · decide
    · omega
    · omega
  · refine CharText.plain c h1 h2 ?_
    by_contra hlt
    exact h8 (Or.inl (by omega))

theorem charText_escapeRune (r : GoRune) : CharText r.read (escapeRune r) := by
  cases r with
  | rune c => exact charText_escapeChar c
  | invalid b =>
    exact CharText.unicode (Char.ofNat 65533) 'f' 'f' 'f' 'd' 15 15 15 13 rfl rfl rfl rfl
      (by decide)

theorem charsText_escapeRunes (s : GoString) :
    CharsText (s.map GoRune.read) (escapeRunes s) := by
  induction s with
  | nil => exact CharsText.nil
  | cons r rest ih => exact CharsText.cons _ _ _ _ (charText_escapeRune r) ih

theorem stringText_jsonString (s : GoString) :
    StringText (String.mk (s.map GoRune.read)) (jsonString s) :=
  ⟨escapeRunes s, rfl, charsText_escapeRunes s⟩

theorem read_ofString (s : String) :
    String.mk ((GoString.ofString s).map GoRune.read) = s := by
  have h : ∀ cs : List Char, (cs.map GoRune.rune).map GoRune.read = cs := by
    intro cs
    induction cs with
    | nil => rfl
    | cons c rest ih => simp [GoRune.read, ih]
  unfold GoString.ofString
  rw [h]

theorem stringText_ofString (s : String) : StringText s (jsonString (GoString.ofString s)) := by
  have h := stringText_jsonString (GoString.ofString s)
  rwa [read_ofString] at h

theorem digitValue_digitChar (m : Nat) (hm : m < 10) :
    digitValue (Nat.digitChar m) = some m := by
  interval_cases m <;> rfl

theorem digitChar_ne_zero (m : Nat) (h0 : 0 < m) (hm : m < 10) : Nat.digitChar m ≠ '0' := by
  interval_cases m <;> decide

theorem digitsValue_append (xs ys : List Char) :
    ∀ acc, digitsValue acc (xs ++ ys) = (digitsValue acc xs).bind (fun a => digitsValue a ys) := by
  induction xs with
  | nil => intro acc; rfl
  | cons c rest ih =>
    intro acc
    simp only [List.cons_append, digitsValue]
    cases digitValue c with
    | none => rfl
    | some d => simp [ih]

theorem toDigitsCore_spec (fuel : Nat) :
    ∀ n ds, n < fuel →
      ∃ digits, Nat.toDigitsCore 10 fuel n ds = digits ++ ds ∧ digits ≠ [] ∧
        digitsValue 0 digits = some n ∧ (n = 0 → digits = ['0']) ∧
        (0 < n → digits.head? ≠ some '0') := by
  induction fuel with
  | zero => intro n ds h; omega
  | succ fuel ih =>
    intro n ds hn
    unfold Nat.toDigitsCore
    by_cases h0 : n / 10 = 0
    · have hlt : n < 10 := by omega
      have hmod : n % 10 = n := Nat.mod_eq_of_lt hlt
      refine ⟨[Nat.digitChar n], ?_, by simp, ?_, ?_, ?_⟩
      · simp [h0, hmod]
      · simp [digitsValue, digitValue_digitChar n hlt]
      · rintro rfl
        rfl
      · intro hpos
        simpa using digitChar_ne_zero n hpos hlt
    · obtain ⟨digits, he, hne, hv, _, hh⟩ :=
        ih (n / 10) (Nat.digitChar (n % 10) :: ds) (by omega)
      refine ⟨digits ++ [Nat.digitChar (n % 10)], ?_, by simp, ?_, ?_, ?_⟩
      · simp [h0, he]
      · rw [digitsValue_append, hv]
        simp only [Option.some_bind, digitsValue,
          digitValue_digitChar (n % 10) (Nat.mod_lt _ (by norm_num))]
        congr 1
        omega
      · intro hz
        omega
      · intro _
        have hpos : 0 < n / 10 := Nat.pos_of_ne_zero h0
        cases digits with
        | nil => exact absurd rfl hne
        | cons d rest => simpa using hh hpos

/-- The decimal digits Go writes for a natural number denote it. -/
theorem natText_toDigits (n : Nat) : NatText n (Nat.toDigits 10 n) := by
  obtain ⟨digits, he, hne, hv, h0, hh⟩ := toDigitsCore_spec (n + 1) n [] (by omega)
  have : Nat.toDigits 10 n = digits := by
    unfold Nat.toDigits
    rw [he, List.append_nil]
  rw [this]
  refine ⟨hne, hv, ?_⟩
  rcases Nat.eq_zero_or_pos n with hz | hp
  · exact Or.inl (h0 hz)
  · exact Or.inr (hh hp)

theorem intText_jsonInt (i : Int) : IntText i (jsonInt i) := by
  unfold jsonInt
  by_cases h : i < 0
  · rw [if_pos h]
    exact Or.inr ⟨h, _, rfl, natText_toDigits _⟩
  · rw [if_neg h]
    exact Or.inl ⟨by omega, natText_toDigits _⟩

/-- The text of an encodable leaf denotes its JSON value. -/
theorem encodeValue_sound (v : Value) (j : Json) (hj : valueJson v = some j) :
    ∃ text, encodeValue v = some text ∧ JsonText j text := by
  cases v with
  | nil =>
    cases hj
    exact ⟨_, rfl, JsonText.null⟩
  | str s =>
    cases hj
    exact ⟨_, rfl, JsonText.str _ _ (stringText_jsonString s)⟩
  | int i =>
    cases hj
    exact ⟨_, rfl, JsonText.num _ _ (intText_jsonInt i)⟩
  | bool b =>
    cases hj
    cases b
    · exact ⟨_, rfl, JsonText.false⟩
    · exact ⟨_, rfl, JsonText.true⟩
  | fn id => cases hj

theorem insertField_forall₂ {α β : Type} {P : String × α → String × β → Prop}
    (hk : ∀ a b, P a b → a.1 = b.1) {a : String × α} {b : String × β} (hab : P a b)
    {l1 : List (String × α)} {l2 : List (String × β)} (hl : List.Forall₂ P l1 l2) :
    List.Forall₂ P (insertField a l1) (insertField b l2) := by
  induction hl with
  | nil => exact List.Forall₂.cons hab List.Forall₂.nil
  | @cons x y r1 r2 hxy hr ih =>
    unfold insertField
    rw [← hk a b hab, ← hk x y hxy]
    by_cases hlt : keyLess a.1.data x.1.data = true
    · rw [if_pos hlt, if_pos hlt]
      exact List.Forall₂.cons hab (List.Forall₂.cons hxy hr)
    · rw [if_neg hlt, if_neg hlt]
      exact List.Forall₂.cons hxy ih

theorem sortFields_forall₂ {α β : Type} {P : String × α → String × β → Prop}
    (hk : ∀ a b, P a b → a.1 = b.1) {l1 : List (String × α)} {l2 : List (String × β)}
    (hl : List.Forall₂ P l1 l2) :
    List.Forall₂ P (sortFields l1) (sortFields l2) := by
  induction hl with
  | nil => exact List.Forall₂.nil
  | cons hab _ ih => exact insertField_forall₂ hk hab ih

theorem itemsText_joinComma {js : List Json} {parts : List (List Char)}
    (h : List.Forall₂ JsonText js parts) (hne : js ≠ []) :
    ItemsText js (joinComma parts) := by
  induction h with
  | nil => exact absurd rfl hne
  | @cons j text rest body hj hr ih =>
    cases hr with
    | nil => exact ItemsText.one j text hj
    | @cons j2 text2 rest2 body2 hj2 hr2 =>
      exact ItemsText.cons j text _ _ hj (ih (by simp))

theorem membersText_joinComma {ms : List (String × Json)} {ts : List (String × List Char)}
    (h : List.Forall₂ MemberOf ms ts) (hne : ms ≠ []) :
    MembersText ms (joinComma (ts.map memberText)) := by
  induction h with
  | nil => exact absurd rfl hne
  | @cons m t rest body hm hr ih =>
    obtain ⟨k, j⟩ := m
    obtain ⟨k2, text⟩ := t
    obtain ⟨hk, hj⟩ := hm
    simp only at hk hj
    subst hk
    cases hr with
    | nil => exact MembersText.one k j _ text (stringText_ofString k) hj
    | @cons m2 t2 rest2 body2 hm2 hr2 =>
      have := MembersText.cons k j _ text _ _ (stringText_ofString k) hj (ih (by simp))
      simpa [joinComma, memberText, List.append_assoc] using this

theorem jsonText_arr {js : List Json} {parts : List (List Char)}
    (h : List.Forall₂ JsonText js parts) :
    JsonText (Json.arr js) ('[' :: joinComma parts ++ [']']) := by
  cases h with
  | nil => exact JsonText.emptyArr
  | cons hj hr => exact JsonText.arr _ _ (itemsText_joinComma (List.Forall₂.cons hj hr) (by simp))

theorem jsonText_obj {ms : List (String × Json)} {ts : List (String × List Char)}
    (h : List.Forall₂ MemberOf ms ts) :
    JsonText (Json.obj (sortFields ms))
      ('{' :: joinComma ((sortFields ts).map memberText) ++ ['}']) := by
  have hs := sortFields_forall₂ (fun _ _ hab => hab.1) h
  cases hc : sortFields ms with
  | nil =>
    rw [hc] at hs
    rw [List.forall₂_nil_left_iff.mp hs]
    exact JsonText.emptyObj
  | cons m rest =>
    rw [← hc]
    exact JsonText.obj _ _ (membersText_joinComma hs (by simp [hc]))

mutual
/-- The text `json.Marshal` writes for an encodable document is a JSON text that
denotes the JSON value of the document. -/
theorem jsonEncode_sound : ∀ (d : Doc) (j : Json), docJson d = some j →
    ∃ text, jsonEncode d = some text ∧ JsonText j text
  | Doc.val v, j, hj => by
    rw [docJson] at hj
    rw [jsonEncode]
    exact encodeValue_sound v j hj
  | Doc.arr items, j, hj => by
    rw [docJson] at hj
    cases hi : docJsonItems items with
    | none => simp [hi] at hj
    | some js =>
      obtain ⟨parts, hp, hf⟩ := jsonEncodeItems_sound items js hi
      rw [hi] at hj
      cases hj
      rw [jsonEncode, hp]
      exact ⟨_, rfl, jsonText_arr hf⟩
  | Doc.obj fields, j, hj => by
    rw [docJson] at hj
    cases hi : docJsonFields fields with
    | none => simp [hi] at hj
    | some ms =>
      obtain ⟨ts, hp, hf⟩ := jsonEncodeFields_sound fields ms hi
      rw [hi] at hj
      cases hj
      rw [jsonEncode, hp]
      exact ⟨_, rfl, jsonText_obj hf⟩
theorem jsonEncodeItems_sound : ∀ (items : List Doc) (js : List Json),
    docJsonItems items = some js →
    ∃ parts, jsonEncodeItems items = some parts ∧ List.Forall₂ JsonText js parts
  | [], js, hj => by
    rw [docJsonItems] at hj
    cases hj
    exact ⟨[], by rw [jsonEncodeItems], List.Forall₂.nil⟩
  | d :: rest, js, hj => by
    rw [docJsonItems] at hj
    cases hd : docJson d with
    | none => simp [hd] at hj
    | some a =>
      cases hr : docJsonItems rest with
      | none => simp [hd, hr] at hj
      | some b =>
        obtain ⟨text, ht, hjt⟩ := jsonEncode_sound d a hd
        obtain ⟨parts, hp, hf⟩ := jsonEncodeItems_sound rest b hr
        simp [hd, hr] at hj
        subst hj
        exact ⟨text :: parts, by simp [jsonEncodeItems, ht, hp], List.Forall₂.cons hjt hf⟩
theorem jsonEncodeFields_sound : ∀ (fields : List (String × Doc)) (ms : List (String × Json)),
    docJsonFields fields = some ms →
    ∃ ts, jsonEncodeFields fields = some ts ∧ List.Forall₂ MemberOf ms ts
  | [], ms, hj => by
    rw [docJsonFields] at hj
    cases hj
    exact ⟨[], by rw [jsonEncodeFields], List.Forall₂.nil⟩
  | (k, d) :: rest, ms, hj => by
    rw [docJsonFields] at hj
    cases hd : docJson d with
    | none => simp [hd] at hj
    | some a =>
      cases hr : docJsonFields rest with
      | none => simp [hd, hr] at hj
      | some b =>
        obtain ⟨text, ht, hjt⟩ := jsonEncode_sound d a hd
        obtain ⟨ts, hp, hf⟩ := jsonEncodeFields_sound rest b hr
        simp [hd, hr] at hj
        subst hj
        exact ⟨(k, text) :: ts, by simp [jsonEncodeFields, ht, hp],
          List.Forall₂.cons ⟨rfl, hjt⟩ hf⟩
end

/-- The call `json.Marshal` succeeds on an encodable document, with a JSON text
that denotes the JSON value of the document. -/
theorem jsonMarshal_sound (d : Doc) (j : Json) (hj : docJson d = some j) :
    ∃ out, jsonMarshal d = some out ∧ JsonText j out.data := by
  obtain ⟨text, ht, hjt⟩ := jsonEncode_sound d j hj
  exact ⟨String.mk text, by simp [jsonMarshal, ht], hjt⟩

theorem docJson_traceDoc (t : KhataTrace) : docJson (traceDoc t) = some (traceJson t) := by
  simp only [traceDoc, docJson, docJsonFields, valueJson, read_ofString, Option.bind_eq_bind,
    Option.some_bind, Option.pure_def, Option.map_some']
  rfl

theorem docJson_explanationDoc (e : KhataExplanation) :
    docJson (explanationDoc e) = some (explanationJson e) := by
  simp only [explanationDoc, docJson, docJsonFields, valueJson, read_ofString,
    Option.bind_eq_bind, Option.some_bind, Option.pure_def, Option.map_some']
  rfl

theorem docJsonItems_map {α : Type} (f : α → Doc) (g : α → Json)
    (hfg : ∀ a, docJson (f a) = some (g a)) (l : List α) :
    docJsonItems (l.map f) = some (l.map g) := by
  induction l with
  | nil => simp [docJsonItems]
  | cons a rest ih => simp [docJsonItems, hfg, ih]

theorem valueJson_encodable (v : Value) (hv : v.encodable = true) :
    ∃ j, valueJson v = some j := by
  cases v with
  | fn id => simp [Value.encodable] at hv
  | nil => exact ⟨_, rfl⟩
  | str s => exact ⟨_, rfl⟩
  | int i => exact ⟨_, rfl⟩
  | bool b => exact ⟨_, rfl⟩

theorem docJsonFields_properties (m : Bag) (henc : ∀ kv ∈ m, kv.2.encodable = true) :
    ∃ ps, docJsonFields (m.map (fun kv => (kv.1, Doc.val kv.2))) = some ps := by
  induction m with
  | nil => exact ⟨[], by simp [docJsonFields]⟩
  | cons kv rest ih =>
    obtain ⟨ps, hps⟩ := ih (fun x hx => henc x (List.mem_cons_of_mem _ hx))
    obtain ⟨j, hj⟩ := valueJson_encodable kv.2 (henc kv (List.mem_cons_self _ _))
    exact ⟨(kv.1, j) :: ps, by simp [docJsonFields, docJson, hj, hps]⟩

/-- The JSON value of the document of `ToJSON`, when the error text is a text
and the properties are encodable. -/
theorem docJson_document (layout : Nat → String) (trace : List KhataTrace)
    (es : List KhataExplanation) (msg : String) (r : Khata) (m : Bag) (now : Nat)
    (henc : ∀ kv ∈ m, kv.2.encodable = true) :
    ∃ ps, docJson (Khata.document layout (trace.map traceDoc) (es.map explanationDoc)
        (GoString.ofString msg) r m now) =
      some (Json.obj [
        ("createdAt", Json.str (layout r.createdAt)),
        ("error", Json.str msg),
        ("errorCode", Json.num r.errorCode),
        ("errorType", Json.str r.errorType),
        ("exitCode", Json.num r.exitCode),
        ("explanations", Json.arr (es.map explanationJson)),
        ("handledAt", Json.str (layout now)),
        ("properties", Json.obj (sortFields ps)),
        ("trace", Json.arr (trace.map traceJson))]) := by
  obtain ⟨ps, hps⟩ := docJsonFields_properties m henc
  refine ⟨ps, ?_⟩
  simp only [Khata.document, docJson, docJsonFields, valueJson, read_ofString,
    docJsonItems_map traceDoc traceJson docJson_traceDoc,
    docJsonItems_map explanationDoc explanationJson docJson_explanationDoc, hps,
    Option.bind_eq_bind, Option.some_bind, Option.pure_def, Option.map_some']
  rfl

/-- C18: on a record whose error is not nil and has a text that is valid UTF-8,
and whose properties `json.Marshal` can encode, `ToJSON` returns a JSON text
that denotes an object with the members createdAt, error, errorCode, errorType,
exitCode, explanations, handledAt, properties and trace; its errorCode,
exitCode, errorType and error are the `Code`, `ExitCode`, `Type` and `Error` of
the record, the same before and after the call; its explanations are one object
of file, functionName, line and message per explanation, in order; its trace is
the chain that the `Trace` call of `ToJSON` returns and leaves stored on the
record. -/
theorem C18_to_json_fields (layout : Nat → String) (h : Heap) (hw : WF h)
    (callers : List Frame) (now R : Nat) (msg : String) (m : Bag)
    (hR : R < h.records.length) (hmsg : Khata.Error h R = some (GoString.ofString msg))
    (hm : h.recordBag R = some m) (henc : ∀ kv ∈ m, kv.2.encodable = true) :
    ∃ h1 out members r1,
      Khata.ToJSON jsonMarshal layout h callers now R = some (h1, out) ∧
      h1.records[R]? = some r1 ∧
      JsonText (Json.obj members) out.data ∧
      members.map Prod.fst = ["createdAt", "error", "errorCode", "errorType", "exitCode",
        "explanations", "handledAt", "properties", "trace"] ∧
      (∃ c, Khata.Code h R = some c ∧ Khata.Code h1 R = some c ∧
        members.lookup "errorCode" = some (Json.num c)) ∧
      (∃ c, Khata.ExitCode h R = some c ∧ Khata.ExitCode h1 R = some c ∧
        members.lookup "exitCode" = some (Json.num c)) ∧
      (∃ t, Khata.Type h R = some t ∧ Khata.Type h1 R = some t ∧
        members.lookup "errorType" = some (Json.str t)) ∧
      (Khata.Error h1 R = some (GoString.ofString msg) ∧
        members.lookup "error" = some (Json.str msg)) ∧
      (∃ es, Khata.Explanations h R = some es ∧ Khata.Explanations h1 R = some es ∧
        members.lookup "explanations" = some (Json.arr (es.map explanationJson))) ∧
      Khata.Trace h (khataFrame 566 "(*Khata).ToJSON" :: callers) R =
        some (h1, r1.traceStack) ∧
      members.lookup "trace" = some (Json.arr (r1.traceStack.map traceJson)) := by
  obtain ⟨r, hr⟩ := getElem?_of_lt _ R hR
  cases he : r.Err with
  | none => simp [Khata.Error, hr, he] at hmsg
  | some e =>
    have hm2 : e.msg = GoString.ofString msg := by simpa [Khata.Error, hr, he] using hmsg
    obtain ⟨m2, h1, trace, hbag, ht, hh1, hj⟩ := ToJSON_eq jsonMarshal layout hw callers now hr he
    have hmm : m2 = m := by
      have : h.recordBag R = some m2 := by simp [Heap.recordBag, hr, hbag]
      rw [hm] at this
      exact (Option.some.inj this).symm
    subst hmm
    have hr1 : h1.records[R]? = some { r with traceStack := trace } := by
      rw [hh1]
      exact List.getElem?_set_self hR
    obtain ⟨ps, hdoc⟩ := docJson_document layout trace r.explanationStack msg
      { r with traceStack := trace } m2 now henc
    rw [hm2] at hj
    obtain ⟨out, hout, htext⟩ := jsonMarshal_sound _ _ hdoc
    rw [hout] at hj
    refine ⟨h1, out, _, _, hj, hr1, htext, rfl, ⟨r.errorCode, ?_, ?_, rfl⟩,
      ⟨r.exitCode, ?_, ?_, rfl⟩, ⟨r.errorType, ?_, ?_, rfl⟩, ⟨?_, rfl⟩,
      ⟨r.explanationStack, ?_, ?_, rfl⟩, ht, rfl⟩
    · simp [Khata.Code, hr]
    · simp [Khata.Code, hr1]
    · simp [Khata.ExitCode, hr]
    · simp [Khata.ExitCode, hr1]
    · simp [Khata.Type, hr]
    · simp [Khata.Type, hr1]
    · simp [Khata.Error, hr1, he, hm2]
    · simp [Khata.Explanations, hr]
    · simp [Khata.Explanations, hr1]


set_option maxRecDepth 8192 in
/-- The text `ToJSON` returns for record 0 of `exampleExplained`, called from
line 14 of `main.main`. -/
theorem exampleExplained_json :
    (Khata.ToJSON jsonMarshal (fun _ => "t") exampleExplained
      [⟨"/app/main.go", 14, "main.main"⟩, ⟨"/go/proc.go", 3, "runtime.main"⟩] 1 0).map
        Prod.snd =
      some "\x7b\"createdAt\":\"t\",\"error\":\"boom\",\"errorCode\":-1,\"errorType\":\"KhataError\",\"exitCode\":1,\"explanations\":[\x7b\"file\":\"/app/main.go\",\"functionName\":\"main.main\",\"line\":12,\"message\":\"why\"\x7d],\"handledAt\":\"t\",\"properties\":\x7b\"j\":2\x7d,\"trace\":[\x7b\"file\":\"/app/main.go\",\"functionName\":\"main.main\",\"line\":14\x7d]\x7d" := by
  decide

set_option maxRecDepth 8192 in
/-- The chain the `Trace` call of that `ToJSON` returns. -/
theorem exampleExplained_trace :
    (Khata.Trace exampleExplained [khataFrame 566 "(*Khata).ToJSON",
      ⟨"/app/main.go", 14, "main.main"⟩, ⟨"/go/proc.go", 3, "runtime.main"⟩] 0).map Prod.snd =
      some [⟨"/app/main.go", 14, "main.main"⟩] := by
  decide

set_option maxRecDepth 8192 in
/-- The text `ToJSON` returns for the record made by `Wrap` of an error whose
text is the single byte 0xff. -/
theorem invalidError_json :
    (Khata.ToJSON jsonMarshal (fun _ => "t")
      (Wrap Heap.empty 0 (some ⟨0, [GoRune.invalid 255], errorString⟩)).1 [] 1 0).map
        Prod.snd =
      some "\x7b\"createdAt\":\"t\",\"error\":\"\\ufffd\",\"errorCode\":-1,\"errorType\":\"KhataError\",\"exitCode\":1,\"explanations\":[],\"handledAt\":\"t\",\"properties\":\x7b\x7d,\"trace\":[]\x7d" := by
  decide

set_option maxRecDepth 8192 in
/-- The text `json.Marshal` writes for the document of that record. -/
theorem invalidError_marshal :
    jsonMarshal (Khata.document (fun _ => "t") [] [] [GoRune.invalid 255]
        ⟨-1, "KhataError", 1, 0, some ⟨0, [GoRune.invalid 255], errorString⟩, 0, [], [], none⟩
        [] 1) =
      some "\x7b\"createdAt\":\"t\",\"error\":\"\\ufffd\",\"errorCode\":-1,\"errorType\":\"KhataError\",\"exitCode\":1,\"explanations\":[],\"handledAt\":\"t\",\"properties\":\x7b\x7d,\"trace\":[]\x7d" := by
  decide

theorem C18_to_json_fields_witness :
    WF exampleExplained ∧
      Khata.Error exampleExplained 0 = some (GoString.ofString "boom") ∧
      ∃ h1 out members,
        Khata.ToJSON jsonMarshal (fun _ => "t") exampleExplained
          [⟨"/app/main.go", 14, "main.main"⟩, ⟨"/go/proc.go", 3, "runtime.main"⟩] 1 0 =
          some (h1, out) ∧
        out = "\x7b\"createdAt\":\"t\",\"error\":\"boom\",\"errorCode\":-1,\"errorType\":\"KhataError\",\"exitCode\":1,\"explanations\":[\x7b\"file\":\"/app/main.go\",\"functionName\":\"main.main\",\"line\":12,\"message\":\"why\"\x7d],\"handledAt\":\"t\",\"properties\":\x7b\"j\":2\x7d,\"trace\":[\x7b\"file\":\"/app/main.go\",\"functionName\":\"main.main\",\"line\":14\x7d]\x7d" ∧
        JsonText (Json.obj members) out.data ∧
        members.lookup "error" = some (Json.str "boom") ∧
        members.lookup "errorCode" = some (Json.num (-1)) ∧
        members.lookup "explanations" =
          some (Json.arr [explanationJson ⟨"why", "/app/main.go", 12, "main.main"⟩]) ∧
        members.lookup "trace" = some (Json.arr [traceJson ⟨"/app/main.go", 14, "main.main"⟩]) := by
  have hw : WF exampleExplained := by decide
  have he : Khata.Error exampleExplained 0 = some (GoString.ofString "boom") := by decide
  refine ⟨hw, he, ?_⟩
  obtain ⟨h1, out, members, r1, hj, _, htext, _, ⟨c, hc, _, hcode⟩, _, _, ⟨_, herr⟩,
      ⟨es, hes, _, hexp⟩, htr, htrace⟩ :=
    C18_to_json_fields (fun _ => "t") exampleExplained hw
      [⟨"/app/main.go", 14, "main.main"⟩, ⟨"/go/proc.go", 3, "runtime.main"⟩] 1 0 "boom"
      [("j", Value.int 2)] (by decide) he (by decide) (by decide)
  have ho := exampleExplained_json
  rw [hj] at ho
  have hc2 : Khata.Code exampleExplained 0 = some (-1) := by decide
  rw [hc2] at hc
  have hc3 : c = -1 := (Option.some.inj hc).symm
  subst hc3
  have hes2 : Khata.Explanations exampleExplained 0 =
      some [⟨"why", "/app/main.go", 12, "main.main"⟩] := by decide
  rw [hes2] at hes
  have hes3 := (Option.some.inj hes).symm
  subst hes3
  have htr2 := exampleExplained_trace
  rw [htr] at htr2
  have htr3 : r1.traceStack = [⟨"/app/main.go", 14, "main.main"⟩] := Option.some.inj htr2
  rw [htr3] at htrace
  exact ⟨h1, out, members, hj, Option.some.inj ho, htext, herr, hcode, hexp, htrace⟩

/-- C18, where it fails: the record made by `Wrap` of an error whose text is the
single byte 0xff, which is not valid UTF-8, has no properties; its `Error()` is
that byte and is the Go string of no text, while the error member of the text
`ToJSON` returns is the text U+FFFD, the replacement character. -/
theorem C18_counterexample :
    Khata.Error (Wrap Heap.empty 0 (some ⟨0, [GoRune.invalid 255], errorString⟩)).1 0 =
        some [GoRune.invalid 255] ∧
      (∀ s : String, Khata.Error
        (Wrap Heap.empty 0 (some ⟨0, [GoRune.invalid 255], errorString⟩)).1 0 ≠
          some (GoString.ofString s)) ∧
      Heap.recordBag (Wrap Heap.empty 0 (some ⟨0, [GoRune.invalid 255], errorString⟩)).1 0 =
        some [] ∧
      ∃ out members,
        (Khata.ToJSON jsonMarshal (fun _ => "t")
          (Wrap Heap.empty 0 (some ⟨0, [GoRune.invalid 255], errorString⟩)).1 [] 1 0).map
            Prod.snd = some out ∧
        out = "\x7b\"createdAt\":\"t\",\"error\":\"\\ufffd\",\"errorCode\":-1,\"errorType\":\"KhataError\",\"exitCode\":1,\"explanations\":[],\"handledAt\":\"t\",\"properties\":\x7b\x7d,\"trace\":[]\x7d" ∧
        JsonText (Json.obj members) out.data ∧
        members.lookup "error" = some (Json.str (String.mk [Char.ofNat 65533])) ∧
        GoString.ofString (String.mk [Char.ofNat 65533]) ≠ [GoRune.invalid 255] := by
  have hE : Khata.Error (Wrap Heap.empty 0 (some ⟨0, [GoRune.invalid 255], errorString⟩)).1 0 =
      some [GoRune.invalid 255] := by decide
  refine ⟨hE, ?_, by decide, ?_⟩
  · intro s hs
    rw [hE] at hs
    have h1 := Option.some.inj hs
    cases hd : s.data with
    | nil => simp [GoString.ofString, hd] at h1
    | cons c rest => simp [GoString.ofString, hd] at h1
  · obtain ⟨out, hout, htext⟩ := jsonMarshal_sound
      (Khata.document (fun _ => "t") [] [] [GoRune.invalid 255]
        ⟨-1, "KhataError", 1, 0, some ⟨0, [GoRune.invalid 255], errorString⟩, 0, [], [], none⟩
        [] 1)
      (Json.obj [
        ("createdAt", Json.str "t"),
        ("error", Json.str (String.mk [Char.ofNat 65533])),
        ("errorCode", Json.num (-1)),
        ("errorType", Json.str "KhataError"),
        ("exitCode", Json.num 1),
        ("explanations", Json.arr []),
        ("handledAt", Json.str "t"),
        ("properties", Json.obj []),
        ("trace", Json.arr [])]) rfl
    have ho := invalidError_marshal
    rw [hout] at ho
    refine ⟨out, _, ?_, Option.some.inj ho, htext, rfl, by decide⟩
    rw [Option.some.inj ho]
    exact invalidError_json

/-- C19, what the code does on a record whose error is nil: `ToJSON` panics on
the nil error, as `Error` does, for the record made by `Wrap(nil)` and for a
record after `SetError(nil)`; no text, empty or not, is returned. -/
theorem C19_to_json_panics_on_nil_error (marshal : Doc → Option String)
    (layout : Nat → String) (h : Heap) (callers : List Frame) (now later : Nat)
    (m : String) :
    Khata.ToJSON marshal layout (Wrap h now none).1 callers later (Wrap h now none).2 = none ∧
    Khata.Error (Wrap h now none).1 (Wrap h now none).2 = none ∧
    (∃ h1, Khata.SetError (New h now m).1 (New h now m).2 none = some (h1, (New h now m).2) ∧
      Khata.ToJSON marshal layout h1 callers later (New h now m).2 = none) := by
  have hr : (Wrap h now none).1.records[(Wrap h now none).2]? =
      some ⟨DEFAULT_ERROR_CODE, DEFAULT_ERROR_TYPE, DEFAULT_EXIT_CODE, now, none,
        h.bags.length, [], [], none⟩ := by
    simp [Wrap]
  have hr2 : (New h now m).1.records[(New h now m).2]? =
      some ⟨DEFAULT_ERROR_CODE, DEFAULT_ERROR_TYPE, DEFAULT_EXIT_CODE, now,
        some ⟨h.nextErr, m, errorString⟩, h.bags.length, [], [], none⟩ := by
    simp [New, Wrap, errorsNew]
  have hl2 := lt_of_getElem? hr2
  refine ⟨ToJSON_nil marshal layout callers later hr rfl, by simp [Khata.Error, hr], ?_⟩
  generalize (New h now m).1 = h0 at hr2 hl2
  generalize (New h now m).2 = R at hr2 hl2
  refine ⟨_, by simp [Khata.SetError, hr2]; rfl, ?_⟩
  exact ToJSON_nil marshal layout callers later (List.getElem?_set_self hl2) rfl

/-! ## The template a record is bound to -/

theorem walk_congr {h h1 : Heap} (ht : h1.templates = h.templates) (kt : Option Nat) :
    ∀ (fuel : Nat) (cur : Option Nat), walk h1 kt fuel cur = walk h kt fuel cur := by
  intro fuel
  induction fuel with
  | zero => intro cur; rfl
  | succ n ih =>
    intro cur
    cases cur with
    | none => rfl
    | some a =>
      simp only [walk, ht]
      split
      · rfl
      · cases h.templates[a]? with
        | none => rfl
        | some tt => exact ih _

/-- Both binding tests depend only on the templates and on the template field of
the record. -/
theorem binding_congr {h h1 : Heap} (ht : h1.templates = h.templates) {R : Nat} {r r1 : Khata}
    (hr : h.records[R]? = some r) (hr1 : h1.records[R]? = some r1)
    (hb : r1.template = r.template) (U : Option Nat) :
    (∃ b, Khata.IsInstanceOf h R U = some b ∧ Khata.IsInstanceOf h1 R U = some b) ∧
      ∀ fuel, Khata.IsRelatedTo h1 fuel R U = Khata.IsRelatedTo h fuel R U := by
  refine ⟨⟨decide (r.template = U), by simp [Khata.IsInstanceOf, hr],
    by simp [Khata.IsInstanceOf, hr1, hb]⟩, ?_⟩
  intro fuel
  simp only [Khata.IsRelatedTo, hr, hr1, Option.bind_eq_bind, Option.some_bind, hb]
  exact walk_congr ht U fuel _

/-- C20: a call of `SetCode`, `SetType`, `SetExitCode`, `SetError`,
`SetProperty`, `RemoveProperty`, `Explain`, `Explainf` or `Trace`, on `R` or on
any other record, returns and leaves `R.IsInstanceOf(U)` and `R.IsRelatedTo(U)`
as they were, for every reference `U`; so does `ToJSON` whenever it returns, and
it returns on a record whose error is not nil.  `T.Apply(R)` binds `R` to `T`,
and `Apply` to another record leaves the binding of `R`. -/
theorem C20_template_binding (sprintf : String → List Value → String)
    (marshal : Doc → Option String) (layout : Nat → String) (h : Heap) (hw : WF h) (R : Nat)
    (hR : R < h.records.length) :
    (∀ k op, RecordOp.ok h.records.length h.templates.length k op = true →
      (op.rebinds = false ∨ k ≠ R) →
      ∃ h1, op.run sprintf h k = some h1 ∧
        ∀ U, (∃ b, Khata.IsInstanceOf h R U = some b ∧ Khata.IsInstanceOf h1 R U = some b) ∧
          ∀ fuel, Khata.IsRelatedTo h1 fuel R U = Khata.IsRelatedTo h fuel R U) ∧
    (∀ k callers now h1 out, Khata.ToJSON marshal layout h callers now k = some (h1, out) →
      ∀ U, (∃ b, Khata.IsInstanceOf h R U = some b ∧ Khata.IsInstanceOf h1 R U = some b) ∧
        ∀ fuel, Khata.IsRelatedTo h1 fuel R U = Khata.IsRelatedTo h fuel R U) ∧
    (∀ k callers now msg, Khata.Error h k = some msg →
      ∃ h1 out, Khata.ToJSON marshal layout h callers now k = some (h1, out)) ∧
    (∀ T, T < h.templates.length →
      ∃ h1, KhataTemplate.Apply h T R = some (h1, R) ∧
        Khata.IsInstanceOf h1 R (some T) = some true ∧
        ∀ fuel, h1.templates.length + 1 ≤ fuel →
          Khata.IsRelatedTo h1 fuel R (some T) = some true) := by
  obtain ⟨r, hr⟩ := getElem?_of_lt _ R hR
  refine ⟨?_, ?_, ?_, ?_⟩
  · intro k op hok hnr
    have hk : k < h.records.length := by
      cases op <;> simp [RecordOp.ok] at hok <;> omega
    obtain ⟨rk, hrk⟩ := getElem?_of_lt _ k hk
    obtain ⟨h1, r2, added, hrun, _, ht1, _, hr2, hoth, _, _, htpl⟩ :=
      RecordOp.run_spec sprintf hw hrk op hok
    refine ⟨h1, hrun, fun U => ?_⟩
    by_cases hkR : k = R
    · subst hkR
      rw [hr] at hrk
      cases hrk
      have hb : r2.template = r.template := by
        rcases htpl with hb | ⟨kt, hop, _⟩
        · exact hb
        · rcases hnr with hnr | hnr
          · rw [hop] at hnr
            cases hnr
          · exact absurd rfl hnr
      exact binding_congr ht1 hr hr2 hb U
    · have hr1 : h1.records[R]? = some r := by
        rw [hoth R (fun e => hkR e.symm)]
        exact hr
      exact binding_congr ht1 hr hr1 rfl U
  · intro k callers now h1 out hj U
    cases hrk : h.records[k]? with
    | none => simp [Khata.ToJSON, Khata.Trace, hrk] at hj
    | some rk =>
      have hk := lt_of_getElem? hrk
      cases he : rk.Err with
      | none =>
        rw [ToJSON_nil marshal layout callers now hrk he] at hj
        cases hj
      | some e =>
        obtain ⟨m, h2, trace, _, _, hh2, hj2⟩ := ToJSON_eq marshal layout hw callers now hrk he
        rw [hj2] at hj
        have e1 : h1 = h2 := by
          have := congrArg Prod.fst (Option.some.inj hj)
          exact this.symm
        have ht2 : h2.templates = h.templates := by rw [hh2]
        rw [e1]
        by_cases hkR : k = R
        · subst hkR
          rw [hr] at hrk
          cases hrk
          have hr2 : h2.records[k]? = some { r with traceStack := trace } := by
            rw [hh2]
            exact List.getElem?_set_self hR
          exact binding_congr ht2 hr hr2 rfl U
        · have hr2 : h2.records[R]? = some r := by
            rw [hh2, ← hr]
            exact List.getElem?_set_ne hkR
          exact binding_congr ht2 hr hr2 rfl U
  · intro k callers now msg hmsg
    cases hrk : h.records[k]? with
    | none => simp [Khata.Error, hrk] at hmsg
    | some rk =>
      cases he : rk.Err with
      | none => simp [Khata.Error, hrk, he] at hmsg
      | some e =>
        obtain ⟨m, h2, trace, _, _, _, hj2⟩ := ToJSON_eq marshal layout hw callers now hrk he
        exact ⟨_, _, hj2⟩
  · intro T hT
    obtain ⟨t, ht⟩ := getElem?_of_lt _ T hT
    obtain ⟨mT, hmT⟩ := getElem?_of_lt _ _ (hw.template ht).1
    obtain ⟨mR, hmR⟩ := getElem?_of_lt _ _ (hw.record hr).1
    have he := Apply_eq ht hr hmT hmR
    have hw1 := WF_Apply hw he
    refine ⟨_, he, by simp [Khata.IsInstanceOf, List.getElem?_set_self hR], ?_⟩
    intro fuel hf
    obtain ⟨b, hb, hiff⟩ := walk_from hw1 T (some T) (fun a ha => by
      cases ha
      exact hT) fuel hf
    have hb2 : b = true := hiff.2 ⟨T, rfl, Or.inl rfl⟩
    subst hb2
    simpa [Khata.IsRelatedTo, List.getElem?_set_self hR] using hb

theorem C20_template_binding_witness :
    WF exampleHeap ∧
      (∃ h1, RecordOp.run (fun format _ => format) exampleHeap 0
          (RecordOp.Explain [⟨"main.go", 10, "main.main"⟩] "why") = some h1 ∧
        ∃ b, Khata.IsInstanceOf exampleHeap 0 (some 0) = some b ∧
          Khata.IsInstanceOf h1 0 (some 0) = some b) ∧
      ∃ h1, KhataTemplate.Apply exampleHeap 0 0 = some (h1, 0) ∧
        Khata.IsInstanceOf h1 0 (some 0) = some true := by
  refine ⟨by decide, ?_, ?_⟩
  · obtain ⟨h1, hrun, hU⟩ :=
      (C20_template_binding (fun format _ => format) (fun _ => none) (fun _ => "")
        exampleHeap (by decide) 0 (by decide)).1 0
        (RecordOp.Explain [⟨"main.go", 10, "main.main"⟩] "why") (by decide) (Or.inl rfl)
    exact ⟨h1, hrun, (hU (some 0)).1⟩
  · obtain ⟨h1, ha, hi, _⟩ :=
      (C20_template_binding (fun format _ => format) (fun _ => none) (fun _ => "")
        exampleHeap (by decide) 0 (by decide)).2.2.2 0 (by decide)
    exact ⟨h1, ha, hi⟩

/-! ## Relatedness as an order -/

theorem Ancestor.trans {h : Heap} {a b c : Nat} (hab : Ancestor h a b) (hbc : Ancestor h b c) :
    Ancestor h a c := by
  induction hab with
  | parent ht hp => exact Ancestor.step ht hp hbc
  | step ht hp _ ih => exact Ancestor.step ht hp (ih hbc)

/-- The answer of `KhataTemplate.IsRelatedTo` with enough iterations is true
exactly for the proper ancestors. -/
theorem TemplateIsRelatedTo_iff {h : Heap} (hw : WF h) (T U fuel : Nat)
    (hT : T < h.templates.length) (hf : h.templates.length + 1 ≤ fuel) :
    KhataTemplate.IsRelatedTo h fuel T (some U) = some true ↔ Ancestor h T U := by
  obtain ⟨b, hb, hiff⟩ := TemplateIsRelatedTo_spec hw T U fuel hT hf
  rw [hb, ← hiff]
  simp

/-- C21: on a heap whose parent links point to older templates, as every
hierarchy built with `NewTemplate` and `Extend` has them, `IsRelatedTo` between
templates is a strict partial order: no template is related to itself, the
relation is transitive, and two templates are never related both ways. -/
theorem C21_related_strict_order (h : Heap) (hw : WF h) (fuel : Nat)
    (hf : h.templates.length + 1 ≤ fuel) :
    (∀ T, T < h.templates.length →
      KhataTemplate.IsRelatedTo h fuel T (some T) = some false) ∧
    (∀ A B C, A < h.templates.length →
      KhataTemplate.IsRelatedTo h fuel A (some B) = some true →
      KhataTemplate.IsRelatedTo h fuel B (some C) = some true →
      KhataTemplate.IsRelatedTo h fuel A (some C) = some true) ∧
    (∀ A B, A < h.templates.length →
      ¬ (KhataTemplate.IsRelatedTo h fuel A (some B) = some true ∧
        KhataTemplate.IsRelatedTo h fuel B (some A) = some true)) := by
  refine ⟨?_, ?_, ?_⟩
  · intro T hT
    obtain ⟨b, hb, hiff⟩ := TemplateIsRelatedTo_spec hw T T fuel hT hf
    cases b with
    | false => exact hb
    | true =>
      have := Ancestor.lt hw (hiff.1 rfl)
      omega
  · intro A B C hA hab hbc
    have h1 := (TemplateIsRelatedTo_iff hw A B fuel hA hf).1 hab
    have hB := Ancestor.allocated hw h1
    have h2 := (TemplateIsRelatedTo_iff hw B C fuel hB hf).1 hbc
    exact (TemplateIsRelatedTo_iff hw A C fuel hA hf).2 (Ancestor.trans h1 h2)
  · rintro A B hA ⟨hab, hba⟩
    have h1 := (TemplateIsRelatedTo_iff hw A B fuel hA hf).1 hab
    have hB := Ancestor.allocated hw h1
    have h2 := (TemplateIsRelatedTo_iff hw B A fuel hB hf).1 hba
    have := Ancestor.lt hw h1
    have := Ancestor.lt hw h2
    omega

theorem C21_related_strict_order_witness :
    Built exampleChain ∧ WF exampleChain ∧
      KhataTemplate.IsRelatedTo exampleChain 4 2 (some 2) = some false ∧
      KhataTemplate.IsRelatedTo exampleChain 4 2 (some 0) = some true ∧
      KhataTemplate.IsRelatedTo exampleChain 4 0 (some 2) = some false := by
  have hb : Built exampleChain :=
    Built.extend (T := 1) (Built.extend (T := 0) (Built.newTemplate Built.empty) rfl) rfl
  have hc := C21_related_strict_order exampleChain (by decide) 4 (by decide)
  refine ⟨hb, by decide, hc.1 2 (by decide), ?_, by decide⟩
  exact hc.2.1 2 1 0 (by decide) (by decide) (by decide)

/-! ## Writing through a shared map -/

theorem Bag.get_of_mem (b : Bag) (hb : b.keys.Nodup) (k : String) (v : Value)
    (hm : (k, v) ∈ b) : b.get k = v := by
  induction b with
  | nil => cases hm
  | cons e rest ih =>
    obtain ⟨k0, v0⟩ := e
    have hb2 : k0 ∉ Bag.keys rest ∧ (Bag.keys rest).Nodup := by
      simpa [Bag.keys] using hb
    rcases List.mem_cons.1 hm with he | he
    · cases he
      simp [Bag.get]
    · have hne : ¬ k0 = k := by
        intro e
        subst e
        exact hb2.1 (List.mem_map_of_mem Prod.fst he)
      simp [Bag.get, hne, ih hb2.2 he]

/-- Assigning to a key the value it already holds leaves the map as it is. -/
theorem Bag.set_get_self (b : Bag) (k : String) (hk : k ∈ b.keys) : b.set k (b.get k) = b := by
  induction b with
  | nil => simp [Bag.keys] at hk
  | cons e rest ih =>
    obtain ⟨k0, v0⟩ := e
    by_cases h0 : k0 = k
    · subst h0
      simp [Bag.set, Bag.get]
    · have hk2 : k ∈ Bag.keys rest := by
        have : k = k0 ∨ k ∈ Bag.keys rest := by simpa [Bag.keys] using hk
        rcases this with e | e
        · exact absurd e.symm h0
        · exact e
      simp [Bag.set, Bag.get, h0, ih hk2]

/-- The loop of `Apply` run from a map into itself leaves the map as it is. -/
theorem Bag.foldl_set_same (dst : Bag) (src : Bag)
    (hs : ∀ kv ∈ src, kv.1 ∈ dst.keys ∧ dst.get kv.1 = kv.2) :
    src.foldl (fun m kv => Bag.set m kv.1 kv.2) dst = dst := by
  induction src with
  | nil => rfl
  | cons e rest ih =>
    have h1 := hs e (List.mem_cons_self _ _)
    rw [List.foldl_cons, ← h1.2, Bag.set_get_self dst e.1 h1.1]
    exact ih (fun kv hkv => hs kv (List.mem_cons_of_mem _ hkv))

theorem Bag.foldl_set_self (m : Bag) (hm : m.keys.Nodup) :
    m.foldl (fun b kv => Bag.set b kv.1 kv.2) m = m := by
  apply Bag.foldl_set_same
  intro kv hkv
  exact ⟨List.mem_map_of_mem Prod.fst hkv, Bag.get_of_mem m hm kv.1 kv.2 hkv⟩

/-- When the map of the record is the map of no template, `Apply` leaves the
map of every template as it is. -/
theorem Apply_keeps_template_bags {h : Heap} (hw : WF h) {T R : Nat} {r : Khata}
    (hT : T < h.templates.length) (hr : h.records[R]? = some r)
    (hsep : ∀ (T2 : Nat) (t2 : KhataTemplate), h.templates[T2]? = some t2 →
      t2.properties ≠ r.properties) :
    ∃ h2, KhataTemplate.Apply h T R = some (h2, R) ∧
      ∀ T2, T2 < h.templates.length →
        ∃ b, h.templateBag T2 = some b ∧ h2.templateBag T2 = some b := by
  obtain ⟨t, ht⟩ := getElem?_of_lt _ T hT
  obtain ⟨mT, hmT⟩ := getElem?_of_lt _ _ (hw.template ht).1
  obtain ⟨mR, hmR⟩ := getElem?_of_lt _ _ (hw.record hr).1
  refine ⟨_, Apply_eq ht hr hmT hmR, ?_⟩
  intro T2 hT2
  obtain ⟨t2, ht2⟩ := getElem?_of_lt _ T2 hT2
  obtain ⟨b, hb⟩ := getElem?_of_lt _ _ (hw.template ht2).1
  have hne : r.properties ≠ t2.properties := fun e => hsep T2 t2 ht2 e.symm
  refine ⟨b, by simp [Heap.templateBag, ht2, hb], ?_⟩
  simp only [Heap.templateBag, ht2, Option.bind_eq_bind, Option.some_bind]
  rw [List.getElem?_set_ne hne]
  exact hb

/-- `T2.Apply(R)` on a record that holds the map of template `T1`: the map of
`T2` stays, and the map of `T1` takes over every entry of `T2`. -/
theorem Apply_shared {h : Heap} (hw : WF h) {T1 T2 R : Nat} {t1 t2 : KhataTemplate} {r : Khata}
    (ht1 : h.templates[T1]? = some t1) (ht2 : h.templates[T2]? = some t2)
    (hr : h.records[R]? = some r) (hp : r.properties = t1.properties) :
    ∃ h2 m1 m2, KhataTemplate.Apply h T2 R = some (h2, R) ∧
      h.templateBag T1 = some m1 ∧ h.recordBag R = some m1 ∧
      h.templateBag T2 = some m2 ∧ h2.templateBag T2 = some m2 ∧
      (∀ k, k ∈ m2.keys →
        KhataTemplate.GetProperty h2 T1 k = some (m2.get k) ∧
        KhataTemplate.GetProperty h2 T2 k = some (m2.get k)) ∧
      (∀ k, k ∉ m2.keys → KhataTemplate.GetProperty h2 T1 k = some (m1.get k)) ∧
      (∃ b, h2.recordBag R = some b ∧ h2.templateBag T1 = some b) := by
  have hb1 := (hw.template ht1).1
  have hb2 := (hw.template ht2).1
  obtain ⟨m1, hm1⟩ := getElem?_of_lt _ _ hb1
  obtain ⟨m2, hm2⟩ := getElem?_of_lt _ _ hb2
  have hmR : h.bags[r.properties]? = some m1 := by rw [hp]; exact hm1
  have hbr : r.properties < h.bags.length := by rw [hp]; exact hb1
  have hR := lt_of_getElem? hr
  have hnd2 := hw.bag hm2
  have hset1 : (h.bags.set r.properties
      (m2.foldl (fun m kv => Bag.set m kv.1 kv.2) m1))[t1.properties]? =
      some (m2.foldl (fun m kv => Bag.set m kv.1 kv.2) m1) := by
    rw [← hp]
    exact List.getElem?_set_self hbr
  have hset2 : (h.bags.set r.properties
      (m2.foldl (fun m kv => Bag.set m kv.1 kv.2) m1))[t2.properties]? = some m2 := by
    by_cases he : r.properties = t2.properties
    · have e12 : m1 = m2 := by
        rw [he, hm2] at hmR
        exact (Option.some.inj hmR).symm
      rw [← he, List.getElem?_set_self hbr, e12, Bag.foldl_set_self m2 hnd2]
    · rw [List.getElem?_set_ne he]
      exact hm2
  refine ⟨_, m1, m2, Apply_eq ht2 hr hm2 hmR, by simp [Heap.templateBag, ht1, hm1],
    by simp [Heap.recordBag, hr, hmR], by simp [Heap.templateBag, ht2, hm2],
    by simp [Heap.templateBag, ht2, hset2], ?_, ?_,
    ⟨m2.foldl (fun m kv => Bag.set m kv.1 kv.2) m1, ?_, ?_⟩⟩
  · intro k hk
    constructor
    · simp [KhataTemplate.GetProperty, ht1, hset1, Bag.get_foldl_set m2 hnd2, hk]
    · simp [KhataTemplate.GetProperty, ht2, hset2]
  · intro k hk
    simp [KhataTemplate.GetProperty, ht1, hset1, Bag.get_foldl_set m2 hnd2, hk]
  · simp only [Heap.recordBag, List.getElem?_set_self hR, Option.bind_eq_bind, Option.some_bind]
    exact List.getElem?_set_self hbr
  · simp [Heap.templateBag, ht1, hset1]

/-- C22: for `R = T1.New()` the map of `R` is the map of `T1`, so after
`T2.Apply(R)` template `T1` reads every key of the map of `T2` as `T2` does,
while the map of `T2` is as before; when `R` comes from the package-level `New`
or `Wrap` its map is its own and `Apply` changes the map of no template. -/
theorem C22_apply_writes_through (h : Heap) (hw : WF h) (now : Nat) (ms : List String)
    (m : String) (e : Option GoError) :
    (∀ T1 T2, T1 < h.templates.length → T2 < h.templates.length →
      ∃ h1 R h2 m1 m2, KhataTemplate.New h now T1 ms = some (h1, R) ∧
        KhataTemplate.Apply h1 T2 R = some (h2, R) ∧
        h1.templateBag T1 = some m1 ∧ h1.recordBag R = some m1 ∧
        h.templateBag T2 = some m2 ∧ h1.templateBag T2 = some m2 ∧
        h2.templateBag T2 = some m2 ∧
        (∀ k, k ∈ m2.keys →
          KhataTemplate.GetProperty h2 T1 k = some (m2.get k) ∧
          KhataTemplate.GetProperty h2 T2 k = some (m2.get k)) ∧
        (∀ k, k ∉ m2.keys → KhataTemplate.GetProperty h2 T1 k = some (m1.get k)) ∧
        (∃ b, h2.recordBag R = some b ∧ h2.templateBag T1 = some b)) ∧
    (∀ made ∈ [New h now m, Wrap h now e], ∀ T, T < h.templates.length →
      ∃ h2, KhataTemplate.Apply made.1 T made.2 = some (h2, made.2) ∧
        ∀ T2, T2 < h.templates.length →
          ∃ b, h.templateBag T2 = some b ∧ made.1.templateBag T2 = some b ∧
            h2.templateBag T2 = some b) := by
  constructor
  · intro T1 T2 hT1 hT2
    obtain ⟨t1, ht1⟩ := getElem?_of_lt _ T1 hT1
    obtain ⟨t2, ht2⟩ := getElem?_of_lt _ T2 hT2
    have e1 := @TemplateNew_eq h now T1 t1 ms ht1
    have hw1 := WF_TemplateNew hw e1
    have hr1 : ({ h with
        nextErr := h.nextErr + 1
        records := h.records ++ [⟨t1.errorCode, t1.errorType, t1.exitCode, now,
          some ⟨h.nextErr, if joinLines ms = "" then t1.message else joinLines ms,
            errorString⟩,
          t1.properties, [], [], some T1⟩] } : Heap).records[h.records.length]? =
        some ⟨t1.errorCode, t1.errorType, t1.exitCode, now,
          some ⟨h.nextErr, if joinLines ms = "" then t1.message else joinLines ms,
            errorString⟩,
          t1.properties, [], [], some T1⟩ := List.getElem?_concat_length _ _
    obtain ⟨h2, m1, m2, ha, hb1, hbr, hb2, hb2', hk, hnk, hsame⟩ :=
      @Apply_shared _ hw1 T1 T2 _ t1 t2 _ ht1 ht2 hr1 rfl
    exact ⟨_, _, h2, m1, m2, e1, ha, hb1, hbr, hb2, hb2, hb2', hk, hnk, hsame⟩
  · intro made hmade T hT
    have hwrap : ∀ (h0 : Heap) (now2 : Nat) (err : Option GoError), WF h0 →
        h0.templates = h.templates → h0.bags = h.bags →
        ∃ h2, KhataTemplate.Apply (Wrap h0 now2 err).1 T (Wrap h0 now2 err).2 =
            some (h2, (Wrap h0 now2 err).2) ∧
          ∀ T2, T2 < h.templates.length →
            ∃ b, h.templateBag T2 = some b ∧ (Wrap h0 now2 err).1.templateBag T2 = some b ∧
              h2.templateBag T2 = some b := by
      intro h0 now2 err hw0 het heb
      have hr0 : (Wrap h0 now2 err).1.records[(Wrap h0 now2 err).2]? =
          some ⟨DEFAULT_ERROR_CODE, DEFAULT_ERROR_TYPE, DEFAULT_EXIT_CODE, now2, err,
            h0.bags.length, [], [], none⟩ := by
        simp [Wrap]
      have hT0 : T < (Wrap h0 now2 err).1.templates.length := by
        show T < h0.templates.length
        rw [het]
        exact hT
      obtain ⟨h2, ha, hkeep⟩ := Apply_keeps_template_bags (WF_Wrap hw0 now2 err) hT0 hr0
        (fun T2 t2 ht2 he => by
          have ht2' : h0.templates[T2]? = some t2 := ht2
          have := (hw0.template ht2').1
          have he' : t2.properties = h0.bags.length := he
          omega)
      refine ⟨h2, ha, ?_⟩
      intro T2 hT2
      have hT2' : T2 < (Wrap h0 now2 err).1.templates.length := by
        show T2 < h0.templates.length
        rw [het]
        exact hT2
      obtain ⟨b, hb1, hb2⟩ := hkeep T2 hT2'
      refine ⟨b, ?_, hb1, hb2⟩
      obtain ⟨t2, ht2⟩ := getElem?_of_lt _ T2 hT2
      have ht2' : h0.templates[T2]? = some t2 := by rw [het]; exact ht2
      have hlt := (hw0.template ht2').1
      have hb1' : (h0.bags ++ [([] : Bag)])[t2.properties]? = some b := by
        simpa [Heap.templateBag, Wrap, ht2'] using hb1
      rw [List.getElem?_append_left hlt, heb] at hb1'
      simp [Heap.templateBag, ht2, hb1']
    simp only [List.mem_cons, List.mem_singleton, List.not_mem_nil, or_false] at hmade
    rcases hmade with rfl | rfl
    · exact hwrap (errorsNew h m).1 now (some (errorsNew h m).2) (WF_errorsNew hw m) rfl rfl
    · exact hwrap h now e hw rfl rfl

theorem C22_apply_writes_through_witness :
    WF exampleTwoTemplates ∧
      KhataTemplate.GetProperty exampleTwoTemplates 0 "k" = some Value.nil ∧
      ∃ h1 R h2, KhataTemplate.New exampleTwoTemplates 0 0 [] = some (h1, R) ∧
        KhataTemplate.Apply h1 1 R = some (h2, R) ∧
        KhataTemplate.GetProperty h2 0 "k" = some (Value.int 1) ∧
        KhataTemplate.GetProperty h2 1 "k" = some (Value.int 1) := by
  refine ⟨by decide, by decide, ?_⟩
  obtain ⟨h1, R, h2, m1, m2, hn, ha, _, _, hm2, _, _, hk, _⟩ :=
    (C22_apply_writes_through exampleTwoTemplates (by decide) 0 [] "" none).1 0 1
      (by decide) (by decide)
  have e2 : m2 = [("k", Value.int 1)] := by
    have : exampleTwoTemplates.templateBag 1 = some [("k", Value.int 1)] := by decide
    rw [this] at hm2
    exact (Option.some.inj hm2).symm
  subst e2
  exact ⟨h1, R, h2, hn, ha, (hk "k" (by decide)).1, (hk "k" (by decide)).2⟩

/-! ## Records bound to no template -/

/-- A sequence of calls that holds no `Apply` on record `R` runs to its end and
leaves the template of `R`. -/
theorem runOps_template (sprintf : String → List Value → String) (R : Nat) :
    ∀ (ops : List (Nat × RecordOp)) (h : Heap) (r : Khata), WF h →
      (∀ p ∈ ops, p.2.ok h.records.length h.templates.length p.1 = true) →
      (∀ p ∈ ops, p.1 = R → p.2.rebinds = false) →
      h.records[R]? = some r →
      ∃ h1 r1, runOps sprintf h ops = some h1 ∧ WF h1 ∧ h1.templates = h.templates ∧
        h1.records[R]? = some r1 ∧ r1.template = r.template := by
  intro ops
  induction ops with
  | nil =>
    intro h r hw _ _ hr
    exact ⟨h, r, rfl, hw, rfl, hr, rfl⟩
  | cons p rest ih =>
    intro h r hw hv hnr hr
    obtain ⟨k, op⟩ := p
    have hok := hv (k, op) (List.mem_cons_self _ _)
    have hk : k < h.records.length := by
      cases op <;> simp [RecordOp.ok] at hok <;> omega
    obtain ⟨rk, hrk⟩ := getElem?_of_lt _ k hk
    obtain ⟨h1, r2, added0, hrun, hw1, ht1, hl1, hr2, hoth, _, _, htpl⟩ :=
      RecordOp.run_spec sprintf hw hrk op hok
    have hv1 : ∀ p ∈ rest, p.2.ok h1.records.length h1.templates.length p.1 = true := by
      intro p hp
      rw [hl1, ht1]
      exact hv p (List.mem_cons_of_mem _ hp)
    have hnr1 : ∀ p ∈ rest, p.1 = R → p.2.rebinds = false :=
      fun p hp => hnr p (List.mem_cons_of_mem _ hp)
    by_cases hkR : k = R
    · subst hkR
      rw [hr] at hrk
      cases hrk
      have hb : r2.template = r.template := by
        rcases htpl with hb | ⟨kt, hop, _⟩
        · exact hb
        · have := hnr (k, op) (List.mem_cons_self _ _) rfl
          rw [hop] at this
          cases this
      obtain ⟨h2, r3, hrun2, hw2, ht2, hr3, hb3⟩ := ih h1 r2 hw1 hv1 hnr1 hr2
      exact ⟨h2, r3, by simp [runOps, hrun, hrun2], hw2, by rw [ht2, ht1], hr3, by rw [hb3, hb]⟩
    · have hr1 : h1.records[R]? = some r := by
        rw [hoth R (fun e => hkR e.symm)]
        exact hr
      obtain ⟨h2, r3, hrun2, hw2, ht2, hr3, hb3⟩ := ih h1 r hw1 hv1 hnr1 hr1
      exact ⟨h2, r3, by simp [runOps, hrun, hrun2], hw2, by rw [ht2, ht1], hr3, hb3⟩

/-- C23: a record made by the package-level `New` or `Wrap`, after any calls
that hold no `Apply` on it, is related to no reference, the nil reference
included, and is an instance of exactly the nil reference; so on it
`IsInstanceOf(nil)` holds while `IsRelatedTo(nil)` does not.  On every record
and every non-nil template `U`, `IsInstanceOf(U)` implies `IsRelatedTo(U)`. -/
theorem C23_template_less_records (sprintf : String → List Value → String) (h : Heap)
    (hw : WF h) (now : Nat) (m : String) (e : Option GoError) :
    (∀ made ∈ [New h now m, Wrap h now e], ∀ ops : List (Nat × RecordOp),
      (∀ p ∈ ops, p.2.ok made.1.records.length made.1.templates.length p.1 = true) →
      (∀ p ∈ ops, p.1 = made.2 → p.2.rebinds = false) →
      ∃ h1, runOps sprintf made.1 ops = some h1 ∧
        ∀ U, (∀ fuel, 1 ≤ fuel → Khata.IsRelatedTo h1 fuel made.2 U = some false) ∧
          Khata.IsInstanceOf h1 made.2 U = some (decide (U = none))) ∧
    (∀ R (U : Nat) fuel, R < h.records.length → 1 ≤ fuel →
      Khata.IsInstanceOf h R (some U) = some true →
      Khata.IsRelatedTo h fuel R (some U) = some true) := by
  constructor
  · have hwrap : ∀ (h0 : Heap) (err : Option GoError), WF h0 →
        ∀ ops : List (Nat × RecordOp),
        (∀ p ∈ ops, p.2.ok (Wrap h0 now err).1.records.length
          (Wrap h0 now err).1.templates.length p.1 = true) →
        (∀ p ∈ ops, p.1 = (Wrap h0 now err).2 → p.2.rebinds = false) →
        ∃ h1, runOps sprintf (Wrap h0 now err).1 ops = some h1 ∧
          ∀ U, (∀ fuel, 1 ≤ fuel →
              Khata.IsRelatedTo h1 fuel (Wrap h0 now err).2 U = some false) ∧
            Khata.IsInstanceOf h1 (Wrap h0 now err).2 U = some (decide (U = none)) := by
      intro h0 err hw0 ops hv hnr
      have hr0 : (Wrap h0 now err).1.records[(Wrap h0 now err).2]? =
          some ⟨DEFAULT_ERROR_CODE, DEFAULT_ERROR_TYPE, DEFAULT_EXIT_CODE, now, err,
            h0.bags.length, [], [], none⟩ := by
        simp [Wrap]
      obtain ⟨h1, r1, hrun, _, _, hr1, hb⟩ :=
        runOps_template sprintf (Wrap h0 now err).2 ops (Wrap h0 now err).1 _
          (WF_Wrap hw0 now err) hv hnr hr0
      have hb1 : r1.template = none := hb
      refine ⟨h1, hrun, fun U => ⟨?_, ?_⟩⟩
      · intro fuel hf
        obtain ⟨f, rfl⟩ : ∃ f, fuel = f + 1 := ⟨fuel - 1, by omega⟩
        simp [Khata.IsRelatedTo, hr1, hb1, walk]
      · simp only [Khata.IsInstanceOf, hr1, hb1, Option.bind_eq_bind, Option.some_bind,
          Option.pure_def, Option.some.injEq, decide_eq_decide]
        exact eq_comm
    intro made hmade
    simp only [List.mem_cons, List.mem_singleton, List.not_mem_nil, or_false] at hmade
    rcases hmade with rfl | rfl
    · exact hwrap (errorsNew h m).1 (some (errorsNew h m).2) (WF_errorsNew hw m)
    · exact hwrap h e hw
  · intro R U fuel hR hf hi
    obtain ⟨r, hr⟩ := getElem?_of_lt _ R hR
    obtain ⟨f, rfl⟩ : ∃ f, fuel = f + 1 := ⟨fuel - 1, by omega⟩
    have ht : r.template = some U := by
      simpa [Khata.IsInstanceOf, hr] using hi
    simp [Khata.IsRelatedTo, hr, ht, walk]

theorem C23_template_less_records_witness :
    WF exampleChain ∧
      ∃ h1, runOps (fun format _ => format) (New exampleChain 0 "boom").1
          [((New exampleChain 0 "boom").2, RecordOp.SetCode 404),
           ((New exampleChain 0 "boom").2, RecordOp.Explain [] "why")] = some h1 ∧
        Khata.IsInstanceOf h1 (New exampleChain 0 "boom").2 none = some true ∧
        Khata.IsRelatedTo h1 5 (New exampleChain 0 "boom").2 none = some false ∧
        Khata.IsInstanceOf h1 (New exampleChain 0 "boom").2 (some 2) = some false ∧
        Khata.IsRelatedTo h1 5 (New exampleChain 0 "boom").2 (some 2) = some false := by
  refine ⟨by decide, ?_⟩
  obtain ⟨h1, hrun, hU⟩ :=
    (C23_template_less_records (fun format _ => format) exampleChain (by decide) 0 "boom"
      none).1 _ (List.mem_cons_self _ _)
      [((New exampleChain 0 "boom").2, RecordOp.SetCode 404),
       ((New exampleChain 0 "boom").2, RecordOp.Explain [] "why")] (by decide) (by decide)
  exact ⟨h1, hrun, (hU none).2, (hU none).1 5 (by decide), (hU (some 2)).2,
    (hU (some 2)).1 5 (by decide)⟩

end khata
